import Mathlib

/-!
# Truth-or-Dare party server (`src/server.js`): embedding and verification

The server keeps one in-memory table `rooms` and reacts to Socket.IO events.
Every event handler is embedded as a pure function from the table before the
event to an `Outcome`: the table afterwards, the messages that were sent, the
acknowledgements that were passed to the callback, and whether the handler
ended by throwing a `TypeError`.

Conventions of the embedding

* A JavaScript object used as a dictionary is a `JsObj`: its own properties in
  insertion order, keys pairwise distinct.
* `socket.id` is issued by the Socket.IO server, not sent by the client.  It is
  an opaque token (`SessionId`); objects keyed by it (`players`,
  `confirmations`) enumerate in insertion order and only their own properties
  are ever read (its 20 random characters are not a canonical array index; a
  coincidence with a member name of `Object.prototype` is not modelled).
* Room identifiers in requests are strings chosen by the client.  Reading
  `rooms[roomId]` follows the prototype chain of the object literal `rooms`,
  and `Object.keys(rooms)` lists canonical array indices first.
* Payload fields `name`, `mode`, `choice` are a string or absent (`none`).
* `Math.random()` and `Date.now()` are read from an environment `Env`, indexed
  by the number of earlier calls inside the same handler.  A draw is a rational
  of `[0, 1)` and `Math.floor(u * n)` is its exact floor, which ranges over the
  same indices `0 .. n - 1` as the rounded product of doubles.
* `Array.prototype.sort` is the one that Node runs: the TimSort of V8.  Its
  functions are embedded one by one, and the comparator of `start_game`, which
  ignores its arguments, is asked in the order in which V8 asks it.
* A `TypeError` ends the handler at the statement that raises it; what the
  handler did before stays done.  Runs of the server go on after a throw, which
  covers a process that survives it.
-/

namespace TruthOrDare

/-! ## JavaScript objects as insertion-ordered dictionaries -/

/-- Own properties of a JavaScript object, in insertion order. -/
structure JsObj (K : Type) (V : Type) where
  entries : List (K × V)
  nodup : (entries.map Prod.fst).Nodup

namespace JsObj

variable {K V : Type} [DecidableEq K]

/-- The object literal with no properties. -/
def empty : JsObj K V := ⟨[], List.nodup_nil⟩

/-- Own keys in insertion order. -/
def keys (o : JsObj K V) : List K := o.entries.map Prod.fst

/-- Number of own properties (the length of `Object.keys(o)`). -/
def size (o : JsObj K V) : Nat := o.entries.length

/-- Lookup in an association list. -/
def getList (k : K) : List (K × V) → Option V
  | [] => none
  | (a, v) :: rest => if a = k then some v else getList k rest

/-- Own-property read `o[k]`; `none` stands for `undefined`. -/
def get? (o : JsObj K V) (k : K) : Option V := getList k o.entries

/-- Whether `k` is an own property. -/
def has (o : JsObj K V) (k : K) : Bool := (o.get? k).isSome

/-- Assignment in an association list: an existing key keeps its position, a
new key goes to the end. -/
def setList (k : K) (v : V) : List (K × V) → List (K × V)
  | [] => [(k, v)]
  | (a, w) :: rest => if a = k then (a, v) :: rest else (a, w) :: setList k v rest

/-- Property assignment `o[k] = v`. -/
def set (o : JsObj K V) (k : K) (v : V) : JsObj K V :=
  ⟨setList k v o.entries, by
    have key : ∀ l : List (K × V), (setList k v l).map Prod.fst =
        if k ∈ l.map Prod.fst then l.map Prod.fst else l.map Prod.fst ++ [k] := by
      intro l
      induction l with
      | nil => simp [setList]
      | cons p rest ih =>
        obtain ⟨a, w⟩ := p
        by_cases h : a = k
        · subst h; simp [setList]
        · have h2 : ¬ k = a := fun e => h e.symm
          simp only [setList, h, if_false, List.map_cons, ih, List.mem_cons, h2, false_or]
          split <;> simp
    rw [key]
    split
    · exact o.nodup
    · rename_i hk
      rw [List.nodup_append]
      refine ⟨o.nodup, List.nodup_singleton k, ?_⟩
      intro a ha hb
      simp only [List.mem_singleton] at hb
      subst hb
      exact hk ha⟩

/-- Removal of a key from an association list. -/
def eraseList (k : K) : List (K × V) → List (K × V)
  | [] => []
  | (a, w) :: rest => if a = k then eraseList k rest else (a, w) :: eraseList k rest

/-- The statement `delete o[k]`. -/
def erase (o : JsObj K V) (k : K) : JsObj K V :=
  ⟨eraseList k o.entries, by
    have key : ∀ l : List (K × V), (eraseList k l).map Prod.fst =
        (l.map Prod.fst).filter (fun a => decide (a ≠ k)) := by
      intro l
      induction l with
      | nil => simp [eraseList]
      | cons p rest ih =>
        obtain ⟨a, w⟩ := p
        by_cases h : a = k
        · simp [eraseList, h, ih]
        · simp [eraseList, h, ih]
    rw [key]
    exact o.nodup.filter _⟩

end JsObj

/-! ## Runtime: randomness, clock, strings -/

/-- A value of `Math.random()`: the rational `num / den`, which lies in `[0, 1)`. -/
structure Draw where
  num : Nat
  den : Nat
  lt : num < den

/-- The integer `Math.floor(u * n)`. -/
def Draw.floorMul (u : Draw) (n : Nat) : Nat := u.num * n / u.den

/-- Whether `u - 0.5 < 0`: the comparator `() => Math.random() - 0.5` returns a
negative number on the draw `u`. -/
def Draw.ltHalf (u : Draw) : Bool := decide (2 * u.num < u.den)

/-- What a handler reads from the runtime: `random k` is the result of the
call of `Math.random()` that follows `k` earlier calls in the handler, `now k`
likewise for `Date.now()`. -/
structure Env where
  random : Nat → Draw
  now : Nat → Nat

/-- The expression `x || d` for a string-or-absent `x`: the empty string and
`undefined` are falsy. -/
def jsOr (x : Option String) (d : String) : String :=
  match x with
  | some s => if s = "" then d else s
  | none => d

/-- The constant `chars` of `randId`. -/
def chars : List Char := "ABCDEFGHJKMNPQRSTUVWXYZ23456789".data

/-- The expression `chars[i]` appended to a string: the character, or the
text `undefined` when `i` is out of range. -/
def charAt (cs : List Char) (i : Nat) : String :=
  match cs[i]? with
  | some c => String.singleton c
  | none => "undefined"

/-- The loop of `randId` with `n` rounds to go, `k` draws consumed so far and
`s` accumulated. -/
def randIdLoop (random : Nat → Draw) : Nat → Nat → String → String
  | 0, _, s => s
  | n + 1, k, s =>
    randIdLoop random n (k + 1) (s ++ charAt chars ((random k).floorMul chars.length))

/-- The function `randId(len)`, reading its draws from position `k`. -/
def randId (random : Nat → Draw) (k : Nat) (len : Nat) : String :=
  randIdLoop random len k ""

/-- The method `s.replace(pat, rep)` for a string pattern and a replacement
without `$`: the first occurrence of `pat` is replaced. -/
def replaceChars (pat rep : List Char) : List Char → List Char
  | [] => if pat.isEmpty then rep else []
  | c :: cs =>
    if pat.isPrefixOf (c :: cs) then rep ++ (c :: cs).drop pat.length
    else c :: replaceChars pat rep cs

/-- String form of `replaceChars`. -/
def replace (s pat rep : String) : String :=
  String.mk (replaceChars pat.data rep.data s.data)

/-- The expression `arr[i % arr.length]` inside a template literal. -/
def pick (arr : List String) (i : Nat) : String :=
  match arr[i % arr.length]? with
  | some s => s
  | none => "undefined"

/-! ## Prompt generator -/

def truthTemplates : List String := [
  "What's the wildest crush you've had since you were a teen?",
  "What's a secret habit you do when nobody's looking?",
  "What's the most embarrassing thing on your phone right now?",
  "What's a lie you told recently and why?",
  "Have you ever ghosted someone? Tell the story.",
  "What's a tiny crime you committed (no serious stuff) and didn't get caught?",
  "What's the dumbest thing you've done for a dare?",
  "What's one thing you'd change about your childhood if you could?",
  "Have you ever been caught singing or dancing alone? What happened?",
  "What's a rumor you started or spread unintentionally?"]

def dareTemplates : List String := [
  "Do your best pirate impression for 30 seconds.",
  "Sing the chorus of a random pop song like it's a dramatic monologue.",
  "Dance for 40 seconds without music, full commitment.",
  "Text the 3rd contact in your phone this exact phrase: 'you won't believe this' and show receipts.",
  "Pretend you're a cat and act like it for one minute.",
  "Tell a scandalous secret about yourself or make one up and commit.",
  "Call a random number and sing 'happy birthday' with gusto.",
  "Speak in a fake accent until your next turn.",
  "Let someone write a short message (5 words) and post it as your status/avatar.",
  "Wrap your head in a towel and say 'I am the shampoo king' for 20 seconds."]

def adjectives : List String :=
  ["awkward", "sneaky", "ridiculous", "brutal", "tiny", "embarrassing", "wild", "weird",
   "hilarious", "sweaty", "spicy", "cheeky"]

def actions : List String :=
  ["kiss a random object", "do 10 push-ups while singing",
   "dramatically confess love to an inanimate object",
   "hum the tune of your favorite song with no words",
   "act like you're walking on an invisible tightrope",
   "balance a spoon on your nose for 20s",
   "draw a moustache on your face with lipstick",
   "speak only in questions for 30s"]

def spin : List String :=
  ["in front of the group", "but whisper it like a scandal", "with full dramatic gestures",
   "while hopping on one foot", "in a slow-motion voiceover", "while blinking dramatically"]

/-- The two pools a room keeps under `prompts`. -/
structure Prompts where
  truths : List String
  dares : List String

/-- The truth pushed in round `i` of the loop of `generatePrompts`. -/
def truthAt (i : Nat) : String :=
  pick truthTemplates i ++ " (" ++ pick adjectives i ++ " edition #" ++ toString (i + 1) ++ ")"

/-- The dare pushed in round `i` of the loop of `generatePrompts`. -/
def dareAt (i : Nat) : String :=
  pick dareTemplates i ++ " — or " ++ pick actions i ++ " " ++ pick spin i
    ++ " (round " ++ toString (i + 1) ++ ")"

/-- The function `generatePrompts(mode)`. -/
def generatePrompts (mode : String) : Prompts :=
  let truths := (List.range 400).map truthAt
  let dares := (List.range 400).map dareAt
  let truths2 :=
    if mode = "risky" then truths.map (fun s => replace s "edition" "risky edition")
    else truths.map (fun s => replace s "edition" "funny edition")
  let dares2 :=
    if mode = "risky" then dares.map (fun s => replace s "or" "or (risky)")
    else dares.map (fun s => replace s "or" "or (funny)")
  { truths := truths2.take 350, dares := dares2.take 350 }

/-! ## Data model -/

/-- The value of `socket.id`: a token issued by the Socket.IO server. -/
structure SessionId where
  uid : Nat
  deriving DecidableEq

/-- An entry of `players`: `{id, name, joinedAt}`. -/
structure Player where
  id : SessionId
  name : String
  joinedAt : Nat

/-- An entry of `confirmations`: `{name, at}`. -/
structure Confirmation where
  name : String
  at_ : Nat

/-- The record `lastPrompt`: `{by, choice, text, at}`.  `choice` is stored as
received (absent when the payload had none) and `text` is `pool[idx]`, which is
`undefined` for an empty pool. -/
structure LastPrompt where
  by_ : String
  choice : Option String
  text : Option String
  at_ : Nat

/-- The field `state` of a room: `'lobby'` or `'playing'`. -/
inductive RoomState where
  | lobby
  | playing
  deriving DecidableEq

/-- A value of the table `rooms`. -/
structure Room where
  id : String
  createdAt : Nat
  hostId : SessionId
  hostName : String
  mode : String
  players : JsObj SessionId Player
  turnOrder : List SessionId
  currentTurnIdx : Nat
  state : RoomState
  lastPrompt : Option LastPrompt
  confirmations : JsObj SessionId Confirmation
  prompts : Prompts

/-- The table `rooms`: room id to room. -/
abbrev Registry := JsObj String Room

/-- Property names every object literal inherits from `Object.prototype`; the
inherited values are functions, or the prototype itself under `__proto__`, and
all of them are truthy. -/
def protoNames : List String :=
  ["constructor", "__defineGetter__", "__defineSetter__", "hasOwnProperty",
   "__lookupGetter__", "__lookupSetter__", "isPrototypeOf", "propertyIsEnumerable",
   "toString", "valueOf", "__proto__", "toLocaleString"]

/-- What the read `rooms[roomId]` yields when it is not `undefined`. -/
inductive Found where
  | own (r : Room)
  | inherited (key : String)

/-- The read `rooms[roomId]`: an own property, else a member inherited from
`Object.prototype`, else `undefined` (`none`). -/
def lookup (rooms : Registry) (roomId : String) : Option Found :=
  match rooms.get? roomId with
  | some r => some (Found.own r)
  | none => if roomId ∈ protoNames then some (Found.inherited roomId) else none

/-- The number a property name denotes when it is a canonical array index
(decimal digits without a leading zero, at most `2^32 - 2`). -/
def arrayIndex? (s : String) : Option Nat :=
  let digits := s.data.map (fun c => c.toNat - 48)
  let value := digits.foldl (fun acc d => 10 * acc + d) 0
  if s.data ≠ [] ∧ s.data.all (fun c => decide (48 ≤ c.toNat ∧ c.toNat ≤ 57))
      ∧ (s.data.head? ≠ some '0' ∨ s.data.length = 1) ∧ value ≤ 4294967294
  then some value else none

/-- The call `Object.keys(rooms)`: array indices in ascending numeric order,
then the other keys in insertion order. -/
def objectKeys (rooms : Registry) : List String :=
  List.insertionSort (fun a b => (arrayIndex? a).getD 0 ≤ (arrayIndex? b).getD 0)
      (rooms.keys.filter (fun k => (arrayIndex? k).isSome))
    ++ rooms.keys.filter (fun k => (arrayIndex? k).isNone)

/-- The text of a `log` message.
* `joined name`: the template `${name} joined the party`, `name` as received
* `started hostName`: `${r.hostName} started the game`
* `picked by choice prompt`: `${r.lastPrompt.by} picked ${choice.toUpperCase()} — ${prompt}`
* `confirmed name`: `${r.players[socket.id].name} confirmed`
* `allConfirmed`: `All confirmed — moving to next`
* `forced label`: `${label} forced next`
* `playerLeft`: `A player left`
* `hostLeft hostName`: `Host left — new host: ${r.hostName}` -/
inductive LogText where
  | joined (name : Option String)
  | started (hostName : String)
  | picked (by_ : String) (choice : String) (prompt : Option String)
  | confirmed (name : String)
  | allConfirmed
  | forced (label : String)
  | playerLeft
  | hostLeft (hostName : String)

/-- What a handler does to the outside, in order.  `room_update`, `log` and
`room_closed` go to the Socket.IO channel `roomId`, `room_created` and
`joined_room` to the acting socket only; a snapshot is the room as it is when
the message is sent.  The `ts` stamp of a `log` message is not recorded. -/
inductive Effect where
  | join (roomId : String)
  | leave (roomId : String)
  | room_created (roomId : String) (room : Room)
  | joined_room (roomId : String) (room : Room)
  | room_update (roomId : String) (room : Room)
  | room_closed (roomId : String)
  | log (roomId : String) (text : LogText)
  | console (roomId : String)

/-- The argument passed to the acknowledgement callback `cb`. -/
structure Ack where
  ok : Bool
  roomId : Option String := none
  error : Option String := none
  room : Option Found := none

/-- Result of one handler run: the table afterwards, the effects in order, the
arguments `cb` was called with, and whether the handler ended with an uncaught
`TypeError` (what was done before the throw stays done). -/
structure Outcome where
  rooms : Registry
  effects : List Effect
  acks : List Ack
  threw : Bool

/-- The statement `if(cb) cb(a)`; `cb` tells whether the request came with a
callback. -/
def callCb (cb : Bool) (a : Ack) : List Ack := if cb then [a] else []

/-! ## The sort of `start_game`

Line 142 shuffles with `ids.slice().sort(() => Math.random() - 0.5)`.  Node runs
`Array.prototype.sort` on V8, whose implementation (`array-sort.tq`, in Node 11
and later) is TimSort.  The definitions below follow that implementation
function by function, under the names it uses.

The comparator of line 142 ignores its two arguments, and the sort looks only
at whether its result is negative.  A comparison is therefore determined by
its rank in the sequence of comparator calls: `lt k` tells whether the call
that follows `k` earlier calls returns a negative number, and every function
takes the number `k` of calls made before it and returns the number made
after it.  The elements are strings (none is `undefined`), so every one of them
takes part in the sort.

The work array is a list.  Functions that work on the part `[low, high)` of the
work array receive that part; positions are counted from `low`.  Loops run on a
counter that bounds their number of iterations.  Small integers do not
overflow (the lengths are far below `2 ^ 30`). -/

/-- The macro `ComputeMinRunLength`, its loop: `r` becomes 1 if a 1 bit is
shifted off.  `n` halves in each iteration, so `n` iterations are enough. -/
def minRunLoop : Nat → Nat → Nat → Nat
  | 0, n, r => n + r
  | fuel + 1, n, r =>
    if 64 ≤ n then minRunLoop fuel (n >>> 1) (r ||| (n &&& 1)) else n + r

/-- The macro `ComputeMinRunLength`: the length itself below 64, otherwise a
number of `32 .. 64`. -/
def ComputeMinRunLength (nArg : Nat) : Nat := minRunLoop nArg nArg 0

/-- The loop of `CountAndMakeRun` over the positions `idx < high`, of which
`n` remain: the run grows while the comparison of an element with the one
before it agrees with the first comparison (`order < 0` in a descending run,
`order >= 0` otherwise); the comparison that ends the run is made too.
Returns the length of the run and the number of comparator calls. -/
def countRunLoop (lt : Nat → Bool) (isDescending : Bool) : Nat → Nat → Nat → Nat × Nat
  | 0, runLength, k => (runLength, k)
  | n + 1, runLength, k =>
    if lt k = isDescending then countRunLoop lt isDescending n (runLength + 1) (k + 1)
    else (runLength, k + 1)

/-- The macro `CountAndMakeRun(lowArg, high)` on `work = [lowArg, high)`: the
length of the run that starts at `lowArg`, that run reversed in place if it is
descending (`ReverseRange`), and the number of comparator calls.  A part of one
element is a run of length 1, found without a comparison; the sort never calls
the macro on an empty part. -/
def CountAndMakeRun {α : Type} (lt : Nat → Bool) (k : Nat) (work : List α) :
    Nat × List α × Nat :=
  match work with
  | [] => (0, work, k)
  | [_] => (1, work, k)
  | _ :: _ :: rest =>
    let isDescending := lt k
    let run := countRunLoop lt isDescending rest.length 2 (k + 1)
    if isDescending then (run.1, (work.take run.1).reverse ++ work.drop run.1, run.2)
    else (run.1, work, run.2)

/-- The binary search of `BinaryInsertionSort` for the place of the pivot in
`[left, right)`: `order < 0` moves `right` to `mid`, otherwise `left` moves to
`mid + 1`.  The interval shrinks in each iteration.  Returns `left` and the
number of comparator calls. -/
def binarySearch (lt : Nat → Bool) : Nat → Nat → Nat → Nat → Nat × Nat
  | 0, left, _, k => (left, k)
  | fuel + 1, left, right, k =>
    if left < right then
      if lt k then binarySearch lt fuel left (left + ((right - left) >>> 1)) (k + 1)
      else binarySearch lt fuel (left + ((right - left) >>> 1) + 1) right (k + 1)
    else (left, k)

/-- The loop `for (start; start < high; ++start)` of `BinaryInsertionSort` on
`work = [low, high)`: the pivot `work[start]` is taken out, the elements of
`[left, start)` move one place to the right, and the pivot goes to `left`. -/
def binaryInsertionLoop {α : Type} (lt : Nat → Bool) :
    Nat → Nat → Nat → List α → List α × Nat
  | 0, _, k, work => (work, k)
  | fuel + 1, start, k, work =>
    match work.drop start with
    | [] => (work, k)
    | pivot :: after =>
      let found := binarySearch lt start 0 start k
      binaryInsertionLoop lt fuel (start + 1) found.2
        ((work.take start).take found.1 ++ pivot :: ((work.take start).drop found.1 ++ after))

/-- The builtin `BinaryInsertionSort(low, startArg, high)` on
`work = [low, high)`, with `startArg` counted from `low`: the elements of
`[low, startArg)` are taken to be sorted, the others are inserted one by
one. -/
def BinaryInsertionSort {α : Type} (lt : Nat → Bool) (k : Nat) (work : List α)
    (startArg : Nat) : List α × Nat :=
  binaryInsertionLoop lt work.length (if startArg = 0 then startArg + 1 else startArg) k work

/-- The galloping loop `while (offset < maxOfs)` of `GallopLeft` and
`GallopRight`: it ends at a comparison whose `order < 0` is `stopOn`, and
otherwise steps to `offset = (offset << 1) + 1`.  `offset` grows in each
iteration.  Returns `lastOfs`, `offset` and the number of comparator calls. -/
def gallopLoop (lt : Nat → Bool) (stopOn : Bool) (maxOfs : Nat) :
    Nat → Nat → Nat → Nat → Nat × Nat × Nat
  | 0, lastOfs, offset, k => (lastOfs, offset, k)
  | fuel + 1, lastOfs, offset, k =>
    if offset < maxOfs then
      if lt k = stopOn then (lastOfs, offset, k + 1)
      else gallopLoop lt stopOn maxOfs fuel offset ((offset <<< 1) + 1) (k + 1)
    else (lastOfs, offset, k)

/-- The closing binary search `while (lastOfs < offset)` of `GallopLeft`
(`raise = true`: `order < 0` sets `lastOfs = m + 1`, otherwise `offset = m`) and
of `GallopRight` (`raise = false`: `order < 0` sets `offset = m`, otherwise
`lastOfs = m + 1`).  Returns `offset` and the number of comparator calls. -/
def gallopSearch (lt : Nat → Bool) (raise : Bool) : Nat → Nat → Nat → Nat → Nat × Nat
  | 0, _, offset, k => (offset, k)
  | fuel + 1, lastOfs, offset, k =>
    if lastOfs < offset then
      if lt k = raise then
        gallopSearch lt raise fuel (lastOfs + ((offset - lastOfs) >>> 1) + 1) offset (k + 1)
      else gallopSearch lt raise fuel lastOfs (lastOfs + ((offset - lastOfs) >>> 1)) (k + 1)
    else (offset, k)

/-- The builtin `GallopLeft(array, key, base, length, hint)`.  After a first
comparison with `order < 0` it gallops right (`maxOfs = length - hint`, until
`order >= 0`) and shifts both offsets by `hint`; otherwise it gallops left
(`maxOfs = hint + 1`, until `order < 0`) and mirrors both offsets at `hint`.
`offset` is capped at `maxOfs`, `lastOfs` is incremented (the mirrored value
may be `-1`, so the incremented one is computed), and the binary search
follows.  Returns the offset and the number of comparator calls. -/
def GallopLeft (lt : Nat → Bool) (k : Nat) (length hint : Nat) : Nat × Nat :=
  if lt k then
    let g := gallopLoop lt false (length - hint) (length - hint) 0 1 (k + 1)
    let offset := min g.2.1 (length - hint)
    gallopSearch lt true (offset + hint) (g.1 + hint + 1) (offset + hint) g.2.2
  else
    let g := gallopLoop lt true (hint + 1) (hint + 1) 0 1 (k + 1)
    let offset := min g.2.1 (hint + 1)
    gallopSearch lt true (hint - g.1) (hint + 1 - offset) (hint - g.1) g.2.2

/-- The builtin `GallopRight(array, key, base, length, hint)`.  After a first
comparison with `order < 0` it gallops left (`maxOfs = hint + 1`, until
`order >= 0`) and mirrors both offsets at `hint`; otherwise it gallops right
(`maxOfs = length - hint`, until `order < 0`) and shifts both offsets by
`hint`.  The rest is as in `GallopLeft`, with the other binary search. -/
def GallopRight (lt : Nat → Bool) (k : Nat) (length hint : Nat) : Nat × Nat :=
  if lt k then
    let g := gallopLoop lt false (hint + 1) (hint + 1) 0 1 (k + 1)
    let offset := min g.2.1 (hint + 1)
    gallopSearch lt false (hint - g.1) (hint + 1 - offset) (hint - g.1) g.2.2
  else
    let g := gallopLoop lt true (length - hint) (length - hint) 0 1 (k + 1)
    let offset := min g.2.1 (length - hint)
    gallopSearch lt false (offset + hint) (g.1 + hint + 1) (offset + hint) g.2.2

/-- The constant `kMinGallopWins`, also the first value of `minGallop`. -/
def kMinGallopWins : Nat := 7

/-- What a merge leaves: the merged part of the work array, the number of
comparator calls, and the value of `sortState.minGallop`. -/
structure Merged (α : Type) where
  work : List α
  k : Nat
  minGallop : Nat

/-- Where a merge stands: in its inner loop that moves one element at a
time, with the numbers of wins in a row of either run, or in its galloping
loop. -/
inductive MergeMode where
  | straight (nofWinsA nofWinsB : Nat)
  | galloping

/-- The loops of `MergeLow`.  `dest` is what has been written, `tempA` what is
left of run A in the temporary array, `runB` what is left of run B in the work
array; `minGallop` is the local variable.  Label `Succeed` ends with
`dest ++ tempA ++ runB` (the rest of B is in place behind the rest of A), label
`CopyB` with `dest ++ runB ++ tempA` (one element is left of A).
`sortState.minGallop` is written at the head of a galloping iteration and on
leaving the galloping loop.  Every iteration writes an element, so
`lengthA + lengthB` iterations are enough. -/
def mergeLowLoop {α : Type} (lt : Nat → Bool) :
    Nat → MergeMode → Nat → Nat → List α → List α → List α → Merged α
  | 0, _, minGallop, k, dest, _, _ => ⟨dest, k, minGallop⟩
  | fuel + 1, MergeMode.straight nofWinsA nofWinsB, minGallop, k, dest, tempA, runB =>
    if lt k then
      match runB with
      | [] => ⟨dest ++ tempA, k + 1, minGallop⟩
      | b :: restB =>
        if restB.length = 0 then ⟨dest ++ [b] ++ tempA ++ restB, k + 1, minGallop⟩
        else if minGallop ≤ nofWinsB + 1 then
          mergeLowLoop lt fuel MergeMode.galloping (minGallop + 1) (k + 1) (dest ++ [b])
            tempA restB
        else
          mergeLowLoop lt fuel (MergeMode.straight 0 (nofWinsB + 1)) minGallop (k + 1)
            (dest ++ [b]) tempA restB
    else
      match tempA with
      | [] => ⟨dest ++ runB, k + 1, minGallop⟩
      | a :: restA =>
        if restA.length = 1 then ⟨dest ++ [a] ++ runB ++ restA, k + 1, minGallop⟩
        else if minGallop ≤ nofWinsA + 1 then
          mergeLowLoop lt fuel MergeMode.galloping (minGallop + 1) (k + 1) (dest ++ [a])
            restA runB
        else
          mergeLowLoop lt fuel (MergeMode.straight (nofWinsA + 1) 0) minGallop (k + 1)
            (dest ++ [a]) restA runB
  | fuel + 1, MergeMode.galloping, minGallop, k, dest, tempA, runB =>
    let minGallop1 := max 1 (minGallop - 1)
    let gr := GallopRight lt k tempA.length 0
    let nofWinsA := gr.1
    let dest1 := dest ++ tempA.take nofWinsA
    let tempA1 := tempA.drop nofWinsA
    if 0 < nofWinsA ∧ tempA1.length = 1 then ⟨dest1 ++ runB ++ tempA1, gr.2, minGallop1⟩
    else if 0 < nofWinsA ∧ tempA1.length = 0 then ⟨dest1 ++ tempA1 ++ runB, gr.2, minGallop1⟩
    else
      match runB with
      | [] => ⟨dest1 ++ tempA1, gr.2, minGallop1⟩
      | b :: restB =>
        if restB.length = 0 then ⟨dest1 ++ [b] ++ tempA1 ++ restB, gr.2, minGallop1⟩
        else
          let gl := GallopLeft lt gr.2 restB.length 0
          let nofWinsB := gl.1
          let dest2 := dest1 ++ [b] ++ restB.take nofWinsB
          let runB2 := restB.drop nofWinsB
          if 0 < nofWinsB ∧ runB2.length = 0 then ⟨dest2 ++ tempA1 ++ runB2, gl.2, minGallop1⟩
          else
            match tempA1 with
            | [] => ⟨dest2 ++ runB2, gl.2, minGallop1⟩
            | a :: restA =>
              if restA.length = 1 then ⟨dest2 ++ [a] ++ runB2 ++ restA, gl.2, minGallop1⟩
              else if kMinGallopWins ≤ nofWinsA ∨ kMinGallopWins ≤ nofWinsB then
                mergeLowLoop lt fuel MergeMode.galloping minGallop1 gl.2 (dest2 ++ [a])
                  restA runB2
              else
                mergeLowLoop lt fuel (MergeMode.straight 0 0) (minGallop1 + 1) gl.2
                  (dest2 ++ [a]) restA runB2

/-- The builtin `MergeLow(baseA, lengthA, baseB, lengthB)`, used when
`lengthA <= lengthB`: run A is copied to the temporary array, the first element
of B is written, and the merge goes from left to right. -/
def MergeLow {α : Type} (lt : Nat → Bool) (k minGallop : Nat) (runA runB : List α) :
    Merged α :=
  match runB with
  | [] => ⟨runA, k, minGallop⟩
  | b :: restB =>
    if restB.length = 0 then ⟨[b] ++ runA ++ restB, k, minGallop⟩
    else if runA.length = 1 then ⟨[b] ++ restB ++ runA, k, minGallop⟩
    else
      mergeLowLoop lt (runA.length + restB.length) (MergeMode.straight 0 0) minGallop k [b]
        runA restB

/-- The loops of `MergeHigh`, which go from right to left.  `dest` is what has
been written (the tail of the merged part), `runA` what is left of run A in the
work array, `tempB` what is left of run B in the temporary array.  In the
inner loop `order < 0` takes the last element of A, otherwise the last of B.
Label `Succeed` ends with `runA ++ tempB ++ dest`, label `CopyA` with
`tempB ++ runA ++ dest` (one element is left of B). -/
def mergeHighLoop {α : Type} (lt : Nat → Bool) :
    Nat → MergeMode → Nat → Nat → List α → List α → List α → Merged α
  | 0, _, minGallop, k, dest, _, _ => ⟨dest, k, minGallop⟩
  | fuel + 1, MergeMode.straight nofWinsA nofWinsB, minGallop, k, dest, runA, tempB =>
    if lt k then
      let restA := runA.take (runA.length - 1)
      let dest1 := runA.drop (runA.length - 1) ++ dest
      if restA.length = 0 then ⟨restA ++ tempB ++ dest1, k + 1, minGallop⟩
      else if minGallop ≤ nofWinsA + 1 then
        mergeHighLoop lt fuel MergeMode.galloping (minGallop + 1) (k + 1) dest1 restA tempB
      else
        mergeHighLoop lt fuel (MergeMode.straight (nofWinsA + 1) 0) minGallop (k + 1) dest1
          restA tempB
    else
      let restB := tempB.take (tempB.length - 1)
      let dest1 := tempB.drop (tempB.length - 1) ++ dest
      if restB.length = 1 then ⟨restB ++ runA ++ dest1, k + 1, minGallop⟩
      else if minGallop ≤ nofWinsB + 1 then
        mergeHighLoop lt fuel MergeMode.galloping (minGallop + 1) (k + 1) dest1 runA restB
      else
        mergeHighLoop lt fuel (MergeMode.straight 0 (nofWinsB + 1)) minGallop (k + 1) dest1
          runA restB
  | fuel + 1, MergeMode.galloping, minGallop, k, dest, runA, tempB =>
    let minGallop1 := max 1 (minGallop - 1)
    let gr := GallopRight lt k runA.length (runA.length - 1)
    let nofWinsA := runA.length - gr.1
    let dest1 := runA.drop gr.1 ++ dest
    let runA1 := runA.take gr.1
    if 0 < nofWinsA ∧ runA1.length = 0 then ⟨runA1 ++ tempB ++ dest1, gr.2, minGallop1⟩
    else
      let restB := tempB.take (tempB.length - 1)
      let dest2 := tempB.drop (tempB.length - 1) ++ dest1
      if restB.length = 1 then ⟨restB ++ runA1 ++ dest2, gr.2, minGallop1⟩
      else
        let gl := GallopLeft lt gr.2 restB.length (restB.length - 1)
        let nofWinsB := restB.length - gl.1
        let dest3 := restB.drop gl.1 ++ dest2
        let tempB1 := restB.take gl.1
        if 0 < nofWinsB ∧ tempB1.length = 1 then ⟨tempB1 ++ runA1 ++ dest3, gl.2, minGallop1⟩
        else if 0 < nofWinsB ∧ tempB1.length = 0 then
          ⟨runA1 ++ tempB1 ++ dest3, gl.2, minGallop1⟩
        else
          let restA := runA1.take (runA1.length - 1)
          let dest4 := runA1.drop (runA1.length - 1) ++ dest3
          if restA.length = 0 then ⟨restA ++ tempB1 ++ dest4, gl.2, minGallop1⟩
          else if kMinGallopWins ≤ nofWinsA ∨ kMinGallopWins ≤ nofWinsB then
            mergeHighLoop lt fuel MergeMode.galloping minGallop1 gl.2 dest4 restA tempB1
          else
            mergeHighLoop lt fuel (MergeMode.straight 0 0) (minGallop1 + 1) gl.2 dest4 restA
              tempB1

/-- The builtin `MergeHigh(baseA, lengthA, baseB, lengthB)`, used when
`lengthA > lengthB`: run B is copied to the temporary array, the last element
of A is written, and the merge goes from right to left. -/
def MergeHigh {α : Type} (lt : Nat → Bool) (k minGallop : Nat) (runA runB : List α) :
    Merged α :=
  let restA := runA.take (runA.length - 1)
  let dest := runA.drop (runA.length - 1)
  if restA.length = 0 then ⟨restA ++ runB ++ dest, k, minGallop⟩
  else if runB.length = 1 then ⟨runB ++ restA ++ dest, k, minGallop⟩
  else
    mergeHighLoop lt (restA.length + runB.length) (MergeMode.straight 0 0) minGallop k dest
      restA runB

/-- The builtin `MergeAt(i)` on the two runs at `i` and `i + 1` of the stack:
the elements of A that are in place already (`GallopRight` with the first
element of B) and those of B (`GallopLeft` with the last element of A) are set
aside, and what is left is merged by `MergeLow` or `MergeHigh`. -/
def MergeAt {α : Type} (lt : Nat → Bool) (k minGallop : Nat) (runA runB : List α) :
    Merged α :=
  let gr := GallopRight lt k runA.length 0
  let restA := runA.drop gr.1
  if restA.length = 0 then ⟨runA ++ runB, gr.2, minGallop⟩
  else
    let gl := GallopLeft lt gr.2 runB.length (runB.length - 1)
    let headB := runB.take gl.1
    if headB.length = 0 then ⟨runA ++ runB, gl.2, minGallop⟩
    else
      let m :=
        if restA.length ≤ headB.length then MergeLow lt gl.2 minGallop restA headB
        else MergeHigh lt gl.2 minGallop restA headB
      ⟨runA.take gr.1 ++ m.work ++ runB.drop gl.1, m.k, m.minGallop⟩

/-- The state of a sort (`SortState`): the stack `pendingRuns`, its top first,
each run with its elements (the work array is the runs from the bottom of the
stack to its top, followed by the part not yet looked at), the number of
comparator calls, and `minGallop`. -/
structure SortState (α : Type) where
  pendingRuns : List (List α)
  k : Nat
  minGallop : Nat

/-- The macro `MergeCollapse`, with `n = size - 2`: run `n + 1` is the top of
the stack.  When `RunInvariantEstablished` fails at `n + 1` or at `n`, the
merge is at `n - 1` if run `n - 1` is shorter than run `n + 1`, and at `n`
otherwise; when it holds at both, the merge is at `n` if run `n` is not longer
than run `n + 1`, and the loop ends otherwise.  Each merge takes a run off
the stack. -/
def MergeCollapse {α : Type} (lt : Nat → Bool) : Nat → SortState α → SortState α
  | 0, st => st
  | fuel + 1, st =>
    match st.pendingRuns with
    | [top, second] =>
      if second.length ≤ top.length then
        let m := MergeAt lt st.k st.minGallop second top
        MergeCollapse lt fuel ⟨[m.work], m.k, m.minGallop⟩
      else st
    | top :: second :: third :: rest =>
      let established1 := decide (second.length + top.length < third.length)
      let established0 :=
        match rest with
        | [] => true
        | fourth :: _ => decide (third.length + second.length < fourth.length)
      if (!established1 || !established0) then
        if third.length < top.length then
          let m := MergeAt lt st.k st.minGallop third second
          MergeCollapse lt fuel ⟨top :: m.work :: rest, m.k, m.minGallop⟩
        else
          let m := MergeAt lt st.k st.minGallop second top
          MergeCollapse lt fuel ⟨m.work :: third :: rest, m.k, m.minGallop⟩
      else if second.length ≤ top.length then
        let m := MergeAt lt st.k st.minGallop second top
        MergeCollapse lt fuel ⟨m.work :: third :: rest, m.k, m.minGallop⟩
      else st
    | _ => st

/-- The macro `MergeForceCollapse`: while more than one run is on the stack,
the merge is at `n - 1` if `n > 0` and run `n - 1` is shorter than run `n + 1`,
and at `n` otherwise. -/
def MergeForceCollapse {α : Type} (lt : Nat → Bool) : Nat → SortState α → SortState α
  | 0, st => st
  | fuel + 1, st =>
    match st.pendingRuns with
    | [top, second] =>
      let m := MergeAt lt st.k st.minGallop second top
      MergeForceCollapse lt fuel ⟨[m.work], m.k, m.minGallop⟩
    | top :: second :: third :: rest =>
      if third.length < top.length then
        let m := MergeAt lt st.k st.minGallop third second
        MergeForceCollapse lt fuel ⟨top :: m.work :: rest, m.k, m.minGallop⟩
      else
        let m := MergeAt lt st.k st.minGallop second top
        MergeForceCollapse lt fuel ⟨m.work :: third :: rest, m.k, m.minGallop⟩
    | _ => st

/-- The loop `while (remaining != 0)` of `ArrayTimSortImpl`; `work` is the
part `[low, low + remaining)`.  A run shorter than `minRunLength` is extended
to `min(minRunLength, remaining)` elements by `BinaryInsertionSort`; the run is
pushed and `MergeCollapse` is called.  Every run has an element, so
`remaining` iterations are enough. -/
def timSortLoop {α : Type} (lt : Nat → Bool) (minRunLength : Nat) :
    Nat → SortState α → List α → SortState α
  | 0, st, _ => st
  | fuel + 1, st, work =>
    if work.length = 0 then st
    else
      let run := CountAndMakeRun lt st.k work
      let currentRunLength :=
        if run.1 < minRunLength then min minRunLength work.length else run.1
      let made :=
        if run.1 < minRunLength then
          BinaryInsertionSort lt run.2.2 (run.2.1.take currentRunLength) run.1
        else (run.2.1.take currentRunLength, run.2.2)
      let pushed : SortState α := ⟨made.1 :: st.pendingRuns, made.2, st.minGallop⟩
      timSortLoop lt minRunLength fuel (MergeCollapse lt pushed.pendingRuns.length pushed)
        (run.2.1.drop currentRunLength)

/-- The work array at the end: the runs from the bottom of the stack to its
top. -/
def workArray {α : Type} (st : SortState α) : List α := st.pendingRuns.reverse.flatten

/-- The macro `ArrayTimSortImpl` on a work array and a comparator: nothing
happens below two elements; otherwise runs are made and merged, and
`MergeForceCollapse` leaves one run. -/
def ArrayTimSortImpl {α : Type} (lt : Nat → Bool) (work : List α) : List α :=
  if work.length < 2 then work
  else
    let st := timSortLoop lt (ComputeMinRunLength work.length) work.length ⟨[], 0, kMinGallopWins⟩
      work
    workArray (MergeForceCollapse lt st.pendingRuns.length st)

/-- The call `ids.slice().sort(() => Math.random() - 0.5)` of line 142: `slice`
copies the array, and the sort asks the comparator, whose call number `k` is
negative when the draw number `k` of the handler lies below one half. -/
def shuffle {α : Type} (random : Nat → Draw) (ids : List α) : List α :=
  ArrayTimSortImpl (fun k => (random k).ltHalf) ids

/-! ## Event handlers

Each handler takes the runtime readings `env`, the acting connection `socket`
(its `socket.id`), the payload fields, whether a callback `cb` came with the
request, and the table `rooms`. -/

/-- A handler that stops with an uncaught `TypeError` after `effects`. -/
def thrown (rooms : Registry) (effects : List Effect) : Outcome :=
  { rooms := rooms, effects := effects, acks := [], threw := true }

/-- The handler of `create_room`. -/
def create_room (env : Env) (socket : SessionId) (name mode : Option String) (cb : Bool)
    (rooms : Registry) : Outcome :=
  let roomId := randId env.random 0 6
  let r0 : Room :=
    { id := roomId
      createdAt := env.now 0
      hostId := socket
      hostName := jsOr name "Host"
      mode := jsOr mode "funny"
      players := JsObj.empty
      turnOrder := []
      currentTurnIdx := 0
      state := RoomState.lobby
      lastPrompt := none
      confirmations := JsObj.empty
      prompts := generatePrompts (jsOr mode "funny") }
  let p : Player := { id := socket, name := jsOr name "Player", joinedAt := env.now 1 }
  let r : Room := { r0 with players := r0.players.set socket p }
  { rooms := rooms.set roomId r
    effects := [Effect.join roomId, Effect.room_created roomId r, Effect.room_update roomId r,
      Effect.console roomId]
    acks := callCb cb { ok := true, roomId := some roomId }
    threw := false }

/-- The handler of `join_room`. -/
def join_room (env : Env) (socket : SessionId) (roomId : String) (name : Option String)
    (cb : Bool) (rooms : Registry) : Outcome :=
  match lookup rooms roomId with
  | none =>
    { rooms := rooms, effects := []
      acks := callCb cb { ok := false, error := some "Room not found" }, threw := false }
  | some (Found.inherited _) => thrown rooms []
  | some (Found.own r) =>
    let p : Player :=
      { id := socket, name := jsOr name ("Player_" ++ randId env.random 0 3),
        joinedAt := env.now 0 }
    let r1 : Room := { r with players := r.players.set socket p }
    { rooms := rooms.set roomId r1
      effects := [Effect.join roomId, Effect.room_update roomId r1,
        Effect.joined_room roomId r1, Effect.log roomId (LogText.joined name)]
      acks := callCb cb { ok := true }
      threw := false }

/-- The handler of `leave_room`. -/
def leave_room (socket : SessionId) (roomId : String) (cb : Bool) (rooms : Registry) :
    Outcome :=
  match lookup rooms roomId with
  | none => { rooms := rooms, effects := [], acks := callCb cb { ok := false }, threw := false }
  | some (Found.inherited _) => thrown rooms []
  | some (Found.own r) =>
    let r1 : Room := { r with players := r.players.erase socket }
    if r1.hostId = socket then
      match r1.players.keys with
      | id0 :: _ =>
        match r1.players.get? id0 with
        | none => thrown (rooms.set roomId { r1 with hostId := id0 }) [Effect.leave roomId]
        | some p =>
          let r2 : Room := { r1 with hostId := id0, hostName := p.name }
          { rooms := rooms.set roomId r2
            effects := [Effect.leave roomId, Effect.room_update roomId r2]
            acks := callCb cb { ok := true }
            threw := false }
      | [] =>
        { rooms := rooms.erase roomId
          effects := [Effect.leave roomId, Effect.room_closed roomId]
          acks := []
          threw := false }
    else
      { rooms := rooms.set roomId r1
        effects := [Effect.leave roomId, Effect.room_update roomId r1]
        acks := callCb cb { ok := true }
        threw := false }

/-- The handler of `start_game`. -/
def start_game (env : Env) (roomId : String) (cb : Bool) (rooms : Registry) : Outcome :=
  match lookup rooms roomId with
  | none => { rooms := rooms, effects := [], acks := callCb cb { ok := false }, threw := false }
  | some (Found.inherited _) => thrown rooms []
  | some (Found.own r) =>
    let ids := r.players.keys
    let shuffled := shuffle env.random ids
    let r1 : Room :=
      { r with turnOrder := shuffled, state := RoomState.playing, currentTurnIdx := 0,
               confirmations := JsObj.empty, lastPrompt := none }
    { rooms := rooms.set roomId r1
      effects := [Effect.room_update roomId r1, Effect.log roomId (LogText.started r1.hostName)]
      acks := callCb cb { ok := true }
      threw := false }

/-- The label `r.players[socket.id] ? r.players[socket.id].name : d`. -/
def nameOr (r : Room) (socket : SessionId) (d : String) : String :=
  match r.players.get? socket with
  | some p => p.name
  | none => d

/-- The handler of `pick_prompt`. -/
def pick_prompt (env : Env) (socket : SessionId) (roomId : String) (choice : Option String)
    (cb : Bool) (rooms : Registry) : Outcome :=
  match lookup rooms roomId with
  | none => { rooms := rooms, effects := [], acks := callCb cb { ok := false }, threw := false }
  | some (Found.inherited _) => thrown rooms []
  | some (Found.own r) =>
    let pool := if choice = some "truth" then r.prompts.truths else r.prompts.dares
    let idx := (env.random 0).floorMul pool.length
    let prompt := pool[idx]?
    let lp : LastPrompt :=
      { by_ := nameOr r socket "unknown", choice := choice, text := prompt, at_ := env.now 0 }
    let r1 : Room := { r with lastPrompt := some lp, confirmations := JsObj.empty }
    match choice with
    | none => thrown (rooms.set roomId r1) [Effect.room_update roomId r1]
    | some c =>
      { rooms := rooms.set roomId r1
        effects := [Effect.room_update roomId r1,
          Effect.log roomId (LogText.picked lp.by_ c prompt)]
        acks := callCb cb { ok := true }
        threw := false }

/-- The turn index after an advance: `(r.currentTurnIdx + 1) % Math.max(1, r.turnOrder.length)`. -/
def nextTurnIdx (r : Room) : Nat := (r.currentTurnIdx + 1) % max 1 r.turnOrder.length

/-- The handler of `confirm_did_it`. -/
def confirm_did_it (env : Env) (socket : SessionId) (roomId : String) (cb : Bool)
    (rooms : Registry) : Outcome :=
  match lookup rooms roomId with
  | none => { rooms := rooms, effects := [], acks := callCb cb { ok := false }, threw := false }
  | some (Found.inherited _) => thrown rooms []
  | some (Found.own r) =>
    let c : Confirmation := { name := nameOr r socket "anon", at_ := env.now 0 }
    let r1 : Room := { r with confirmations := r.confirmations.set socket c }
    match r1.players.get? socket with
    | none => thrown (rooms.set roomId r1) [Effect.room_update roomId r1]
    | some p =>
      let totalPlayers : Int := r1.players.keys.length
      let needed : Int := max 0 (totalPlayers - 1)
      let got : Int := r1.confirmations.keys.length
      if got ≥ needed ∧ needed > 0 then
        let r2 : Room :=
          { r1 with currentTurnIdx := nextTurnIdx r1, confirmations := JsObj.empty,
                    lastPrompt := none }
        { rooms := rooms.set roomId r2
          effects := [Effect.room_update roomId r1, Effect.log roomId (LogText.confirmed p.name),
            Effect.room_update roomId r2, Effect.log roomId LogText.allConfirmed]
          acks := callCb cb { ok := true }
          threw := false }
      else
        { rooms := rooms.set roomId r1
          effects := [Effect.room_update roomId r1, Effect.log roomId (LogText.confirmed p.name)]
          acks := callCb cb { ok := true }
          threw := false }

/-- The handler of `force_next`. -/
def force_next (socket : SessionId) (roomId : String) (cb : Bool) (rooms : Registry) :
    Outcome :=
  match lookup rooms roomId with
  | none => { rooms := rooms, effects := [], acks := callCb cb { ok := false }, threw := false }
  | some (Found.inherited _) => thrown rooms []
  | some (Found.own r) =>
    let r1 : Room :=
      { r with currentTurnIdx := nextTurnIdx r, confirmations := JsObj.empty, lastPrompt := none }
    { rooms := rooms.set roomId r1
      effects := [Effect.room_update roomId r1,
        Effect.log roomId (LogText.forced (nameOr r1 socket "someone"))]
      acks := callCb cb { ok := true }
      threw := false }

/-- The handler of `get_room`. -/
def get_room (roomId : String) (cb : Bool) (rooms : Registry) : Outcome :=
  match lookup rooms roomId with
  | none => { rooms := rooms, effects := [], acks := callCb cb { ok := false }, threw := false }
  | some r =>
    { rooms := rooms, effects := [], acks := callCb cb { ok := true, room := some r },
      threw := false }

/-- One round of the loop `for(const roomId of Object.keys(rooms))` of the
`disconnect` handler; `acc` is what the handler has done so far.  After a throw
the remaining rounds do not run. -/
def disconnectStep (socket : SessionId) (acc : Outcome) (roomId : String) : Outcome :=
  if acc.threw then acc
  else
    match lookup acc.rooms roomId with
    | none => { acc with threw := true }
    | some (Found.inherited _) => acc
    | some (Found.own r) =>
      if r.players.has socket then
        let r1 : Room := { r with players := r.players.erase socket }
        let sent := acc.effects ++
          [Effect.room_update roomId r1, Effect.log roomId LogText.playerLeft]
        if r1.hostId = socket then
          match r1.players.keys with
          | id0 :: _ =>
            match r1.players.get? id0 with
            | none =>
              { rooms := acc.rooms.set roomId { r1 with hostId := id0 }, effects := sent,
                acks := acc.acks, threw := true }
            | some p =>
              let r2 : Room := { r1 with hostId := id0, hostName := p.name }
              { rooms := acc.rooms.set roomId r2
                effects := sent ++ [Effect.log roomId (LogText.hostLeft r2.hostName)]
                acks := acc.acks
                threw := false }
          | [] =>
            { rooms := acc.rooms.erase roomId, effects := sent, acks := acc.acks,
              threw := false }
        else
          { rooms := acc.rooms.set roomId r1, effects := sent, acks := acc.acks,
            threw := false }
      else acc

/-- The handler of `disconnect`. -/
def disconnect (socket : SessionId) (rooms : Registry) : Outcome :=
  (objectKeys rooms).foldl (disconnectStep socket)
    { rooms := rooms, effects := [], acks := [], threw := false }

/-! ## Requests and runs of the server -/

/-- An event a connection can send, with its payload. -/
inductive Request where
  | create_room (name mode : Option String)
  | join_room (roomId : String) (name : Option String)
  | leave_room (roomId : String)
  | start_game (roomId : String)
  | pick_prompt (roomId : String) (choice : Option String)
  | confirm_did_it (roomId : String)
  | force_next (roomId : String)
  | get_room (roomId : String)
  | disconnect

/-- One event as the server receives it: the runtime readings during its
handler, the connection it came from, the request, and whether it carried an
acknowledgement callback. -/
structure Incoming where
  env : Env
  socket : SessionId
  request : Request
  cb : Bool

/-- Dispatch of an event to its handler. -/
def handle (e : Incoming) (rooms : Registry) : Outcome :=
  match e.request with
  | Request.create_room name mode => create_room e.env e.socket name mode e.cb rooms
  | Request.join_room roomId name => join_room e.env e.socket roomId name e.cb rooms
  | Request.leave_room roomId => leave_room e.socket roomId e.cb rooms
  | Request.start_game roomId => start_game e.env roomId e.cb rooms
  | Request.pick_prompt roomId choice => pick_prompt e.env e.socket roomId choice e.cb rooms
  | Request.confirm_did_it roomId => confirm_did_it e.env e.socket roomId e.cb rooms
  | Request.force_next roomId => force_next e.socket roomId e.cb rooms
  | Request.get_room roomId => get_room roomId e.cb rooms
  | Request.disconnect => disconnect e.socket rooms

/-- The table after the server, started with `rooms = {}`, has handled the
events of `trace` in order.  A handler that threw leaves the table as it was at
the throw. -/
def run (trace : List Incoming) : Registry :=
  trace.foldl (fun rooms e => (handle e rooms).rooms) JsObj.empty

/-- A table the server can be in: the result of some run. -/
def Reachable (rooms : Registry) : Prop := ∃ trace, run trace = rooms

/-- Facts about a room that every handler keeps: the host is a player, the turn
index is below `max(1, turnOrder.length)`, and both prompt pools have 350
entries. -/
def RoomOk (r : Room) : Prop :=
  r.hostId ∈ r.players.keys ∧ r.currentTurnIdx < max 1 r.turnOrder.length ∧
    r.prompts.truths.length = 350 ∧ r.prompts.dares.length = 350

/-- Facts about the table that every handler keeps: every room satisfies
`RoomOk` and every key is six characters long. -/
def RegOk (rooms : Registry) : Prop :=
  (∀ k r, rooms.get? k = some r → RoomOk r) ∧ ∀ k ∈ rooms.keys, k.length = 6

/-- What the loop of `disconnect` does to one room: `none` when the room is
deleted. -/
def disconnectRoom (socket : SessionId) (r : Room) : Option Room :=
  if r.players.has socket then
    if r.hostId = socket then
      match (r.players.erase socket).keys with
      | id0 :: _ =>
        some { r with players := r.players.erase socket, hostId := id0,
                      hostName := nameOr { r with players := r.players.erase socket } id0 "" }
      | [] => none
    else some { r with players := r.players.erase socket }
  else some r

/-! ## Sample values -/

/-- Runtime readings in which every draw is `0` and the clock stands at `0`. -/
def env0 : Env := { random := fun _ => ⟨0, 1, by decide⟩, now := fun _ => 0 }

/-- Runtime readings in which every draw is `3/4`. -/
def env1 : Env := { random := fun _ => ⟨3, 4, by decide⟩, now := fun _ => 0 }

/-- A first connection. -/
def ann : SessionId := ⟨1⟩

/-- A second connection. -/
def bob : SessionId := ⟨2⟩

/-- A third connection, which joins no room. -/
def eve : SessionId := ⟨3⟩

/-- Ann creates a room; with `env0` its id is `AAAAAA`. -/
def annCreates : Incoming :=
  { env := env0, socket := ann, request := Request.create_room (some "Ann") (some "funny"),
    cb := true }

/-- Bob joins the room `AAAAAA`. -/
def bobJoins : Incoming :=
  { env := env0, socket := bob, request := Request.join_room "AAAAAA" (some "Bob"), cb := true }

/-- Ann starts the game in `AAAAAA`; with `env1` the one comparison of the sort
is not negative and the two players keep their order. -/
def annStarts : Incoming :=
  { env := env1, socket := ann, request := Request.start_game "AAAAAA", cb := true }

/-- Ann picks a truth in `AAAAAA`. -/
def annPicks : Incoming :=
  { env := env0, socket := ann, request := Request.pick_prompt "AAAAAA" (some "truth"),
    cb := true }

/-- Bob confirms in `AAAAAA`. -/
def bobConfirms : Incoming :=
  { env := env0, socket := bob, request := Request.confirm_did_it "AAAAAA", cb := true }

/-- The room `AAAAAA` right after Ann created it. -/
def roomOfAnn : Room :=
  { id := "AAAAAA"
    createdAt := 0
    hostId := ann
    hostName := "Ann"
    mode := "funny"
    players := JsObj.empty.set ann { id := ann, name := "Ann", joinedAt := 0 }
    turnOrder := []
    currentTurnIdx := 0
    state := RoomState.lobby
    lastPrompt := none
    confirmations := JsObj.empty
    prompts := generatePrompts "funny" }

/-- The room `AAAAAA` with Ann and Bob in the lobby. -/
def roomOfTwo : Room :=
  { roomOfAnn with
    players := roomOfAnn.players.set bob { id := bob, name := "Bob", joinedAt := 0 } }

/-- The room `AAAAAA` with Ann and Bob after the game was started with `env1`
and one turn was completed. -/
def roomAfterTurn : Room :=
  { roomOfTwo with turnOrder := [ann, bob], currentTurnIdx := 1, state := RoomState.playing }

/-- Ann leaves the room `AAAAAA`. -/
def annLeaves : Incoming :=
  { env := env0, socket := ann, request := Request.leave_room "AAAAAA", cb := true }

/-- The room `AAAAAA` after Ann, its first host, has left Bob behind. -/
def roomOfBob : Room :=
  { roomOfTwo with players := roomOfTwo.players.erase ann, hostId := bob, hostName := "Bob" }

/-- The room `AAAAAA` of Ann and Bob after the game was started with `env1`. -/
def roomStarted : Room :=
  { roomOfTwo with turnOrder := [ann, bob], state := RoomState.playing }

/-- Whether a request is `create_room`. -/
def Request.isCreate : Request → Bool
  | Request.create_room _ _ => true
  | _ => false

/-- Whether a request is `start_game`. -/
def Request.isStart : Request → Bool
  | Request.start_game _ => true
  | _ => false

/-- The table after the events of `trace` were handled in order, starting from
the table `rooms`. -/
def runFrom (rooms : Registry) (trace : List Incoming) : Registry :=
  trace.foldl (fun t e => (handle e t).rooms) rooms

/-- The room under `k` in the table `t` descends from the room under `k` in
`rooms` with the same prompt pools and mode and, when `full` is set, the same
`turnOrder` and `state`; or there is no room under `k` in `t`. -/
def FrameAt (full : Bool) (rooms t : Registry) (k : String) : Prop :=
  t.get? k = none ∨ ∃ r r2, rooms.get? k = some r ∧ t.get? k = some r2 ∧
    r2.prompts = r.prompts ∧ r2.mode = r.mode ∧
    (full = true → r2.turnOrder = r.turnOrder ∧ r2.state = r.state)

/-- Whether no occurrence of `pat` in `text ++ pat` starts inside `text`. -/
def startsFree (pat : List Char) : List Char → Bool
  | [] => true
  | c :: cs => !(pat.isPrefixOf (c :: cs ++ pat)) && startsFree pat cs

/-- The table after `force_next` requests for the room `roomId` were handled
one after the other, one per entry of `calls`: the session that sent it and
whether it carried a callback. -/
def forceRun (roomId : String) (calls : List (SessionId × Bool)) (rooms : Registry) :
    Registry :=
  calls.foldl (fun t c => (force_next c.1 roomId c.2 t).rooms) rooms

/-! ## Lemmas on dictionaries -/

section Dictionary

variable {K V : Type} [DecidableEq K]

theorem JsObj.getList_setList (k k2 : K) (v : V) (l : List (K × V)) :
    JsObj.getList k2 (JsObj.setList k v l) =
      if k2 = k then some v else JsObj.getList k2 l := by
  induction l with
  | nil =>
    by_cases h : k = k2
    · simp [JsObj.setList, JsObj.getList, h]
    · have h2 : ¬ k2 = k := fun e => h e.symm
      simp [JsObj.setList, JsObj.getList, h, h2]
  | cons p rest ih =>
    obtain ⟨a, w⟩ := p
    by_cases h : a = k
    · subst h
      by_cases h2 : a = k2
      · simp [JsObj.setList, JsObj.getList, h2]
      · have h3 : ¬ k2 = a := fun e => h2 e.symm
        simp [JsObj.setList, JsObj.getList, h2, h3]
    · by_cases h2 : a = k2
      · subst h2
        simp [JsObj.setList, JsObj.getList, h]
      · simp [JsObj.setList, JsObj.getList, h, h2, ih]

theorem JsObj.getList_eraseList (k k2 : K) (l : List (K × V)) :
    JsObj.getList k2 (JsObj.eraseList k l) =
      if k2 = k then none else JsObj.getList k2 l := by
  induction l with
  | nil => simp [JsObj.eraseList, JsObj.getList]
  | cons p rest ih =>
    obtain ⟨a, w⟩ := p
    by_cases h : a = k
    · subst h
      by_cases h2 : a = k2
      · subst h2
        simpa [JsObj.eraseList, JsObj.getList] using ih
      · have h3 : ¬ k2 = a := fun e => h2 e.symm
        simp [JsObj.eraseList, JsObj.getList, h2, h3, ih]
    · by_cases h2 : a = k2
      · subst h2
        simp [JsObj.eraseList, JsObj.getList, h]
      · simp [JsObj.eraseList, JsObj.getList, h, h2, ih]

theorem JsObj.getList_isSome_iff (k : K) (l : List (K × V)) :
    (∃ v, JsObj.getList k l = some v) ↔ k ∈ l.map Prod.fst := by
  induction l with
  | nil => simp [JsObj.getList]
  | cons p rest ih =>
    obtain ⟨a, w⟩ := p
    by_cases h : a = k
    · simp [JsObj.getList, h]
    · have h2 : ¬ k = a := fun e => h e.symm
      simp [JsObj.getList, h, h2, ih]

theorem JsObj.get?_set (o : JsObj K V) (k k2 : K) (v : V) :
    (o.set k v).get? k2 = if k2 = k then some v else o.get? k2 :=
  JsObj.getList_setList k k2 v o.entries

theorem JsObj.get?_set_self (o : JsObj K V) (k : K) (v : V) : (o.set k v).get? k = some v := by
  rw [JsObj.get?_set, if_pos rfl]

theorem JsObj.get?_erase (o : JsObj K V) (k k2 : K) :
    (o.erase k).get? k2 = if k2 = k then none else o.get? k2 :=
  JsObj.getList_eraseList k k2 o.entries

theorem JsObj.get?_empty (k : K) : (JsObj.empty : JsObj K V).get? k = none := rfl

theorem JsObj.mem_keys_iff (o : JsObj K V) (k : K) :
    k ∈ o.keys ↔ ∃ v, o.get? k = some v :=
  (JsObj.getList_isSome_iff k o.entries).symm

theorem JsObj.has_iff (o : JsObj K V) (k : K) : o.has k = true ↔ k ∈ o.keys := by
  rw [JsObj.mem_keys_iff, JsObj.has, Option.isSome_iff_exists]

theorem JsObj.keys_set (o : JsObj K V) (k : K) (v : V) :
    (o.set k v).keys = if k ∈ o.keys then o.keys else o.keys ++ [k] := by
  obtain ⟨l, hl⟩ := o
  show (JsObj.setList k v l).map Prod.fst = _
  simp only [JsObj.keys]
  clear hl
  induction l with
  | nil => simp [JsObj.setList]
  | cons p rest ih =>
    obtain ⟨a, w⟩ := p
    by_cases h : a = k
    · subst h; simp [JsObj.setList]
    · have h2 : ¬ k = a := fun e => h e.symm
      simp only [JsObj.setList, h, if_false, List.map_cons, ih, List.mem_cons, h2, false_or]
      split <;> simp

theorem JsObj.keys_erase (o : JsObj K V) (k : K) :
    (o.erase k).keys = o.keys.filter (fun a => decide (a ≠ k)) := by
  obtain ⟨l, hl⟩ := o
  show (JsObj.eraseList k l).map Prod.fst = _
  simp only [JsObj.keys]
  clear hl
  induction l with
  | nil => simp [JsObj.eraseList]
  | cons p rest ih =>
    obtain ⟨a, w⟩ := p
    by_cases h : a = k
    · simp [JsObj.eraseList, h, ih]
    · simp [JsObj.eraseList, h, ih]

theorem JsObj.mem_keys_set (o : JsObj K V) (k k2 : K) (v : V) :
    k2 ∈ (o.set k v).keys ↔ k2 = k ∨ k2 ∈ o.keys := by
  simp only [JsObj.mem_keys_iff, JsObj.get?_set]
  by_cases h : k2 = k
  · simp [h]
  · simp [h]

theorem JsObj.mem_keys_erase (o : JsObj K V) (k k2 : K) :
    k2 ∈ (o.erase k).keys ↔ k2 ≠ k ∧ k2 ∈ o.keys := by
  simp only [JsObj.mem_keys_iff, JsObj.get?_erase]
  by_cases h : k2 = k
  · simp [h]
  · simp [h]

end Dictionary

theorem JsObj.keys_nodup {K V : Type} (o : JsObj K V) : o.keys.Nodup := o.nodup

theorem JsObj.keys_empty {K V : Type} : (JsObj.empty : JsObj K V).keys = [] := rfl

/-! ## Lemmas on the runtime functions -/

theorem Draw.floorMul_lt (u : Draw) (n : Nat) (hn : 0 < n) : u.floorMul n < n := by
  unfold Draw.floorMul
  have hd : 0 < u.den := Nat.lt_of_le_of_lt (Nat.zero_le _) u.lt
  rw [Nat.div_lt_iff_lt_mul hd]
  exact Nat.mul_lt_mul_of_lt_of_le u.lt (Nat.le_refl n) hn |>.trans_eq (Nat.mul_comm _ _)

theorem chars_length : chars.length = 31 := by decide

theorem charAt_chars_length (i : Nat) (hi : i < 31) : (charAt chars i).length = 1 := by
  unfold charAt
  have h : i < chars.length := by rw [chars_length]; exact hi
  rw [List.getElem?_eq_getElem h]
  rfl

theorem randIdLoop_length (random : Nat → Draw) (n k : Nat) (s : String) :
    (randIdLoop random n k s).length = s.length + n := by
  induction n generalizing k s with
  | zero => rfl
  | succ n ih =>
    rw [randIdLoop, ih, String.length_append, charAt_chars_length]
    · omega
    · have := Draw.floorMul_lt (random k) chars.length (by rw [chars_length]; decide)
      rwa [chars_length] at this

theorem randId_length (random : Nat → Draw) (k len : Nat) :
    (randId random k len).length = len := by
  unfold randId
  rw [randIdLoop_length]
  simp

theorem generatePrompts_truths_length (mode : String) :
    (generatePrompts mode).truths.length = 350 := by
  unfold generatePrompts
  by_cases h : mode = "risky" <;> simp [h]

theorem generatePrompts_dares_length (mode : String) :
    (generatePrompts mode).dares.length = 350 := by
  unfold generatePrompts
  by_cases h : mode = "risky" <;> simp [h]

theorem protoNames_length_ne (k : String) (hk : k.length = 6) : k ∉ protoNames := by
  intro h
  simp only [protoNames, List.mem_cons, List.mem_singleton, List.not_mem_nil, or_false] at h
  rcases h with h | h | h | h | h | h | h | h | h | h | h | h <;> subst h <;> revert hk <;> decide

/-! ## Lemmas on `lookup` and the invariant -/

theorem lookup_of_get? {rooms : Registry} {k : String} {r : Room}
    (h : rooms.get? k = some r) : lookup rooms k = some (Found.own r) := by
  simp [lookup, h]

theorem get?_of_lookup {rooms : Registry} {k : String} {r : Room}
    (h : lookup rooms k = some (Found.own r)) : rooms.get? k = some r := by
  unfold lookup at h
  cases hg : rooms.get? k with
  | none =>
    rw [hg] at h
    simp only at h
    split at h <;> simp at h
  | some r2 =>
    rw [hg] at h
    simp only [Option.some.injEq, Found.own.injEq] at h
    rw [h]

theorem RegOk.empty : RegOk JsObj.empty := by
  constructor
  · intro k r h
    simp [JsObj.get?_empty] at h
  · intro k h
    simp [JsObj.keys_empty] at h

theorem RegOk.key_length {rooms : Registry} (h : RegOk rooms) {k : String} {r : Room}
    (hk : rooms.get? k = some r) : k.length = 6 :=
  h.2 k ((JsObj.mem_keys_iff rooms k).mpr ⟨r, hk⟩)

theorem RegOk.set_new {rooms : Registry} (h : RegOk rooms) {k : String} {r : Room}
    (hk : k.length = 6) (hr : RoomOk r) : RegOk (rooms.set k r) := by
  constructor
  · intro k2 r2 h2
    rw [JsObj.get?_set] at h2
    by_cases e : k2 = k
    · simp only [e, if_true, Option.some.injEq] at h2
      rw [← h2]; exact hr
    · simp only [e, if_false] at h2
      exact h.1 k2 r2 h2
  · intro k2 h2
    rw [JsObj.mem_keys_set] at h2
    rcases h2 with e | h2
    · rw [e]; exact hk
    · exact h.2 k2 h2

theorem RegOk.set_old {rooms : Registry} (h : RegOk rooms) {k : String} {r r2 : Room}
    (hk : rooms.get? k = some r) (hr : RoomOk r2) : RegOk (rooms.set k r2) :=
  h.set_new (h.key_length hk) hr

theorem RegOk.erase {rooms : Registry} (h : RegOk rooms) (k : String) :
    RegOk (rooms.erase k) := by
  constructor
  · intro k2 r2 h2
    rw [JsObj.get?_erase] at h2
    by_cases e : k2 = k
    · simp [e] at h2
    · simp only [e, if_false] at h2
      exact h.1 k2 r2 h2
  · intro k2 h2
    rw [JsObj.mem_keys_erase] at h2
    exact h.2 k2 h2.2

theorem nextTurnIdx_lt (r : Room) : nextTurnIdx r < max 1 r.turnOrder.length := by
  unfold nextTurnIdx
  apply Nat.mod_lt
  omega

/-! ## Every handler keeps the invariant -/

theorem create_room_ok (env : Env) (socket : SessionId) (name mode : Option String) (cb : Bool)
    {rooms : Registry} (h : RegOk rooms) : RegOk (create_room env socket name mode cb rooms).rooms := by
  unfold create_room
  apply h.set_new (randId_length _ _ _)
  refine ⟨?_, ?_, generatePrompts_truths_length _, generatePrompts_dares_length _⟩
  · simp [JsObj.mem_keys_set]
  · simp

theorem join_room_ok (env : Env) (socket : SessionId) (roomId : String) (name : Option String)
    (cb : Bool) {rooms : Registry} (h : RegOk rooms) :
    RegOk (join_room env socket roomId name cb rooms).rooms := by
  unfold join_room
  split
  · exact h
  · exact h
  · rename_i r hl
    have hg := get?_of_lookup hl
    obtain ⟨h1, h2, h3, h4⟩ := h.1 _ _ hg
    apply h.set_old hg
    exact ⟨by simp [JsObj.mem_keys_set, h1], h2, h3, h4⟩

theorem RoomOk.erase_transfer {r : Room} (hr : RoomOk r) (socket id0 : SessionId)
    (rest : List SessionId) (name : String)
    (hk : (r.players.erase socket).keys = id0 :: rest) :
    RoomOk { r with players := r.players.erase socket, hostId := id0, hostName := name } := by
  obtain ⟨_, h2, h3, h4⟩ := hr
  refine ⟨?_, h2, h3, h4⟩
  show id0 ∈ (r.players.erase socket).keys
  rw [hk]
  exact List.mem_cons_self _ _

theorem RoomOk.erase_other {r : Room} (hr : RoomOk r) (socket : SessionId)
    (hne : ¬ r.hostId = socket) : RoomOk { r with players := r.players.erase socket } := by
  obtain ⟨h1, h2, h3, h4⟩ := hr
  refine ⟨?_, h2, h3, h4⟩
  show r.hostId ∈ (r.players.erase socket).keys
  rw [JsObj.mem_keys_erase]
  exact ⟨hne, h1⟩

theorem leave_room_ok (socket : SessionId) (roomId : String) (cb : Bool) {rooms : Registry}
    (h : RegOk rooms) : RegOk (leave_room socket roomId cb rooms).rooms := by
  unfold leave_room
  split
  · exact h
  · exact h
  · rename_i r hl
    have hg := get?_of_lookup hl
    have hr := h.1 _ _ hg
    simp only
    split
    · split
      · rename_i id0 rest hk
        split
        · exact h.set_old hg (hr.erase_transfer socket id0 rest _ hk)
        · exact h.set_old hg (hr.erase_transfer socket id0 rest _ hk)
      · exact h.erase roomId
    · rename_i hne
      exact h.set_old hg (hr.erase_other socket hne)

theorem start_game_ok (env : Env) (roomId : String) (cb : Bool) {rooms : Registry}
    (h : RegOk rooms) : RegOk (start_game env roomId cb rooms).rooms := by
  unfold start_game
  split
  · exact h
  · exact h
  · rename_i r hl
    have hg := get?_of_lookup hl
    obtain ⟨h1, _, h3, h4⟩ := h.1 _ _ hg
    apply h.set_old hg
    exact ⟨h1, by simp, h3, h4⟩

theorem pick_prompt_ok (env : Env) (socket : SessionId) (roomId : String)
    (choice : Option String) (cb : Bool) {rooms : Registry} (h : RegOk rooms) :
    RegOk (pick_prompt env socket roomId choice cb rooms).rooms := by
  unfold pick_prompt
  split
  · exact h
  · exact h
  · rename_i r hl
    have hg := get?_of_lookup hl
    have hr := h.1 _ _ hg
    simp only
    split
    · exact h.set_old hg hr
    · exact h.set_old hg hr

theorem confirm_did_it_ok (env : Env) (socket : SessionId) (roomId : String) (cb : Bool)
    {rooms : Registry} (h : RegOk rooms) :
    RegOk (confirm_did_it env socket roomId cb rooms).rooms := by
  unfold confirm_did_it
  split
  · exact h
  · exact h
  · rename_i r hl
    have hg := get?_of_lookup hl
    obtain ⟨h1, h2, h3, h4⟩ := h.1 _ _ hg
    simp only
    split
    · exact h.set_old hg ⟨h1, h2, h3, h4⟩
    · split
      · exact h.set_old hg ⟨h1, nextTurnIdx_lt _, h3, h4⟩
      · exact h.set_old hg ⟨h1, h2, h3, h4⟩

theorem force_next_ok (socket : SessionId) (roomId : String) (cb : Bool) {rooms : Registry}
    (h : RegOk rooms) : RegOk (force_next socket roomId cb rooms).rooms := by
  unfold force_next
  split
  · exact h
  · exact h
  · rename_i r hl
    have hg := get?_of_lookup hl
    obtain ⟨h1, _, h3, h4⟩ := h.1 _ _ hg
    exact h.set_old hg ⟨h1, nextTurnIdx_lt _, h3, h4⟩

theorem get_room_rooms (roomId : String) (cb : Bool) (rooms : Registry) :
    (get_room roomId cb rooms).rooms = rooms := by
  unfold get_room
  split <;> rfl

theorem disconnectStep_ok (socket : SessionId) (acc : Outcome) (roomId : String)
    (h : RegOk acc.rooms) : RegOk (disconnectStep socket acc roomId).rooms := by
  unfold disconnectStep
  split
  · exact h
  · split
    · exact h
    · exact h
    · rename_i r hl
      have hg := get?_of_lookup hl
      have hr := h.1 _ _ hg
      simp only
      split
      · split
        · split
          · rename_i id0 rest hk
            split
            · exact h.set_old hg (hr.erase_transfer socket id0 rest _ hk)
            · exact h.set_old hg (hr.erase_transfer socket id0 rest _ hk)
          · exact h.erase roomId
        · rename_i hne
          exact h.set_old hg (hr.erase_other socket hne)
      · exact h

theorem foldl_disconnectStep_ok (socket : SessionId) (ks : List String) (acc : Outcome)
    (h : RegOk acc.rooms) : RegOk (ks.foldl (disconnectStep socket) acc).rooms := by
  induction ks generalizing acc with
  | nil => exact h
  | cons k ks ih => exact ih _ (disconnectStep_ok socket acc k h)

theorem disconnect_ok (socket : SessionId) {rooms : Registry} (h : RegOk rooms) :
    RegOk (disconnect socket rooms).rooms :=
  foldl_disconnectStep_ok socket _ _ h

theorem handle_ok (e : Incoming) {rooms : Registry} (h : RegOk rooms) :
    RegOk (handle e rooms).rooms := by
  unfold handle
  split
  · exact create_room_ok _ _ _ _ _ h
  · exact join_room_ok _ _ _ _ _ h
  · exact leave_room_ok _ _ _ h
  · exact start_game_ok _ _ _ h
  · exact pick_prompt_ok _ _ _ _ _ h
  · exact confirm_did_it_ok _ _ _ _ h
  · exact force_next_ok _ _ _ h
  · rw [get_room_rooms]; exact h
  · exact disconnect_ok _ h

theorem foldl_handle_ok (trace : List Incoming) (rooms : Registry) (h : RegOk rooms) :
    RegOk (trace.foldl (fun rooms e => (handle e rooms).rooms) rooms) := by
  induction trace generalizing rooms with
  | nil => exact h
  | cons e trace ih => exact ih _ (handle_ok e h)

theorem run_ok (trace : List Incoming) : RegOk (run trace) :=
  foldl_handle_ok trace _ RegOk.empty

theorem Reachable.ok {rooms : Registry} (h : Reachable rooms) : RegOk rooms := by
  obtain ⟨trace, rfl⟩ := h
  exact run_ok trace

/-! ## The claims -/

/-- C1: in every table reachable from the empty one by any sequence of
requests, every room `r` has `0 <= r.currentTurnIdx < max(1, r.turnOrder.length)`. -/
theorem C1_currentTurnIdx_in_range (trace : List Incoming) (k : String) (r : Room)
    (h : (run trace).get? k = some r) :
    0 ≤ r.currentTurnIdx ∧ r.currentTurnIdx < max 1 r.turnOrder.length :=
  ⟨Nat.zero_le _, ((run_ok trace).1 k r h).2.1⟩

/-- C1 at the run create, join, start, pick, confirm: the turn index is 1 of 2. -/
theorem C1_currentTurnIdx_in_range_witness :
    (run [annCreates, bobJoins, annStarts, annPicks, bobConfirms]).get? "AAAAAA"
        = some roomAfterTurn ∧
      (0 ≤ roomAfterTurn.currentTurnIdx ∧
        roomAfterTurn.currentTurnIdx < max 1 roomAfterTurn.turnOrder.length) :=
  ⟨rfl, C1_currentTurnIdx_in_range [annCreates, bobJoins, annStarts, annPicks, bobConfirms]
    "AAAAAA" roomAfterTurn rfl⟩

/-- In a room with at most one player a `confirm_did_it` request, by a member
or not, changes neither the players nor the turn index nor the last prompt. -/
theorem confirm_did_it_small (env : Env) (socket : SessionId) (roomId : String) (cb : Bool)
    (rooms : Registry) (r : Room) (hr : rooms.get? roomId = some r)
    (h1 : r.players.keys.length ≤ 1) :
    ∃ r2, (confirm_did_it env socket roomId cb rooms).rooms.get? roomId = some r2 ∧
      r2.players = r.players ∧ r2.currentTurnIdx = r.currentTurnIdx ∧
      r2.lastPrompt = r.lastPrompt := by
  unfold confirm_did_it
  rw [lookup_of_get? hr]
  simp only
  split
  · exact ⟨_, JsObj.get?_set_self _ _ _, rfl, rfl, rfl⟩
  · split
    · rename_i hc
      exfalso
      have := hc.2
      omega
    · exact ⟨_, JsObj.get?_set_self _ _ _, rfl, rfl, rfl⟩

theorem confirm_did_it_small_fold (roomId : String)
    (calls : List (Env × SessionId × Bool)) (rooms : Registry) (r : Room)
    (hr : rooms.get? roomId = some r) (h1 : r.players.keys.length ≤ 1) :
    ∃ r2, (calls.foldl (fun t c => (confirm_did_it c.1 c.2.1 roomId c.2.2 t).rooms)
        rooms).get? roomId = some r2 ∧
      r2.players = r.players ∧ r2.currentTurnIdx = r.currentTurnIdx ∧
      r2.lastPrompt = r.lastPrompt := by
  induction calls generalizing rooms r with
  | nil => exact ⟨r, hr, rfl, rfl, rfl⟩
  | cons c calls ih =>
    obtain ⟨r1, hg, hp, hi, hl⟩ := confirm_did_it_small c.1 c.2.1 roomId c.2.2 rooms r hr h1
    obtain ⟨r2, hg2, hp2, hi2, hl2⟩ := ih _ r1 hg (by rw [hp]; exact h1)
    exact ⟨r2, hg2, hp2.trans hp, hi2.trans hi, hl2.trans hl⟩

/-- C2: for an existing room and a confirming member, `confirm_did_it` records
the confirmation and runs to its end; with `total` the number of players, if
the number of confirmations after recording is `>= total - 1` and
`total - 1 > 0` it announces the advance and the room gets
`currentTurnIdx = (currentTurnIdx + 1) mod max(1, turnOrder.length)`, empty
`confirmations` and a null `lastPrompt`; otherwise no advance is announced,
`currentTurnIdx` and `lastPrompt` are unchanged and the confirmation stays
recorded.  In a room with `total <= 1` no sequence of confirm calls changes
`currentTurnIdx` or `lastPrompt`. -/
theorem C2_confirm_quorum (env : Env) (socket : SessionId) (roomId : String) (cb : Bool)
    (rooms : Registry) (r : Room) (hr : rooms.get? roomId = some r)
    (hm : socket ∈ r.players.keys) :
    (confirm_did_it env socket roomId cb rooms).threw = false ∧
    (((((r.confirmations.set socket ⟨nameOr r socket "anon", env.now 0⟩).keys.length : Int)
          ≥ (r.players.keys.length : Int) - 1) ∧ (r.players.keys.length : Int) - 1 > 0) →
      Effect.log roomId LogText.allConfirmed
          ∈ (confirm_did_it env socket roomId cb rooms).effects ∧
      ∃ r2, (confirm_did_it env socket roomId cb rooms).rooms.get? roomId = some r2 ∧
        r2.currentTurnIdx = (r.currentTurnIdx + 1) % max 1 r.turnOrder.length ∧
        r2.confirmations.keys = [] ∧ r2.lastPrompt = none) ∧
    (¬ ((((r.confirmations.set socket ⟨nameOr r socket "anon", env.now 0⟩).keys.length : Int)
          ≥ (r.players.keys.length : Int) - 1) ∧ (r.players.keys.length : Int) - 1 > 0) →
      Effect.log roomId LogText.allConfirmed
          ∉ (confirm_did_it env socket roomId cb rooms).effects ∧
      ∃ r2, (confirm_did_it env socket roomId cb rooms).rooms.get? roomId = some r2 ∧
        r2.currentTurnIdx = r.currentTurnIdx ∧ r2.lastPrompt = r.lastPrompt ∧
        r2.confirmations = r.confirmations.set socket ⟨nameOr r socket "anon", env.now 0⟩ ∧
        socket ∈ r2.confirmations.keys) ∧
    (r.players.keys.length ≤ 1 → ∀ calls : List (Env × SessionId × Bool),
      ∃ r2, (calls.foldl (fun t c => (confirm_did_it c.1 c.2.1 roomId c.2.2 t).rooms)
          rooms).get? roomId = some r2 ∧
        r2.currentTurnIdx = r.currentTurnIdx ∧ r2.lastPrompt = r.lastPrompt) := by
  obtain ⟨p, hp⟩ := (JsObj.mem_keys_iff _ _).mp hm
  refine ⟨?_, ?_, ?_, ?_⟩
  · unfold confirm_did_it
    rw [lookup_of_get? hr]
    simp only [hp]
    split <;> rfl
  · intro hc
    unfold confirm_did_it
    rw [lookup_of_get? hr]
    simp only [hp]
    rw [if_pos (by simpa using hc)]
    refine ⟨by simp, ?_⟩
    exact ⟨_, JsObj.get?_set_self _ _ _, rfl, rfl, rfl⟩
  · intro hc
    unfold confirm_did_it
    rw [lookup_of_get? hr]
    simp only [hp]
    rw [if_neg (by simpa using hc)]
    refine ⟨by simp, ?_⟩
    exact ⟨_, JsObj.get?_set_self _ _ _, rfl, rfl, rfl, by simp [JsObj.mem_keys_set]⟩
  · intro h1 calls
    obtain ⟨r2, hg, _, hi, hl⟩ := confirm_did_it_small_fold roomId calls rooms r hr h1
    exact ⟨r2, hg, hi, hl⟩

/-- C2 at the room of Ann and Bob when Bob confirms: the request runs to its end. -/
theorem C2_confirm_quorum_witness :
    (run [annCreates, bobJoins]).get? "AAAAAA" = some roomOfTwo ∧
      bob ∈ roomOfTwo.players.keys ∧
      (confirm_did_it env0 bob "AAAAAA" true (run [annCreates, bobJoins])).threw = false :=
  ⟨rfl, by decide,
    (C2_confirm_quorum env0 bob "AAAAAA" true (run [annCreates, bobJoins]) roomOfTwo rfl
      (by decide)).1⟩

/-! ### The sort returns a rearrangement -/

theorem coe_take_add_drop {α : Type} (n : Nat) (l : List α) :
    (↑l : Multiset α) = ↑(l.take n) + ↑(l.drop n) := by
  rw [Multiset.coe_add, List.take_append_drop]

theorem countRunLoop_le (lt : Nat → Bool) (isDescending : Bool) (n runLength k : Nat) :
    runLength ≤ (countRunLoop lt isDescending n runLength k).1 := by
  induction n generalizing runLength k with
  | zero => exact Nat.le_refl _
  | succ n ih =>
    unfold countRunLoop
    split
    · exact Nat.le_trans (Nat.le_succ _) (ih _ _)
    · exact Nat.le_refl _

theorem CountAndMakeRun_perm {α : Type} (lt : Nat → Bool) (k : Nat) (work : List α) :
    (CountAndMakeRun lt k work).2.1.Perm work := by
  unfold CountAndMakeRun
  split
  · exact List.Perm.refl _
  · exact List.Perm.refl _
  · dsimp only
    split
    · refine ((List.reverse_perm _).append_right _).trans ?_
      rw [List.take_append_drop]
    · exact List.Perm.refl _

theorem CountAndMakeRun_pos {α : Type} (lt : Nat → Bool) (k : Nat) (work : List α)
    (h : work ≠ []) : 0 < (CountAndMakeRun lt k work).1 := by
  unfold CountAndMakeRun
  split
  · exact absurd rfl h
  · exact Nat.one_pos
  · rename_i rest
    have h2 := countRunLoop_le lt (lt k) rest.length 2 (k + 1)
    dsimp only
    split
    · exact Nat.lt_of_lt_of_le (by decide) h2
    · exact Nat.lt_of_lt_of_le (by decide) h2

theorem binaryInsertionLoop_perm {α : Type} (lt : Nat → Bool) (fuel start k : Nat)
    (work : List α) : (binaryInsertionLoop lt fuel start k work).1.Perm work := by
  induction fuel generalizing start k work with
  | zero => exact List.Perm.refl _
  | succ fuel ih =>
    unfold binaryInsertionLoop
    split
    · exact List.Perm.refl _
    · rename_i pivot after heq
      refine (ih _ _ _).trans ?_
      rw [← Multiset.coe_eq_coe, coe_take_add_drop start work, heq,
        coe_take_add_drop (binarySearch lt start 0 start k).1 (List.take start work)]
      simp only [← Multiset.coe_add, ← Multiset.cons_coe, ← Multiset.singleton_add]
      ac_rfl

theorem BinaryInsertionSort_perm {α : Type} (lt : Nat → Bool) (k : Nat) (work : List α)
    (startArg : Nat) : (BinaryInsertionSort lt k work startArg).1.Perm work :=
  binaryInsertionLoop_perm lt _ _ _ _

theorem mergeLowLoop_perm {α : Type} (lt : Nat → Bool) (fuel : Nat) (mode : MergeMode)
    (minGallop k : Nat) (dest tempA runB : List α) (h : tempA.length + runB.length ≤ fuel) :
    (mergeLowLoop lt fuel mode minGallop k dest tempA runB).work.Perm (dest ++ tempA ++ runB) := by
  induction fuel generalizing mode minGallop k dest tempA runB with
  | zero =>
    have hA : tempA = [] := List.eq_nil_of_length_eq_zero (by omega)
    have hB : runB = [] := List.eq_nil_of_length_eq_zero (by omega)
    subst hA hB
    unfold mergeLowLoop
    simp
  | succ fuel ih =>
    cases mode with
    | straight nofWinsA nofWinsB =>
      unfold mergeLowLoop
      split
      · split
        · simp
        · rename_i b restB
          simp only [List.length_cons] at h
          split
          · simp only [← Multiset.coe_eq_coe, ← Multiset.coe_add, ← Multiset.cons_coe,
              ← Multiset.singleton_add, Multiset.coe_nil, add_zero]
            ac_rfl
          · split
            · refine (ih _ _ _ _ _ _ (by omega)).trans ?_
              simp only [← Multiset.coe_eq_coe, ← Multiset.coe_add, ← Multiset.cons_coe,
                ← Multiset.singleton_add, Multiset.coe_nil, add_zero]
              ac_rfl
            · refine (ih _ _ _ _ _ _ (by omega)).trans ?_
              simp only [← Multiset.coe_eq_coe, ← Multiset.coe_add, ← Multiset.cons_coe,
                ← Multiset.singleton_add, Multiset.coe_nil, add_zero]
              ac_rfl
      · split
        · simp
        · rename_i a restA
          simp only [List.length_cons] at h
          split
          · simp only [← Multiset.coe_eq_coe, ← Multiset.coe_add, ← Multiset.cons_coe,
              ← Multiset.singleton_add, Multiset.coe_nil, add_zero]
            ac_rfl
          · split
            · refine (ih _ _ _ _ _ _ (by omega)).trans ?_
              simp only [← Multiset.coe_eq_coe, ← Multiset.coe_add, ← Multiset.cons_coe,
                ← Multiset.singleton_add, Multiset.coe_nil, add_zero]
              ac_rfl
            · refine (ih _ _ _ _ _ _ (by omega)).trans ?_
              simp only [← Multiset.coe_eq_coe, ← Multiset.coe_add, ← Multiset.cons_coe,
                ← Multiset.singleton_add, Multiset.coe_nil, add_zero]
              ac_rfl
    | galloping =>
      unfold mergeLowLoop
      dsimp only
      generalize (GallopRight lt k tempA.length 0) = gr
      have hA := coe_take_add_drop gr.1 tempA
      have hlA := List.length_drop gr.1 tempA
      split
      · simp only [← Multiset.coe_eq_coe, ← Multiset.coe_add, ← Multiset.cons_coe,
          ← Multiset.singleton_add, Multiset.coe_nil, add_zero, hA]
        ac_rfl
      · split
        · simp only [← Multiset.coe_eq_coe, ← Multiset.coe_add, ← Multiset.cons_coe,
            ← Multiset.singleton_add, Multiset.coe_nil, add_zero, hA]
          ac_rfl
        · split
          · simp only [← Multiset.coe_eq_coe, ← Multiset.coe_add, ← Multiset.cons_coe,
              ← Multiset.singleton_add, Multiset.coe_nil, add_zero, hA]
            ac_rfl
          · rename_i b restB
            simp only [List.length_cons] at h
            split
            · simp only [← Multiset.coe_eq_coe, ← Multiset.coe_add, ← Multiset.cons_coe,
                ← Multiset.singleton_add, Multiset.coe_nil, add_zero, hA]
              ac_rfl
            · generalize (GallopLeft lt gr.2 restB.length 0) = gl
              have hB := coe_take_add_drop gl.1 restB
              have hlB := List.length_drop gl.1 restB
              split
              · simp only [← Multiset.coe_eq_coe, ← Multiset.coe_add, ← Multiset.cons_coe,
                  ← Multiset.singleton_add, Multiset.coe_nil, add_zero, hA, hB]
                ac_rfl
              · split
                · rename_i heq
                  rw [heq] at hA
                  simp only [← Multiset.coe_eq_coe, ← Multiset.coe_add, ← Multiset.cons_coe,
                    ← Multiset.singleton_add, Multiset.coe_nil, add_zero, hA, hB]
                  ac_rfl
                · rename_i a restA heq
                  rw [heq] at hA
                  rw [heq] at hlA
                  simp only [List.length_cons] at hlA
                  split
                  · simp only [← Multiset.coe_eq_coe, ← Multiset.coe_add, ← Multiset.cons_coe,
                      ← Multiset.singleton_add, Multiset.coe_nil, add_zero, hA, hB]
                    ac_rfl
                  · split
                    · refine (ih _ _ _ _ _ _ (by omega)).trans ?_
                      simp only [← Multiset.coe_eq_coe, ← Multiset.coe_add, ← Multiset.cons_coe,
                        ← Multiset.singleton_add, Multiset.coe_nil, add_zero, hA, hB]
                      ac_rfl
                    · refine (ih _ _ _ _ _ _ (by omega)).trans ?_
                      simp only [← Multiset.coe_eq_coe, ← Multiset.coe_add, ← Multiset.cons_coe,
                        ← Multiset.singleton_add, Multiset.coe_nil, add_zero, hA, hB]
                      ac_rfl

theorem mergeHighLoop_perm {α : Type} (lt : Nat → Bool) (fuel : Nat) (mode : MergeMode)
    (minGallop k : Nat) (dest runA tempB : List α) (hA : 0 < runA.length)
    (hB : 1 < tempB.length) (h : runA.length + tempB.length ≤ fuel) :
    (mergeHighLoop lt fuel mode minGallop k dest runA tempB).work.Perm
      (runA ++ tempB ++ dest) := by
  induction fuel generalizing mode minGallop k dest runA tempB with
  | zero => omega
  | succ fuel ih =>
    have hlB := List.length_take (tempB.length - 1) tempB
    have hcB := coe_take_add_drop (tempB.length - 1) tempB
    cases mode with
    | straight nofWinsA nofWinsB =>
      have hlA := List.length_take (runA.length - 1) runA
      have hcA := coe_take_add_drop (runA.length - 1) runA
      unfold mergeHighLoop
      dsimp only
      generalize List.take (runA.length - 1) runA = restA at hlA hcA ⊢
      generalize List.drop (runA.length - 1) runA = lastA at hcA ⊢
      generalize List.take (tempB.length - 1) tempB = restB at hlB hcB ⊢
      generalize List.drop (tempB.length - 1) tempB = lastB at hcB ⊢
      split
      · split
        · simp only [← Multiset.coe_eq_coe, ← Multiset.coe_add, hcA]
          ac_rfl
        · have hi : ∀ mode mg, (mergeHighLoop lt fuel mode mg (k + 1) (lastA ++ dest) restA
              tempB).work.Perm (runA ++ tempB ++ dest) := by
            intro mode mg
            refine (ih _ _ _ _ _ _ (by omega) hB (by omega)).trans ?_
            simp only [← Multiset.coe_eq_coe, ← Multiset.coe_add, hcA]
            ac_rfl
          split
          · exact hi _ _
          · exact hi _ _
      · split
        · simp only [← Multiset.coe_eq_coe, ← Multiset.coe_add, hcB]
          ac_rfl
        · have hi : ∀ mode mg, (mergeHighLoop lt fuel mode mg (k + 1) (lastB ++ dest) runA
              restB).work.Perm (runA ++ tempB ++ dest) := by
            intro mode mg
            refine (ih _ _ _ _ _ _ hA (by omega) (by omega)).trans ?_
            simp only [← Multiset.coe_eq_coe, ← Multiset.coe_add, hcB]
            ac_rfl
          split
          · exact hi _ _
          · exact hi _ _
    | galloping =>
      unfold mergeHighLoop
      dsimp only
      generalize (GallopRight lt k runA.length (runA.length - 1)) = gr
      have hc1 := coe_take_add_drop gr.1 runA
      have hl1 := List.length_take gr.1 runA
      generalize List.take gr.1 runA = runA1 at hl1 hc1 ⊢
      generalize List.drop gr.1 runA = wonA at hc1 ⊢
      generalize List.take (tempB.length - 1) tempB = restB at hlB hcB ⊢
      generalize List.drop (tempB.length - 1) tempB = lastB at hcB ⊢
      split
      · simp only [← Multiset.coe_eq_coe, ← Multiset.coe_add, hc1]
        ac_rfl
      · rename_i hA1
        have hA1 : 0 < runA1.length := by omega
        split
        · simp only [← Multiset.coe_eq_coe, ← Multiset.coe_add, hc1, hcB]
          ac_rfl
        · rename_i hB1
          have hB1 : 1 < restB.length := by omega
          generalize (GallopLeft lt gr.2 restB.length (restB.length - 1)) = gl
          have hc2 := coe_take_add_drop gl.1 restB
          have hl2 := List.length_take gl.1 restB
          generalize List.take gl.1 restB = tempB1 at hl2 hc2 ⊢
          generalize List.drop gl.1 restB = wonB at hc2 ⊢
          have hc3 := coe_take_add_drop (runA1.length - 1) runA1
          have hl3 := List.length_take (runA1.length - 1) runA1
          generalize List.take (runA1.length - 1) runA1 = restA at hl3 hc3 ⊢
          generalize List.drop (runA1.length - 1) runA1 = lastA at hc3 ⊢
          split
          · simp only [← Multiset.coe_eq_coe, ← Multiset.coe_add, hc1, hcB, hc2]
            ac_rfl
          · split
            · simp only [← Multiset.coe_eq_coe, ← Multiset.coe_add, hc1, hcB, hc2]
              ac_rfl
            · rename_i hB2 hB3
              have hB4 : 1 < tempB1.length := by omega
              have hlen : restA.length + tempB1.length ≤ fuel := by omega
              split
              · simp only [← Multiset.coe_eq_coe, ← Multiset.coe_add, hc1, hcB, hc2, hc3]
                ac_rfl
              · rename_i hA2
                have hi : ∀ mode mg, (mergeHighLoop lt fuel mode mg gl.2
                    (lastA ++ (wonB ++ (lastB ++ (wonA ++ dest)))) restA tempB1).work.Perm
                    (runA ++ tempB ++ dest) := by
                  intro mode mg
                  refine (ih _ _ _ _ _ _ (Nat.pos_of_ne_zero hA2) hB4 hlen).trans ?_
                  simp only [← Multiset.coe_eq_coe, ← Multiset.coe_add, hc1, hcB, hc2, hc3]
                  ac_rfl
                split
                · exact hi _ _
                · exact hi _ _

theorem MergeLow_perm {α : Type} (lt : Nat → Bool) (k minGallop : Nat) (runA runB : List α) :
    (MergeLow lt k minGallop runA runB).work.Perm (runA ++ runB) := by
  unfold MergeLow
  split
  · simp
  · split
    · simp only [← Multiset.coe_eq_coe, ← Multiset.coe_add, ← Multiset.cons_coe,
        ← Multiset.singleton_add, Multiset.coe_nil, add_zero]
      ac_rfl
    · split
      · simp only [← Multiset.coe_eq_coe, ← Multiset.coe_add, ← Multiset.cons_coe,
          ← Multiset.singleton_add, Multiset.coe_nil, add_zero]
        ac_rfl
      · refine (mergeLowLoop_perm lt _ _ _ _ _ _ _ (Nat.le_refl _)).trans ?_
        simp only [← Multiset.coe_eq_coe, ← Multiset.coe_add, ← Multiset.cons_coe,
          ← Multiset.singleton_add, Multiset.coe_nil, add_zero]
        ac_rfl

theorem MergeHigh_perm {α : Type} (lt : Nat → Bool) (k minGallop : Nat) (runA runB : List α)
    (hB : 0 < runB.length) : (MergeHigh lt k minGallop runA runB).work.Perm (runA ++ runB) := by
  have hl := List.length_take (runA.length - 1) runA
  have hc := coe_take_add_drop (runA.length - 1) runA
  unfold MergeHigh
  dsimp only
  split
  · simp only [← Multiset.coe_eq_coe, ← Multiset.coe_add, hc]
    ac_rfl
  · split
    · simp only [← Multiset.coe_eq_coe, ← Multiset.coe_add, hc]
      ac_rfl
    · refine (mergeHighLoop_perm lt _ _ _ _ _ _ _ (by omega) (by omega) (Nat.le_refl _)).trans ?_
      simp only [← Multiset.coe_eq_coe, ← Multiset.coe_add, hc]
      ac_rfl

theorem MergeAt_perm {α : Type} (lt : Nat → Bool) (k minGallop : Nat) (runA runB : List α) :
    (MergeAt lt k minGallop runA runB).work.Perm (runA ++ runB) := by
  unfold MergeAt
  dsimp only
  generalize (GallopRight lt k runA.length 0) = gr
  split
  · exact List.Perm.refl _
  · generalize (GallopLeft lt gr.2 runB.length (runB.length - 1)) = gl
    split
    · exact List.Perm.refl _
    · rename_i hB
      have hm : (if (List.drop gr.1 runA).length ≤ (List.take gl.1 runB).length then
            MergeLow lt gl.2 minGallop (List.drop gr.1 runA) (List.take gl.1 runB)
          else MergeHigh lt gl.2 minGallop (List.drop gr.1 runA) (List.take gl.1 runB)).work.Perm
          (List.drop gr.1 runA ++ List.take gl.1 runB) := by
        split
        · exact MergeLow_perm _ _ _ _ _
        · exact MergeHigh_perm _ _ _ _ _ (Nat.pos_of_ne_zero hB)
      refine (((hm.append_left _).append_right _)).trans ?_
      simp only [← Multiset.coe_eq_coe, ← Multiset.coe_add, coe_take_add_drop gr.1 runA,
        coe_take_add_drop gl.1 runB]
      ac_rfl

theorem workArray_cons {α : Type} (run : List α) (runs : List (List α)) (k minGallop : Nat) :
    workArray ⟨run :: runs, k, minGallop⟩ = workArray ⟨runs, k, minGallop⟩ ++ run := by
  simp [workArray]

theorem MergeCollapse_perm {α : Type} (lt : Nat → Bool) (fuel : Nat) (st : SortState α) :
    (workArray (MergeCollapse lt fuel st)).Perm (workArray st) := by
  induction fuel generalizing st with
  | zero => exact List.Perm.refl _
  | succ fuel ih =>
    obtain ⟨runs, k, minGallop⟩ := st
    unfold MergeCollapse
    dsimp only
    split
    · rename_i top second
      split
      · refine (ih _).trans ?_
        simp only [workArray, List.reverse_cons, List.reverse_nil, List.nil_append,
          List.flatten_append, List.flatten_cons, List.flatten_nil, List.append_nil]
        exact MergeAt_perm _ _ _ _ _
      · exact List.Perm.refl _
    · rename_i top second third rest
      have h1 : (workArray ⟨top :: (MergeAt lt k minGallop third second).work :: rest,
          (MergeAt lt k minGallop third second).k,
          (MergeAt lt k minGallop third second).minGallop⟩).Perm
          (workArray ⟨top :: second :: third :: rest, k, minGallop⟩) := by
        simp only [workArray, List.reverse_cons, List.flatten_append, List.flatten_cons,
          List.flatten_nil, List.append_nil, List.append_assoc]
        simpa only [List.append_assoc] using
          ((MergeAt_perm lt k minGallop third second).append_right top).append_left
            rest.reverse.flatten
      have h2 : (workArray ⟨(MergeAt lt k minGallop second top).work :: third :: rest,
          (MergeAt lt k minGallop second top).k,
          (MergeAt lt k minGallop second top).minGallop⟩).Perm
          (workArray ⟨top :: second :: third :: rest, k, minGallop⟩) := by
        simp only [workArray, List.reverse_cons, List.flatten_append, List.flatten_cons,
          List.flatten_nil, List.append_nil, List.append_assoc]
        exact ((MergeAt_perm lt k minGallop second top).append_left _).append_left _
      split
      · split
        · exact (ih _).trans h1
        · exact (ih _).trans h2
      · split
        · exact (ih _).trans h2
        · exact List.Perm.refl _
    · exact List.Perm.refl _

theorem MergeForceCollapse_perm {α : Type} (lt : Nat → Bool) (fuel : Nat) (st : SortState α) :
    (workArray (MergeForceCollapse lt fuel st)).Perm (workArray st) := by
  induction fuel generalizing st with
  | zero => exact List.Perm.refl _
  | succ fuel ih =>
    obtain ⟨runs, k, minGallop⟩ := st
    unfold MergeForceCollapse
    dsimp only
    split
    · rename_i top second
      refine (ih _).trans ?_
      simp only [workArray, List.reverse_cons, List.reverse_nil, List.nil_append,
        List.flatten_append, List.flatten_cons, List.flatten_nil, List.append_nil]
      exact MergeAt_perm _ _ _ _ _
    · rename_i top second third rest
      split
      · refine (ih _).trans ?_
        simp only [workArray, List.reverse_cons, List.flatten_append, List.flatten_cons,
          List.flatten_nil, List.append_nil, List.append_assoc]
        simpa only [List.append_assoc] using
          ((MergeAt_perm lt k minGallop third second).append_right top).append_left
            rest.reverse.flatten
      · refine (ih _).trans ?_
        simp only [workArray, List.reverse_cons, List.flatten_append, List.flatten_cons,
          List.flatten_nil, List.append_nil, List.append_assoc]
        exact ((MergeAt_perm lt k minGallop second top).append_left _).append_left _
    · exact List.Perm.refl _

theorem timSortLoop_perm {α : Type} (lt : Nat → Bool) (minRunLength fuel : Nat)
    (st : SortState α) (work : List α) (h : work.length ≤ fuel) :
    (workArray (timSortLoop lt minRunLength fuel st work)).Perm (workArray st ++ work) := by
  induction fuel generalizing st work with
  | zero =>
    have hw : work = [] := List.eq_nil_of_length_eq_zero (by omega)
    subst hw
    unfold timSortLoop
    simp
  | succ fuel ih =>
    unfold timSortLoop
    split
    · rename_i h0
      rw [List.eq_nil_of_length_eq_zero h0]
      simp
    · rename_i h0
      dsimp only
      have hne : work ≠ [] := fun e => h0 (by rw [e]; rfl)
      have hpos := CountAndMakeRun_pos lt st.k work hne
      have hperm := CountAndMakeRun_perm lt st.k work
      generalize (CountAndMakeRun lt st.k work) = run at hpos hperm
      have hlen := hperm.length_eq
      refine (ih _ _ ?_).trans ?_
      · rw [List.length_drop]
        split <;> omega
      · refine ((MergeCollapse_perm lt _ _).append_right _).trans ?_
        rw [workArray_cons]
        have hmade : (if run.1 < minRunLength then
              BinaryInsertionSort lt run.2.2
                (List.take (if run.1 < minRunLength then min minRunLength work.length else run.1)
                  run.2.1) run.1
            else (List.take (if run.1 < minRunLength then min minRunLength work.length else run.1)
              run.2.1, run.2.2)).1.Perm
            (List.take (if run.1 < minRunLength then min minRunLength work.length else run.1)
              run.2.1) := by
          split
          · exact BinaryInsertionSort_perm _ _ _ _
          · exact List.Perm.refl _
        rw [List.append_assoc]
        refine List.Perm.append_left _ ?_
        refine (hmade.append_right _).trans ?_
        rw [List.take_append_drop]
        exact hperm

theorem ArrayTimSortImpl_perm {α : Type} (lt : Nat → Bool) (work : List α) :
    (ArrayTimSortImpl lt work).Perm work := by
  unfold ArrayTimSortImpl
  split
  · exact List.Perm.refl _
  · dsimp only
    refine (MergeForceCollapse_perm lt _ _).trans ?_
    refine (timSortLoop_perm lt _ _ _ _ (Nat.le_refl _)).trans ?_
    simp [workArray]

theorem shuffle_perm {α : Type} (random : Nat → Draw) (ids : List α) :
    (shuffle random ids).Perm ids :=
  ArrayTimSortImpl_perm _ ids

/-! ### The loop counters are large enough

A loop that runs on a counter ends by its own condition before the counter
does: a larger counter gives the same result. -/

theorem minRunLoop_fuel (fuel n r more : Nat) (h : n ≤ fuel) :
    minRunLoop (fuel + more) n r = minRunLoop fuel n r := by
  induction fuel generalizing n r with
  | zero =>
    have hn : n = 0 := by omega
    subst hn
    cases more with
    | zero => rfl
    | succ more =>
      rw [Nat.zero_add]
      unfold minRunLoop
      simp
  | succ fuel ih =>
    rw [Nat.add_right_comm]
    unfold minRunLoop
    split
    · exact ih _ _ (by rw [Nat.shiftRight_eq_div_pow]; omega)
    · rfl

theorem binarySearch_fuel (lt : Nat → Bool) (fuel left right k more : Nat)
    (h : right - left ≤ fuel) :
    binarySearch lt (fuel + more) left right k = binarySearch lt fuel left right k := by
  induction fuel generalizing left right k with
  | zero =>
    cases more with
    | zero => rfl
    | succ more =>
      rw [Nat.zero_add]
      unfold binarySearch
      rw [if_neg (by omega)]
  | succ fuel ih =>
    rw [Nat.add_right_comm]
    unfold binarySearch
    split
    · split
      · exact ih _ _ _ (by rw [Nat.shiftRight_eq_div_pow]; omega)
      · exact ih _ _ _ (by rw [Nat.shiftRight_eq_div_pow]; omega)
    · rfl

theorem gallopLoop_fuel (lt : Nat → Bool) (stopOn : Bool) (maxOfs fuel lastOfs offset k more : Nat)
    (h : maxOfs - offset ≤ fuel) :
    gallopLoop lt stopOn maxOfs (fuel + more) lastOfs offset k =
      gallopLoop lt stopOn maxOfs fuel lastOfs offset k := by
  induction fuel generalizing lastOfs offset k with
  | zero =>
    cases more with
    | zero => rfl
    | succ more =>
      rw [Nat.zero_add]
      unfold gallopLoop
      rw [if_neg (by omega)]
  | succ fuel ih =>
    rw [Nat.add_right_comm]
    unfold gallopLoop
    split
    · split
      · rfl
      · exact ih _ _ _ (by rw [Nat.shiftLeft_eq]; omega)
    · rfl

theorem gallopSearch_fuel (lt : Nat → Bool) (raise : Bool) (fuel lastOfs offset k more : Nat)
    (h : offset - lastOfs ≤ fuel) :
    gallopSearch lt raise (fuel + more) lastOfs offset k =
      gallopSearch lt raise fuel lastOfs offset k := by
  induction fuel generalizing lastOfs offset k with
  | zero =>
    cases more with
    | zero => rfl
    | succ more =>
      rw [Nat.zero_add]
      unfold gallopSearch
      rw [if_neg (by omega)]
  | succ fuel ih =>
    rw [Nat.add_right_comm]
    unfold gallopSearch
    split
    · split
      · exact ih _ _ _ (by rw [Nat.shiftRight_eq_div_pow]; omega)
      · exact ih _ _ _ (by rw [Nat.shiftRight_eq_div_pow]; omega)
    · rfl

theorem binaryInsertionLoop_fuel {α : Type} (lt : Nat → Bool) (fuel start k more : Nat)
    (work : List α) (h : work.length - start ≤ fuel) :
    binaryInsertionLoop lt (fuel + more) start k work =
      binaryInsertionLoop lt fuel start k work := by
  induction fuel generalizing start k work with
  | zero =>
    cases more with
    | zero => rfl
    | succ more =>
      rw [Nat.zero_add]
      unfold binaryInsertionLoop
      rw [List.drop_eq_nil_of_le (by omega)]
  | succ fuel ih =>
    rw [Nat.add_right_comm]
    unfold binaryInsertionLoop
    split
    · rfl
    · rename_i pivot after heq
      refine ih _ _ _ ?_
      have h1 := congrArg List.length heq
      have h2 := List.length_take start work
      simp only [List.length_drop, List.length_cons] at h1
      simp only [List.length_append, List.length_cons, List.length_take, List.length_drop]
      omega

theorem MergeCollapse_fuel {α : Type} (lt : Nat → Bool) (fuel more : Nat) (st : SortState α)
    (h : st.pendingRuns.length ≤ fuel) :
    MergeCollapse lt (fuel + more) st = MergeCollapse lt fuel st := by
  induction fuel generalizing st with
  | zero =>
    have hs : st.pendingRuns = [] := List.eq_nil_of_length_eq_zero (by omega)
    cases more with
    | zero => rfl
    | succ more =>
      rw [Nat.zero_add]
      unfold MergeCollapse
      rw [hs]
  | succ fuel ih =>
    rw [Nat.add_right_comm]
    unfold MergeCollapse
    split
    · rename_i top second hs
      rw [hs] at h
      simp only [List.length_cons, List.length_nil] at h
      split
      · exact ih _ (by simp only [List.length_cons, List.length_nil]; omega)
      · rfl
    · rename_i top second third rest hs
      rw [hs] at h
      simp only [List.length_cons] at h
      dsimp only
      split
      · split
        · exact ih _ (by simp only [List.length_cons]; omega)
        · exact ih _ (by simp only [List.length_cons]; omega)
      · split
        · exact ih _ (by simp only [List.length_cons]; omega)
        · rfl
    · rfl

theorem MergeForceCollapse_fuel {α : Type} (lt : Nat → Bool) (fuel more : Nat)
    (st : SortState α) (h : st.pendingRuns.length ≤ fuel) :
    MergeForceCollapse lt (fuel + more) st = MergeForceCollapse lt fuel st := by
  induction fuel generalizing st with
  | zero =>
    have hs : st.pendingRuns = [] := List.eq_nil_of_length_eq_zero (by omega)
    cases more with
    | zero => rfl
    | succ more =>
      rw [Nat.zero_add]
      unfold MergeForceCollapse
      rw [hs]
  | succ fuel ih =>
    rw [Nat.add_right_comm]
    unfold MergeForceCollapse
    split
    · rename_i top second hs
      rw [hs] at h
      simp only [List.length_cons, List.length_nil] at h
      exact ih _ (by simp only [List.length_cons, List.length_nil]; omega)
    · rename_i top second third rest hs
      rw [hs] at h
      simp only [List.length_cons] at h
      split
      · exact ih _ (by simp only [List.length_cons]; omega)
      · exact ih _ (by simp only [List.length_cons]; omega)
    · rfl

/-- `MergeForceCollapse` leaves one run at most. -/
theorem MergeForceCollapse_length {α : Type} (lt : Nat → Bool) (fuel : Nat) (st : SortState α)
    (h : st.pendingRuns.length ≤ fuel) :
    (MergeForceCollapse lt fuel st).pendingRuns.length ≤ 1 := by
  induction fuel generalizing st with
  | zero =>
    unfold MergeForceCollapse
    omega
  | succ fuel ih =>
    unfold MergeForceCollapse
    split
    · rename_i top second hs
      rw [hs] at h
      simp only [List.length_cons, List.length_nil] at h
      exact ih _ (by simp only [List.length_cons, List.length_nil]; omega)
    · rename_i top second third rest hs
      rw [hs] at h
      simp only [List.length_cons] at h
      split
      · exact ih _ (by simp only [List.length_cons]; omega)
      · exact ih _ (by simp only [List.length_cons]; omega)
    · rename_i h2 h3
      match hs : st.pendingRuns with
      | [] => simp
      | [_] => simp
      | [a, b] => exact absurd hs (h2 a b)
      | a :: b :: c :: rest => exact absurd hs (h3 a b c rest)

/-! ### The offsets found by galloping lie in the run -/

theorem gallopLoop_bounds (lt : Nat → Bool) (stopOn : Bool) (maxOfs fuel lastOfs offset k : Nat)
    (h1 : lastOfs < offset) (h2 : lastOfs < maxOfs) :
    (gallopLoop lt stopOn maxOfs fuel lastOfs offset k).1 <
        (gallopLoop lt stopOn maxOfs fuel lastOfs offset k).2.1 ∧
      (gallopLoop lt stopOn maxOfs fuel lastOfs offset k).1 < maxOfs := by
  induction fuel generalizing lastOfs offset k with
  | zero => exact ⟨h1, h2⟩
  | succ fuel ih =>
    unfold gallopLoop
    split
    · split
      · exact ⟨h1, h2⟩
      · exact ih _ _ _ (by rw [Nat.shiftLeft_eq]; omega) (by omega)
    · exact ⟨h1, h2⟩

theorem gallopSearch_bounds (lt : Nat → Bool) (raise : Bool) (fuel lastOfs offset k : Nat)
    (h : lastOfs ≤ offset) :
    lastOfs ≤ (gallopSearch lt raise fuel lastOfs offset k).1 ∧
      (gallopSearch lt raise fuel lastOfs offset k).1 ≤ offset := by
  induction fuel generalizing lastOfs offset k with
  | zero => exact ⟨h, Nat.le_refl _⟩
  | succ fuel ih =>
    unfold gallopSearch
    split
    · have hm : (offset - lastOfs) >>> 1 < offset - lastOfs := by
        rw [Nat.shiftRight_eq_div_pow]
        omega
      split
      · have := ih (lastOfs + ((offset - lastOfs) >>> 1) + 1) offset (k + 1) (by omega)
        omega
      · have := ih lastOfs (lastOfs + ((offset - lastOfs) >>> 1)) (k + 1) (by omega)
        omega
    · exact ⟨h, Nat.le_refl _⟩

/-- The offset returned by `GallopLeft` satisfies `0 <= offset <= length`. -/
theorem GallopLeft_le (lt : Nat → Bool) (k length hint : Nat) (h : hint < length) :
    (GallopLeft lt k length hint).1 ≤ length := by
  unfold GallopLeft
  split
  · dsimp only
    have hg := gallopLoop_bounds lt false (length - hint) (length - hint) 0 1 (k + 1)
      (by omega) (by omega)
    generalize gallopLoop lt false (length - hint) (length - hint) 0 1 (k + 1) = g at hg ⊢
    have hs := gallopSearch_bounds lt true (min g.2.1 (length - hint) + hint) (g.1 + hint + 1)
      (min g.2.1 (length - hint) + hint) g.2.2 (by omega)
    omega
  · dsimp only
    have hg := gallopLoop_bounds lt true (hint + 1) (hint + 1) 0 1 (k + 1) (by omega) (by omega)
    generalize gallopLoop lt true (hint + 1) (hint + 1) 0 1 (k + 1) = g at hg ⊢
    have hs := gallopSearch_bounds lt true (hint - g.1) (hint + 1 - min g.2.1 (hint + 1))
      (hint - g.1) g.2.2 (by omega)
    omega

/-- The offset returned by `GallopRight` satisfies `0 <= offset <= length`. -/
theorem GallopRight_le (lt : Nat → Bool) (k length hint : Nat) (h : hint < length) :
    (GallopRight lt k length hint).1 ≤ length := by
  unfold GallopRight
  split
  · dsimp only
    have hg := gallopLoop_bounds lt false (hint + 1) (hint + 1) 0 1 (k + 1) (by omega) (by omega)
    generalize gallopLoop lt false (hint + 1) (hint + 1) 0 1 (k + 1) = g at hg ⊢
    have hs := gallopSearch_bounds lt false (hint - g.1) (hint + 1 - min g.2.1 (hint + 1))
      (hint - g.1) g.2.2 (by omega)
    omega
  · dsimp only
    have hg := gallopLoop_bounds lt true (length - hint) (length - hint) 0 1 (k + 1)
      (by omega) (by omega)
    generalize gallopLoop lt true (length - hint) (length - hint) 0 1 (k + 1) = g at hg ⊢
    have hs := gallopSearch_bounds lt false (min g.2.1 (length - hint) + hint) (g.1 + hint + 1)
      (min g.2.1 (length - hint) + hint) g.2.2 (by omega)
    omega

/-- The place found by the binary search of `BinaryInsertionSort` lies in
`[left, right]`. -/
theorem binarySearch_bounds (lt : Nat → Bool) (fuel left right k : Nat) (h : left ≤ right) :
    left ≤ (binarySearch lt fuel left right k).1 ∧
      (binarySearch lt fuel left right k).1 ≤ right := by
  induction fuel generalizing left right k with
  | zero => exact ⟨Nat.le_refl _, h⟩
  | succ fuel ih =>
    unfold binarySearch
    split
    · have hm : (right - left) >>> 1 < right - left := by
        rw [Nat.shiftRight_eq_div_pow]
        omega
      split
      · have := ih left (left + ((right - left) >>> 1)) (k + 1) (by omega)
        omega
      · have := ih (left + ((right - left) >>> 1) + 1) right (k + 1) (by omega)
        omega
    · exact ⟨Nat.le_refl _, h⟩

theorem countRunLoop_le_add (lt : Nat → Bool) (isDescending : Bool) (n runLength k : Nat) :
    (countRunLoop lt isDescending n runLength k).1 ≤ runLength + n := by
  induction n generalizing runLength k with
  | zero => exact Nat.le_refl _
  | succ n ih =>
    unfold countRunLoop
    split
    · have := ih (runLength + 1) (k + 1)
      omega
    · exact Nat.le_add_right _ _

/-- The run found by `CountAndMakeRun` ends in the part it was given. -/
theorem CountAndMakeRun_le {α : Type} (lt : Nat → Bool) (k : Nat) (work : List α) :
    (CountAndMakeRun lt k work).1 ≤ work.length := by
  unfold CountAndMakeRun
  split
  · exact Nat.le_refl _
  · exact Nat.le_refl _
  · rename_i rest
    have h := countRunLoop_le_add lt (lt k) rest.length 2 (k + 1)
    dsimp only
    simp only [List.length_cons]
    split
    · omega
    · omega

/-! ### The sort at given comparator results -/

/-- Two elements, the comparison not negative: an ascending run, the order
stays. -/
theorem shuffle_two_kept : shuffle env1.random [ann, bob] = [ann, bob] := rfl

/-- Two elements, the comparison negative: a descending run, which is
reversed. -/
theorem shuffle_two_reversed : shuffle env0.random [ann, bob] = [bob, ann] := rfl

/-- Three elements, both comparisons negative: a descending run, which is
reversed. -/
theorem shuffle_three_reversed :
    shuffle env0.random [ann, bob, eve] = [eve, bob, ann] := rfl

/-- Four elements, the comparisons negative at the calls 0, 2, 4 and 5: a
descending run of two elements, then two binary insertions; six calls. -/
theorem ArrayTimSortImpl_four :
    ArrayTimSortImpl (fun k => decide (k % 2 = 0 ∨ 4 ≤ k)) [1, 2, 3, 4] = [4, 2, 3, 1] := by
  decide

/-- Seventy elements, every third comparison negative: two runs of 35
elements made by binary insertion, merged by `MergeHigh`. -/
theorem ArrayTimSortImpl_seventy_high :
    ArrayTimSortImpl (fun k => decide (k % 3 = 0)) (List.range 70) =
    [36, 1, 3, 0, 7, 9, 11, 14, 17, 13, 20, 23, 25, 27, 29, 32, 12, 10, 8, 6, 38, 35, 16, 42,
     44, 19, 46, 49, 4, 52, 48, 24, 55, 58, 30, 60, 62, 33, 64, 67, 28, 47, 45, 26, 43, 41, 22,
     51, 54, 15, 39, 59, 31, 65, 68, 34, 63, 61, 18, 57, 50, 21, 66, 69, 2, 53, 5, 56, 37, 40] := by
  decide

/-- Seventy elements, of every twenty comparisons the last eleven negative:
two runs merged by `MergeLow`, which gallops. -/
theorem ArrayTimSortImpl_seventy_low :
    ArrayTimSortImpl (fun k => decide (9 ≤ k % 20)) (List.range 70) =
    [33, 29, 67, 63, 59, 58, 68, 64, 54, 55, 50, 30, 25, 34, 21, 20, 26, 16, 11, 17, 49, 44, 43,
     45, 35, 36, 37, 60, 51, 38, 39, 40, 41, 42, 48, 53, 62, 46, 47, 52, 56, 66, 57, 61, 65, 69,
     10, 0, 12, 1, 2, 3, 22, 4, 15, 5, 6, 7, 8, 9, 24, 13, 14, 18, 19, 28, 32, 23, 27, 31] := by
  decide

set_option maxRecDepth 100000 in
/-- Two hundred elements, of every seven comparisons the first three
negative: four runs of 50 elements, merged in the order that `MergeCollapse`
takes with three runs on the stack. -/
theorem ArrayTimSortImpl_two_hundred :
    ArrayTimSortImpl (fun k => decide (k % 7 < 3)) (List.range 200) =
    [53, 64, 3, 14, 157, 12, 30, 62, 80, 87, 37, 27, 24, 10, 77, 74, 60, 16, 33, 41, 45, 66, 83,
     91, 21, 2, 8, 1, 95, 71, 52, 6, 18, 5, 100, 115, 113, 19, 58, 51, 131, 138, 128, 125, 56,
     0, 36, 111, 117, 134, 142, 7, 4, 68, 146, 122, 104, 109, 55, 69, 49, 101, 107, 119, 102,
     34, 42, 46, 154, 106, 120, 137, 50, 86, 57, 172, 181, 188, 167, 9, 17, 22, 103, 108, 135,
     151, 25, 54, 99, 169, 150, 184, 143, 84, 28, 31, 147, 105, 192, 196, 11, 15, 92, 152, 159,
     110, 123, 96, 59, 38, 118, 161, 163, 165, 20, 13, 23, 174, 126, 129, 132, 67, 72, 75, 177,
     153, 180, 187, 39, 35, 43, 112, 139, 116, 175, 47, 78, 81, 178, 185, 193, 121, 61, 26, 32,
     114, 124, 197, 155, 40, 48, 65, 156, 158, 140, 136, 88, 70, 44, 144, 160, 170, 162, 63, 73,
     89, 182, 148, 127, 133, 85, 93, 97, 164, 189, 168, 173, 76, 82, 90, 141, 149, 145, 176, 98,
     94, 79, 179, 190, 130, 29, 186, 194, 198, 166, 183, 191, 199, 195, 171] := by
  decide

/-- C3: for every existing room, whatever its state and whatever the draws
of the comparator, `start_game` sets `turnOrder` to a rearrangement of the
current player ids (same length, every player id exactly once, no other id),
`state` to `playing`, `currentTurnIdx` to 0, `confirmations` to empty and
`lastPrompt` to null. -/
theorem C3_start_game_turn_order (env : Env) (roomId : String) (cb : Bool) (rooms : Registry)
    (r : Room) (hr : rooms.get? roomId = some r) :
    ∃ r2, (start_game env roomId cb rooms).rooms.get? roomId = some r2 ∧
      r2.turnOrder.Perm r.players.keys ∧
      r2.turnOrder.length = r.players.keys.length ∧
      r2.turnOrder.Nodup ∧
      (∀ s, s ∈ r2.turnOrder ↔ s ∈ r.players.keys) ∧
      (∀ s, s ∈ r.players.keys → r2.turnOrder.count s = 1) ∧
      r2.players = r.players ∧
      r2.state = RoomState.playing ∧ r2.currentTurnIdx = 0 ∧
      r2.confirmations.keys = [] ∧ r2.lastPrompt = none := by
  have hp := shuffle_perm env.random r.players.keys
  have hn : (shuffle env.random r.players.keys).Nodup := hp.nodup_iff.mpr r.players.keys_nodup
  refine ⟨{ r with turnOrder := shuffle env.random r.players.keys, state := RoomState.playing,
                   currentTurnIdx := 0, confirmations := JsObj.empty, lastPrompt := none },
    ?_, hp, hp.length_eq, hn, fun s => hp.mem_iff, ?_, rfl, rfl, rfl, rfl, rfl⟩
  · unfold start_game
    rw [lookup_of_get? hr]
    exact JsObj.get?_set_self _ _ _
  · intro s hs
    exact List.count_eq_one_of_mem hn (hp.mem_iff.mpr hs)

/-- C3 at the room of Ann and Bob, with draws that make the comparator positive. -/
theorem C3_start_game_turn_order_witness :
    (run [annCreates, bobJoins]).get? "AAAAAA" = some roomOfTwo ∧
      ∃ r2, (start_game env1 "AAAAAA" true (run [annCreates, bobJoins])).rooms.get? "AAAAAA"
          = some r2 ∧
        r2.turnOrder.Perm roomOfTwo.players.keys ∧
        r2.turnOrder.length = roomOfTwo.players.keys.length ∧
        r2.turnOrder.Nodup ∧
        (∀ s, s ∈ r2.turnOrder ↔ s ∈ roomOfTwo.players.keys) ∧
        (∀ s, s ∈ roomOfTwo.players.keys → r2.turnOrder.count s = 1) ∧
        r2.players = roomOfTwo.players ∧
        r2.state = RoomState.playing ∧ r2.currentTurnIdx = 0 ∧
        r2.confirmations.keys = [] ∧ r2.lastPrompt = none :=
  ⟨rfl, C3_start_game_turn_order env1 "AAAAAA" true (run [annCreates, bobJoins]) roomOfTwo rfl⟩

/-! ### What `disconnect` does to each room -/

theorem objectKeys_perm (rooms : Registry) : (objectKeys rooms).Perm rooms.keys := by
  unfold objectKeys
  refine ((List.perm_insertionSort _ _).append_right _).trans ?_
  have h : (fun k : String => (arrayIndex? k).isNone) =
      fun k => ! (fun k : String => (arrayIndex? k).isSome) k := by
    funext k
    show (arrayIndex? k).isNone = !(arrayIndex? k).isSome
    cases arrayIndex? k <;> rfl
  rw [h]
  exact List.filter_append_perm _ _

theorem disconnectStep_get? (socket : SessionId) (acc : Outcome) (k : String) (r : Room)
    (ht : acc.threw = false) (hr : acc.rooms.get? k = some r) :
    (disconnectStep socket acc k).threw = false ∧
      ∀ k2, (disconnectStep socket acc k).rooms.get? k2 =
        if k2 = k then disconnectRoom socket r else acc.rooms.get? k2 := by
  unfold disconnectStep disconnectRoom
  rw [if_neg (by simp [ht]), lookup_of_get? hr]
  simp only
  by_cases hh : r.players.has socket = true
  · rw [if_pos hh, if_pos hh]
    by_cases hs : r.hostId = socket
    · rw [if_pos hs, if_pos hs]
      cases hk : (r.players.erase socket).keys with
      | nil =>
        simp only
        refine ⟨by trivial, fun k2 => ?_⟩
        rw [JsObj.get?_erase]
      | cons id0 rest =>
        simp only
        have hm : id0 ∈ (r.players.erase socket).keys := by
          rw [hk]; exact List.mem_cons_self _ _
        obtain ⟨p, hp⟩ := (JsObj.mem_keys_iff _ _).mp hm
        simp only [hp, nameOr]
        refine ⟨by trivial, fun k2 => ?_⟩
        rw [JsObj.get?_set]
    · rw [if_neg hs, if_neg hs]
      refine ⟨rfl, fun k2 => ?_⟩
      rw [JsObj.get?_set]
  · rw [if_neg hh, if_neg hh]
    refine ⟨ht, fun k2 => ?_⟩
    by_cases e : k2 = k
    · rw [if_pos e, e, hr]
    · rw [if_neg e]

theorem foldl_disconnectStep_get? (socket : SessionId) (ks : List String) (acc : Outcome)
    (hn : ks.Nodup) (ht : acc.threw = false)
    (hk : ∀ k ∈ ks, ∃ r, acc.rooms.get? k = some r) :
    (ks.foldl (disconnectStep socket) acc).threw = false ∧
      ∀ k2, (ks.foldl (disconnectStep socket) acc).rooms.get? k2 =
        if k2 ∈ ks then (acc.rooms.get? k2).bind (disconnectRoom socket)
        else acc.rooms.get? k2 := by
  induction ks generalizing acc with
  | nil => exact ⟨ht, fun k2 => by simp⟩
  | cons k ks ih =>
    obtain ⟨r, hr⟩ := hk k (List.mem_cons_self _ _)
    obtain ⟨ht1, hg1⟩ := disconnectStep_get? socket acc k r ht hr
    have hn2 := List.nodup_cons.mp hn
    have hk1 : ∀ k2 ∈ ks, ∃ r2, (disconnectStep socket acc k).rooms.get? k2 = some r2 := by
      intro k2 h2
      have hne : ¬ k2 = k := fun e => hn2.1 (e ▸ h2)
      rw [hg1, if_neg hne]
      exact hk k2 (List.mem_cons_of_mem _ h2)
    obtain ⟨ht2, hg2⟩ := ih (disconnectStep socket acc k) hn2.2 ht1 hk1
    refine ⟨ht2, fun k2 => ?_⟩
    rw [List.foldl_cons, hg2, hg1]
    by_cases e : k2 = k
    · subst e
      simp [hn2.1, hr]
    · simp [e]

theorem disconnect_get? (socket : SessionId) (rooms : Registry) (k : String) :
    (disconnect socket rooms).rooms.get? k = (rooms.get? k).bind (disconnectRoom socket) := by
  have hp := objectKeys_perm rooms
  obtain ⟨_, hg⟩ := foldl_disconnectStep_get? socket (objectKeys rooms)
    { rooms := rooms, effects := [], acks := [], threw := false }
    (hp.nodup_iff.mpr rooms.keys_nodup) rfl
    (fun k2 h2 => (JsObj.mem_keys_iff rooms k2).mp (hp.mem_iff.mp h2))
  unfold disconnect
  rw [hg]
  by_cases hm : k ∈ objectKeys rooms
  · rw [if_pos hm]
  · rw [if_neg hm]
    have hnone : rooms.get? k = none := by
      cases hq : rooms.get? k with
      | none => rfl
      | some r =>
        exact absurd (hp.mem_iff.mpr ((JsObj.mem_keys_iff rooms k).mpr ⟨r, hq⟩)) hm
    rw [hnone]
    rfl

theorem disconnect_threw (socket : SessionId) (rooms : Registry) :
    (disconnect socket rooms).threw = false := by
  have hp := objectKeys_perm rooms
  exact (foldl_disconnectStep_get? socket (objectKeys rooms)
    { rooms := rooms, effects := [], acks := [], threw := false }
    (hp.nodup_iff.mpr rooms.keys_nodup) rfl
    (fun k2 h2 => (JsObj.mem_keys_iff rooms k2).mp (hp.mem_iff.mp h2))).1

theorem leave_room_transfer (socket : SessionId) (roomId : String) (cb : Bool)
    (rooms : Registry) (r : Room) (id0 : SessionId) (rest : List SessionId) (p : Player)
    (hr : rooms.get? roomId = some r) (hh : r.hostId = socket)
    (hk : (r.players.erase socket).keys = id0 :: rest)
    (hp : (r.players.erase socket).get? id0 = some p) :
    (leave_room socket roomId cb rooms).rooms.get? roomId =
      some { r with players := r.players.erase socket, hostId := id0, hostName := p.name } := by
  unfold leave_room
  rw [lookup_of_get? hr]
  simp only [hh, if_true, hk, hp]
  exact JsObj.get?_set_self _ _ _

theorem disconnect_transfer (socket : SessionId) (roomId : String)
    (rooms : Registry) (r : Room) (id0 : SessionId) (rest : List SessionId) (p : Player)
    (hr : rooms.get? roomId = some r) (hh : r.hostId = socket) (hm : socket ∈ r.players.keys)
    (hk : (r.players.erase socket).keys = id0 :: rest)
    (hp : (r.players.erase socket).get? id0 = some p) :
    (disconnect socket rooms).rooms.get? roomId =
      some { r with players := r.players.erase socket, hostId := id0, hostName := p.name } := by
  rw [disconnect_get?, hr]
  show disconnectRoom socket r = _
  unfold disconnectRoom
  rw [if_pos ((JsObj.has_iff _ _).mpr hm), if_pos hh]
  simp only [hk, nameOr, hp]

/-- C4: when the host of a room is removed, by `leave_room` or by `disconnect`,
while another player remains, the room stays in the table; afterwards `hostId`
is the first remaining key of `players`, hence a player still in the room and
not the one who left, and `hostName` is that player's name. -/
theorem C4_host_transfer (socket other : SessionId) (roomId : String) (cb : Bool)
    (rooms : Registry) (r : Room) (hr : rooms.get? roomId = some r)
    (hh : r.hostId = socket) (hm : socket ∈ r.players.keys)
    (ho : other ∈ r.players.keys) (hne : other ≠ socket) :
    (∃ r2 p, (leave_room socket roomId cb rooms).rooms.get? roomId = some r2 ∧
        r2.players = r.players.erase socket ∧
        r2.hostId ∈ r2.players.keys ∧ r2.hostId ≠ socket ∧
        r2.players.keys.head? = some r2.hostId ∧
        r2.players.get? r2.hostId = some p ∧ r2.hostName = p.name) ∧
    (∃ r2 p, (disconnect socket rooms).rooms.get? roomId = some r2 ∧
        r2.players = r.players.erase socket ∧
        r2.hostId ∈ r2.players.keys ∧ r2.hostId ≠ socket ∧
        r2.players.keys.head? = some r2.hostId ∧
        r2.players.get? r2.hostId = some p ∧ r2.hostName = p.name) := by
  have ho2 : other ∈ (r.players.erase socket).keys :=
    (JsObj.mem_keys_erase _ _ _).mpr ⟨hne, ho⟩
  cases hk : (r.players.erase socket).keys with
  | nil => rw [hk] at ho2; exact absurd ho2 (List.not_mem_nil _)
  | cons id0 rest =>
    have hm0 : id0 ∈ (r.players.erase socket).keys := by
      rw [hk]; exact List.mem_cons_self _ _
    obtain ⟨p, hp⟩ := (JsObj.mem_keys_iff _ _).mp hm0
    have hne0 : id0 ≠ socket := ((JsObj.mem_keys_erase _ _ _).mp hm0).1
    refine ⟨⟨_, p, leave_room_transfer socket roomId cb rooms r id0 rest p hr hh hk hp,
        rfl, hm0, hne0, ?_, hp, rfl⟩,
      ⟨_, p, disconnect_transfer socket roomId rooms r id0 rest p hr hh hm hk hp,
        rfl, hm0, hne0, ?_, hp, rfl⟩⟩
    · show (r.players.erase socket).keys.head? = some id0
      rw [hk]; rfl
    · show (r.players.erase socket).keys.head? = some id0
      rw [hk]; rfl

/-- C4 at the room of Ann and Bob when Ann, the host, goes: Bob is the new host. -/
theorem C4_host_transfer_witness :
    (run [annCreates, bobJoins]).get? "AAAAAA" = some roomOfTwo ∧
      roomOfTwo.hostId = ann ∧ ann ∈ roomOfTwo.players.keys ∧
      bob ∈ roomOfTwo.players.keys ∧ bob ≠ ann ∧
      (leave_room ann "AAAAAA" true (run [annCreates, bobJoins])).rooms.get? "AAAAAA"
        = some roomOfBob ∧
      ((∃ r2 p, (leave_room ann "AAAAAA" true (run [annCreates, bobJoins])).rooms.get? "AAAAAA"
            = some r2 ∧
          r2.players = roomOfTwo.players.erase ann ∧
          r2.hostId ∈ r2.players.keys ∧ r2.hostId ≠ ann ∧
          r2.players.keys.head? = some r2.hostId ∧
          r2.players.get? r2.hostId = some p ∧ r2.hostName = p.name) ∧
        (∃ r2 p, (disconnect ann (run [annCreates, bobJoins])).rooms.get? "AAAAAA" = some r2 ∧
          r2.players = roomOfTwo.players.erase ann ∧
          r2.hostId ∈ r2.players.keys ∧ r2.hostId ≠ ann ∧
          r2.players.keys.head? = some r2.hostId ∧
          r2.players.get? r2.hostId = some p ∧ r2.hostName = p.name)) :=
  ⟨rfl, rfl, by decide, by decide, by decide, rfl,
    C4_host_transfer ann bob "AAAAAA" true (run [annCreates, bobJoins]) roomOfTwo rfl rfl
      (by decide) (by decide) (by decide)⟩

/-- C5: in every reachable table, removing the only remaining player of a
room, by `leave_room` or by `disconnect`, deletes the room, and a following
`get_room` on its id acknowledges `ok: false`; no reachable table holds a room
without players. -/
theorem C5_last_player_closes_room (trace : List Incoming) :
    (∀ k r, (run trace).get? k = some r → r.players.keys ≠ []) ∧
    (∀ (socket : SessionId) (roomId : String) (cb cb2 : Bool) (r : Room),
      (run trace).get? roomId = some r → r.players.keys = [socket] →
      (leave_room socket roomId cb (run trace)).rooms.get? roomId = none ∧
      (get_room roomId cb2 (leave_room socket roomId cb (run trace)).rooms).acks
        = callCb cb2 { ok := false } ∧
      (disconnect socket (run trace)).rooms.get? roomId = none ∧
      (get_room roomId cb2 (disconnect socket (run trace)).rooms).acks
        = callCb cb2 { ok := false }) := by
  have hok := run_ok trace
  constructor
  · intro k r h he
    have := (hok.1 k r h).1
    rw [he] at this
    exact absurd this (List.not_mem_nil _)
  · intro socket roomId cb cb2 r hr hk
    have hhost : r.hostId = socket := by
      have := (hok.1 roomId r hr).1
      rw [hk] at this
      simpa using this
    have hm : socket ∈ r.players.keys := by rw [hk]; exact List.mem_cons_self _ _
    have hke : (r.players.erase socket).keys = [] := by
      rw [JsObj.keys_erase, hk]
      simp
    have hproto : roomId ∉ protoNames := protoNames_length_ne roomId (hok.key_length hr)
    have hl : (leave_room socket roomId cb (run trace)).rooms.get? roomId = none := by
      unfold leave_room
      rw [lookup_of_get? hr]
      simp only [hhost, if_true, hke]
      rw [JsObj.get?_erase, if_pos rfl]
    have hd : (disconnect socket (run trace)).rooms.get? roomId = none := by
      rw [disconnect_get?, hr]
      show disconnectRoom socket r = none
      unfold disconnectRoom
      rw [if_pos ((JsObj.has_iff _ _).mpr hm), if_pos hhost]
      simp only [hke]
    refine ⟨hl, ?_, hd, ?_⟩
    · unfold get_room lookup
      rw [hl]
      simp only [hproto, if_false]
    · unfold get_room lookup
      rw [hd]
      simp only [hproto, if_false]

/-- C5 at the room Ann created alone: when she goes the room is gone. -/
theorem C5_last_player_closes_room_witness :
    (run [annCreates]).get? "AAAAAA" = some roomOfAnn ∧ roomOfAnn.players.keys = [ann] ∧
      (leave_room ann "AAAAAA" true (run [annCreates])).rooms.get? "AAAAAA" = none ∧
      (get_room "AAAAAA" true (leave_room ann "AAAAAA" true (run [annCreates])).rooms).acks
        = callCb true { ok := false } ∧
      (disconnect ann (run [annCreates])).rooms.get? "AAAAAA" = none ∧
      (get_room "AAAAAA" true (disconnect ann (run [annCreates])).rooms).acks
        = callCb true { ok := false } :=
  ⟨rfl, rfl,
    (C5_last_player_closes_room [annCreates]).2 ann "AAAAAA" true true roomOfAnn rfl rfl⟩

/-- C6: in every table reachable from the empty one by any sequence of
requests, the `hostId` of every room is a key of its `players`. -/
theorem C6_host_is_player (trace : List Incoming) (k : String) (r : Room)
    (h : (run trace).get? k = some r) : r.hostId ∈ r.players.keys :=
  ((run_ok trace).1 k r h).1

/-- C6 at the run in which Ann creates a room, Bob joins and Ann leaves. -/
theorem C6_host_is_player_witness :
    (run [annCreates, bobJoins, annLeaves]).get? "AAAAAA" = some roomOfBob ∧
      roomOfBob.hostId ∈ roomOfBob.players.keys :=
  ⟨rfl, C6_host_is_player [annCreates, bobJoins, annLeaves] "AAAAAA" roomOfBob rfl⟩

/-- C7, the code at the failing input: in the room Ann created, a
`confirm_did_it` from Eve, who has no player record there, stores the
confirmation under the placeholder name `anon`, sends one `room_update` and
then throws while composing the log message: no log, no quorum check, no
acknowledgement.  The sibling handlers `force_next` and `pick_prompt` run to
their end for the same session, with the labels `someone` and `unknown`. -/
theorem C7_confirm_by_non_member_throws :
    (run [annCreates]).get? "AAAAAA" = some roomOfAnn ∧
    eve ∉ roomOfAnn.players.keys ∧
    (confirm_did_it env0 eve "AAAAAA" true (run [annCreates])).threw = true ∧
    (confirm_did_it env0 eve "AAAAAA" true (run [annCreates])).acks = [] ∧
    (confirm_did_it env0 eve "AAAAAA" true (run [annCreates])).effects =
      [Effect.room_update "AAAAAA"
        { roomOfAnn with confirmations := JsObj.empty.set eve { name := "anon", at_ := 0 } }] ∧
    (force_next eve "AAAAAA" true (run [annCreates])).threw = false ∧
    (force_next eve "AAAAAA" true (run [annCreates])).acks = [{ ok := true }] ∧
    Effect.log "AAAAAA" (LogText.forced "someone")
      ∈ (force_next eve "AAAAAA" true (run [annCreates])).effects ∧
    (pick_prompt env0 eve "AAAAAA" (some "dare") true (run [annCreates])).threw = false ∧
    (pick_prompt env0 eve "AAAAAA" (some "dare") true (run [annCreates])).acks
      = [{ ok := true }] :=
  ⟨rfl, by decide, rfl, rfl, rfl, rfl, rfl, by simp [force_next, lookup_of_get?
    (show (run [annCreates]).get? "AAAAAA" = some roomOfAnn from rfl), nameOr,
    show roomOfAnn.players.get? eve = none from rfl], rfl, rfl⟩

/-- For every existing room and every session without a player record in it,
`confirm_did_it` throws before the quorum check and the acknowledgement. -/
theorem confirm_did_it_non_member (env : Env) (socket : SessionId) (roomId : String)
    (cb : Bool) (rooms : Registry) (r : Room) (hr : rooms.get? roomId = some r)
    (hm : socket ∉ r.players.keys) :
    (confirm_did_it env socket roomId cb rooms).threw = true ∧
      (confirm_did_it env socket roomId cb rooms).acks = [] := by
  have hn : r.players.get? socket = none := by
    cases hq : r.players.get? socket with
    | none => rfl
    | some p => exact absurd ((JsObj.mem_keys_iff _ _).mpr ⟨p, hq⟩) hm
  unfold confirm_did_it
  rw [lookup_of_get? hr]
  simp only [hn]
  exact ⟨rfl, rfl⟩

/-- C8, the code at the failing input: when Ann, the only member of her room,
sends `leave_room` with a callback, the room is deleted, `room_closed` is sent
and the handler returns without calling the callback.  With Bob still in the
room the same request is acknowledged with `ok: true`. -/
theorem C8_leave_room_last_member_no_ack :
    (run [annCreates]).get? "AAAAAA" = some roomOfAnn ∧
    roomOfAnn.players.keys = [ann] ∧
    (leave_room ann "AAAAAA" true (run [annCreates])).acks = [] ∧
    (leave_room ann "AAAAAA" true (run [annCreates])).threw = false ∧
    (leave_room ann "AAAAAA" true (run [annCreates])).effects
      = [Effect.leave "AAAAAA", Effect.room_closed "AAAAAA"] ∧
    (leave_room ann "AAAAAA" true (run [annCreates])).rooms.get? "AAAAAA" = none ∧
    (leave_room ann "AAAAAA" true (run [annCreates, bobJoins])).acks = [{ ok := true }] :=
  ⟨rfl, rfl, rfl, rfl, rfl, rfl, rfl⟩

/-- Whenever the host is the only player of an existing room, `leave_room`
deletes the room and returns without calling the callback. -/
theorem leave_room_last_member (socket : SessionId) (roomId : String) (cb : Bool)
    (rooms : Registry) (r : Room) (hr : rooms.get? roomId = some r)
    (hh : r.hostId = socket) (hk : r.players.keys = [socket]) :
    (leave_room socket roomId cb rooms).acks = [] ∧
      (leave_room socket roomId cb rooms).threw = false ∧
      (leave_room socket roomId cb rooms).rooms.get? roomId = none := by
  have hke : (r.players.erase socket).keys = [] := by
    rw [JsObj.keys_erase, hk]
    simp
  unfold leave_room
  rw [lookup_of_get? hr]
  simp only [hh, if_true, hke]
  refine ⟨trivial, trivial, ?_⟩
  rw [JsObj.get?_erase, if_pos rfl]

/-- C9, the code at the failing input: `constructor` is not a key of the
table that holds Ann's room, yet `rooms['constructor']` is the inherited, truthy
member of `Object.prototype`.  `get_room` acknowledges `ok: true` with it, and
`join_room`, `leave_room`, `start_game`, `pick_prompt`, `confirm_did_it` and
`force_next` throw at their first property read without acknowledging.  The
table is unchanged; an id such as `ZZZZZZ` is rejected with `Room not found`. -/
theorem C9_inherited_key_passes_guard :
    (run [annCreates]).keys = ["AAAAAA"] ∧
    "constructor" ∉ (run [annCreates]).keys ∧
    (get_room "constructor" true (run [annCreates])).acks
      = [{ ok := true, room := some (Found.inherited "constructor") }] ∧
    (join_room env0 bob "constructor" (some "Bob") true (run [annCreates])).threw = true ∧
    (join_room env0 bob "constructor" (some "Bob") true (run [annCreates])).acks = [] ∧
    (leave_room bob "constructor" true (run [annCreates])).acks = [] ∧
    (start_game env0 "constructor" true (run [annCreates])).acks = [] ∧
    (pick_prompt env0 bob "constructor" (some "truth") true (run [annCreates])).acks = [] ∧
    (confirm_did_it env0 bob "constructor" true (run [annCreates])).acks = [] ∧
    (force_next bob "constructor" true (run [annCreates])).acks = [] ∧
    (join_room env0 bob "constructor" (some "Bob") true (run [annCreates])).rooms.keys
      = ["AAAAAA"] ∧
    (join_room env0 bob "ZZZZZZ" (some "Bob") true (run [annCreates])).acks
      = [{ ok := false, error := some "Room not found" }] :=
  ⟨rfl, by decide, rfl, rfl, rfl, rfl, rfl, rfl, rfl, rfl, rfl, rfl⟩

/-- For a room id that is not a key of the table but names a property of
`Object.prototype`, `get_room` acknowledges `ok: true` and the six handlers that
go on to read the room throw without acknowledging; the table is unchanged. -/
theorem inherited_room_accepted (env : Env) (socket : SessionId) (roomId : String)
    (name choice : Option String) (cb : Bool) (rooms : Registry)
    (hk : roomId ∉ rooms.keys) (hp : roomId ∈ protoNames) :
    get_room roomId cb rooms
      = ⟨rooms, [], callCb cb { ok := true, room := some (Found.inherited roomId) }, false⟩ ∧
    join_room env socket roomId name cb rooms = ⟨rooms, [], [], true⟩ ∧
    leave_room socket roomId cb rooms = ⟨rooms, [], [], true⟩ ∧
    start_game env roomId cb rooms = ⟨rooms, [], [], true⟩ ∧
    pick_prompt env socket roomId choice cb rooms = ⟨rooms, [], [], true⟩ ∧
    confirm_did_it env socket roomId cb rooms = ⟨rooms, [], [], true⟩ ∧
    force_next socket roomId cb rooms = ⟨rooms, [], [], true⟩ := by
  have hn : rooms.get? roomId = none := by
    cases hq : rooms.get? roomId with
    | none => rfl
    | some r => exact absurd ((JsObj.mem_keys_iff _ _).mpr ⟨r, hq⟩) hk
  have hl : lookup rooms roomId = some (Found.inherited roomId) := by
    unfold lookup
    rw [hn]
    simp only [hp, if_true]
  refine ⟨?_, ?_, ?_, ?_, ?_, ?_, ?_⟩
  · unfold get_room; rw [hl]
  · unfold join_room; rw [hl]; rfl
  · unfold leave_room; rw [hl]; rfl
  · unfold start_game; rw [hl]; rfl
  · unfold pick_prompt; rw [hl]; rfl
  · unfold confirm_did_it; rw [hl]; rfl
  · unfold force_next; rw [hl]; rfl

/-- For a room id that is neither a key of the table nor a property name of
`Object.prototype`, every handler acknowledges `ok: false` (`join_room` with the
error text `Room not found`) and leaves the table as it is. -/
theorem unknown_room_rejected (env : Env) (socket : SessionId) (roomId : String)
    (name choice : Option String) (cb : Bool) (rooms : Registry)
    (hk : roomId ∉ rooms.keys) (hp : roomId ∉ protoNames) :
    join_room env socket roomId name cb rooms =
      ⟨rooms, [], callCb cb { ok := false, error := some "Room not found" }, false⟩ ∧
    leave_room socket roomId cb rooms = ⟨rooms, [], callCb cb { ok := false }, false⟩ ∧
    start_game env roomId cb rooms = ⟨rooms, [], callCb cb { ok := false }, false⟩ ∧
    pick_prompt env socket roomId choice cb rooms
      = ⟨rooms, [], callCb cb { ok := false }, false⟩ ∧
    confirm_did_it env socket roomId cb rooms
      = ⟨rooms, [], callCb cb { ok := false }, false⟩ ∧
    force_next socket roomId cb rooms = ⟨rooms, [], callCb cb { ok := false }, false⟩ ∧
    get_room roomId cb rooms = ⟨rooms, [], callCb cb { ok := false }, false⟩ := by
  have hn : rooms.get? roomId = none := by
    cases hq : rooms.get? roomId with
    | none => rfl
    | some r => exact absurd ((JsObj.mem_keys_iff _ _).mpr ⟨r, hq⟩) hk
  have hl : lookup rooms roomId = none := by
    unfold lookup
    rw [hn]
    simp only [hp, if_false]
  refine ⟨?_, ?_, ?_, ?_, ?_, ?_, ?_⟩
  · unfold join_room; rw [hl]
  · unfold leave_room; rw [hl]
  · unfold start_game; rw [hl]
  · unfold pick_prompt; rw [hl]
  · unfold confirm_did_it; rw [hl]
  · unfold force_next; rw [hl]
  · unfold get_room; rw [hl]

/-- C10: for every room of a reachable table, every session and every
choice string, `pick_prompt` runs to its end and sets `lastPrompt` to a record
with the given `choice`, with `by` the name of the session's player record, or
`unknown` when it has none, and with `text` an element of the truths pool when
the choice is exactly `truth` and of the dares pool otherwise; it empties
`confirmations` and leaves `players`, `hostId`, `state`, `turnOrder` and
`currentTurnIdx` as they were.  Nothing is asked of the session: it need not
hold the current turn. -/
theorem C10_pick_prompt (trace : List Incoming) (env : Env) (socket : SessionId)
    (roomId : String) (choice : String) (cb : Bool) (r : Room)
    (hr : (run trace).get? roomId = some r) :
    (pick_prompt env socket roomId (some choice) cb (run trace)).threw = false ∧
    ∃ r2 lp text,
      (pick_prompt env socket roomId (some choice) cb (run trace)).rooms.get? roomId = some r2 ∧
      r2.lastPrompt = some lp ∧ lp.choice = some choice ∧
      (∀ p, r.players.get? socket = some p → lp.by_ = p.name) ∧
      (socket ∉ r.players.keys → lp.by_ = "unknown") ∧
      lp.text = some text ∧
      (choice = "truth" → text ∈ r.prompts.truths) ∧
      (choice ≠ "truth" → text ∈ r.prompts.dares) ∧
      r2.confirmations.keys = [] ∧ r2.players = r.players ∧ r2.hostId = r.hostId ∧
      r2.state = r.state ∧ r2.turnOrder = r.turnOrder ∧
      r2.currentTurnIdx = r.currentTurnIdx := by
  obtain ⟨_, _, ht, hd⟩ := (run_ok trace).1 roomId r hr
  have hlen : 0 < (if some choice = some "truth" then r.prompts.truths
      else r.prompts.dares).length := by
    split
    · rw [ht]; decide
    · rw [hd]; decide
  have hidx := Draw.floorMul_lt (env.random 0) _ hlen
  refine ⟨?_, ?_⟩
  · unfold pick_prompt
    rw [lookup_of_get? hr]
  · have htext := List.getElem?_eq_getElem hidx
    have hmem := List.getElem_mem hidx
    generalize (if some choice = some "truth" then r.prompts.truths
      else r.prompts.dares)[(env.random 0).floorMul (if some choice = some "truth"
        then r.prompts.truths else r.prompts.dares).length] = text at htext hmem
    refine ⟨{ r with
        lastPrompt := some ⟨nameOr r socket "unknown", some choice, some text, env.now 0⟩,
        confirmations := JsObj.empty },
      ⟨nameOr r socket "unknown", some choice, some text, env.now 0⟩, text,
      ?_, rfl, rfl, ?_, ?_, rfl, ?_, ?_, rfl, rfl, rfl, rfl, rfl, rfl⟩
    · unfold pick_prompt
      rw [lookup_of_get? hr]
      simp only [htext]
      exact JsObj.get?_set_self _ _ _
    · intro p hp
      simp only [nameOr, hp]
    · intro hm
      have hn : r.players.get? socket = none := by
        cases hq : r.players.get? socket with
        | none => rfl
        | some p => exact absurd ((JsObj.mem_keys_iff _ _).mpr ⟨p, hq⟩) hm
      simp only [nameOr, hn]
    · intro hc
      simpa [hc] using hmem
    · intro hc
      simpa [hc] using hmem

/-- C10 at the started game of Ann and Bob: Bob, whose turn it is not, picks a dare. -/
theorem C10_pick_prompt_witness :
    (run [annCreates, bobJoins, annStarts]).get? "AAAAAA" = some roomStarted ∧
      roomStarted.turnOrder[roomStarted.currentTurnIdx]? = some ann ∧
      (pick_prompt env0 bob "AAAAAA" (some "dare") true
        (run [annCreates, bobJoins, annStarts])).threw = false :=
  ⟨rfl, rfl,
    (C10_pick_prompt [annCreates, bobJoins, annStarts] env0 bob "AAAAAA" "dare" true
      roomStarted rfl).1⟩

/-- C11: for every existing room and every session, host or not, member or
not, `force_next` runs to its end, sets `currentTurnIdx` to
`(currentTurnIdx + 1) mod max(1, turnOrder.length)`, empties `confirmations`,
sets `lastPrompt` to null and leaves `players`, `hostId`, `state` and
`turnOrder` as they were. -/
theorem C11_force_next (socket : SessionId) (roomId : String) (cb : Bool) (rooms : Registry)
    (r : Room) (hr : rooms.get? roomId = some r) :
    (force_next socket roomId cb rooms).threw = false ∧
    (force_next socket roomId cb rooms).acks = callCb cb { ok := true } ∧
    ∃ r2, (force_next socket roomId cb rooms).rooms.get? roomId = some r2 ∧
      r2.currentTurnIdx = (r.currentTurnIdx + 1) % max 1 r.turnOrder.length ∧
      r2.confirmations.keys = [] ∧ r2.lastPrompt = none ∧
      r2.players = r.players ∧ r2.hostId = r.hostId ∧ r2.state = r.state ∧
      r2.turnOrder = r.turnOrder := by
  unfold force_next
  rw [lookup_of_get? hr]
  exact ⟨rfl, rfl, _, JsObj.get?_set_self _ _ _, rfl, rfl, rfl, rfl, rfl, rfl, rfl⟩

/-- C11 at the started game of Ann and Bob: Eve, neither host nor member,
forces the next turn and the index goes from 0 to 1. -/
theorem C11_force_next_witness :
    (run [annCreates, bobJoins, annStarts]).get? "AAAAAA" = some roomStarted ∧
      eve ∉ roomStarted.players.keys ∧ roomStarted.hostId ≠ eve ∧
      (force_next eve "AAAAAA" true (run [annCreates, bobJoins, annStarts])).rooms.get? "AAAAAA"
        = some { roomStarted with currentTurnIdx := 1 } ∧
      (force_next eve "AAAAAA" true (run [annCreates, bobJoins, annStarts])).threw = false :=
  ⟨rfl, by decide, by decide, rfl,
    (C11_force_next eve "AAAAAA" true (run [annCreates, bobJoins, annStarts]) roomStarted
      rfl).1⟩

/-! ### Entries of the generated pools -/

theorem generatePrompts_truths_getElem? (mode : String) (i : Nat) (hi : i < 350) :
    (generatePrompts mode).truths[i]? = some (replace (truthAt i) "edition"
      (if mode = "risky" then "risky edition" else "funny edition")) := by
  have h4 : i < 400 := by omega
  unfold generatePrompts
  by_cases h : mode = "risky"
  · simp [h, List.getElem?_take, hi, List.getElem?_range, h4]
  · simp [h, List.getElem?_take, hi, List.getElem?_range, h4]

theorem generatePrompts_dares_getElem? (mode : String) (i : Nat) (hi : i < 350) :
    (generatePrompts mode).dares[i]? = some (replace (dareAt i) "or"
      (if mode = "risky" then "or (risky)" else "or (funny)")) := by
  have h4 : i < 400 := by omega
  unfold generatePrompts
  by_cases h : mode = "risky"
  · simp [h, List.getElem?_take, hi, List.getElem?_range, h4]
  · simp [h, List.getElem?_take, hi, List.getElem?_range, h4]

/-- For every existing room, `pick_prompt` without a `choice` changes the room
and then throws, without acknowledging. -/
theorem pick_prompt_without_choice (env : Env) (socket : SessionId) (roomId : String)
    (cb : Bool) (rooms : Registry) (r : Room) (hr : rooms.get? roomId = some r) :
    (pick_prompt env socket roomId none cb rooms).threw = true ∧
      (pick_prompt env socket roomId none cb rooms).acks = [] ∧
      ∃ r2, (pick_prompt env socket roomId none cb rooms).rooms.get? roomId = some r2 ∧
        r2.confirmations.keys = [] ∧
        r2.lastPrompt = some ⟨nameOr r socket "unknown", none,
          r.prompts.dares[(env.random 0).floorMul r.prompts.dares.length]?, env.now 0⟩ := by
  unfold pick_prompt
  rw [lookup_of_get? hr]
  exact ⟨rfl, rfl, _, JsObj.get?_set_self _ _ _, rfl, rfl⟩

/-- For every existing room and every choice string, `pick_prompt` runs to its
end and acknowledges `ok: true`; unless the string is exactly `truth`, the text
is read from the dares pool. -/
theorem pick_prompt_with_choice (env : Env) (socket : SessionId) (roomId : String)
    (choice : String) (cb : Bool) (rooms : Registry) (r : Room)
    (hr : rooms.get? roomId = some r) :
    (pick_prompt env socket roomId (some choice) cb rooms).threw = false ∧
      (pick_prompt env socket roomId (some choice) cb rooms).acks = callCb cb { ok := true } ∧
      (choice ≠ "truth" →
        ∃ r2 lp, (pick_prompt env socket roomId (some choice) cb rooms).rooms.get? roomId
            = some r2 ∧ r2.lastPrompt = some lp ∧
          lp.text = r.prompts.dares[(env.random 0).floorMul r.prompts.dares.length]?) := by
  unfold pick_prompt
  rw [lookup_of_get? hr]
  refine ⟨rfl, rfl, fun hc => ?_⟩
  have hne : ¬ (some choice = some "truth") := fun e => hc (Option.some.inj e)
  refine ⟨_, _, JsObj.get?_set_self _ _ _, rfl, ?_⟩
  simp only [hne, if_false]

/-- C12, the code at the failing input: in the started game of Ann and Bob,
`pick_prompt` from Ann without a `choice` takes its text from the dares pool,
stores `lastPrompt`, empties `confirmations`, sends `room_update` and then throws
at `choice.toUpperCase()`: no log line and no acknowledgement.  With the choice
`dare` the same request is acknowledged with `ok: true`. -/
theorem C12_pick_prompt_without_choice_throws :
    (run [annCreates, bobJoins, annStarts]).get? "AAAAAA" = some roomStarted ∧
    (pick_prompt env0 ann "AAAAAA" none true (run [annCreates, bobJoins, annStarts])).threw
      = true ∧
    (pick_prompt env0 ann "AAAAAA" none true (run [annCreates, bobJoins, annStarts])).acks
      = [] ∧
    (∀ t, Effect.log "AAAAAA" t ∉
      (pick_prompt env0 ann "AAAAAA" none true
        (run [annCreates, bobJoins, annStarts])).effects) ∧
    (∃ r2, (pick_prompt env0 ann "AAAAAA" none true
          (run [annCreates, bobJoins, annStarts])).rooms.get? "AAAAAA" = some r2 ∧
      r2.confirmations.keys = [] ∧
      r2.lastPrompt = some ⟨"Ann", none,
        some ("Do your best pirate impression for (funny) 30 seconds. — or kiss a random "
          ++ "object in front of the group (round 1)"), 0⟩) ∧
    (pick_prompt env0 ann "AAAAAA" (some "dare") true
        (run [annCreates, bobJoins, annStarts])).acks = [{ ok := true }] := by
  have hr : (run [annCreates, bobJoins, annStarts]).get? "AAAAAA" = some roomStarted := rfl
  obtain ⟨h1, h2, r2, h3, h4, h5⟩ :=
    pick_prompt_without_choice env0 ann "AAAAAA" true _ roomStarted hr
  have hlen : roomStarted.prompts.dares.length = 350 := generatePrompts_dares_length _
  have htext : roomStarted.prompts.dares[0]? = some
      ("Do your best pirate impression for (funny) 30 seconds. — or kiss a random "
        ++ "object in front of the group (round 1)") := by
    show (generatePrompts "funny").dares[0]? = _
    rw [generatePrompts_dares_getElem? "funny" 0 (by decide)]
    decide
  refine ⟨hr, h1, h2, ?_, ⟨r2, h3, h4, ?_⟩, ?_⟩
  · intro t
    unfold pick_prompt
    rw [lookup_of_get? hr]
    simp [thrown]
  · rw [h5, hlen]
    show some (LastPrompt.mk "Ann" none (roomStarted.prompts.dares[0]?) 0) = _
    rw [htext]
  · exact (pick_prompt_with_choice env0 ann "AAAAAA" "dare" true _ roomStarted hr).2.1

/-! ### Frame lemmas for removal -/

theorem JsObj.eraseList_of_not_mem {K V : Type} [DecidableEq K] (k : K) (l : List (K × V))
    (h : k ∉ l.map Prod.fst) : JsObj.eraseList k l = l := by
  induction l with
  | nil => rfl
  | cons p rest ih =>
    obtain ⟨a, w⟩ := p
    have h1 : ¬ a = k := fun e => h (by simp [e])
    have h2 : k ∉ rest.map Prod.fst := fun m => h (List.mem_cons_of_mem _ m)
    simp [JsObj.eraseList, h1, ih h2]

theorem JsObj.erase_of_not_mem {K V : Type} [DecidableEq K] (o : JsObj K V) (k : K)
    (h : k ∉ o.keys) : o.erase k = o := by
  obtain ⟨l, hl⟩ := o
  have := JsObj.eraseList_of_not_mem k l h
  simp only [JsObj.erase]
  congr

theorem disconnectRoom_of_not_mem (socket : SessionId) (r : Room)
    (h : socket ∉ r.players.keys) : disconnectRoom socket r = some r := by
  unfold disconnectRoom
  have hh : ¬ r.players.has socket = true := fun e => h ((JsObj.has_iff _ _).mp e)
  rw [if_neg hh]

theorem disconnectRoom_some (socket : SessionId) (r r2 : Room)
    (h : disconnectRoom socket r = some r2) :
    socket ∉ r2.players.keys ∧
      r2.players.keys = r.players.keys.filter (fun a => decide (a ≠ socket)) ∧
      (∀ s2, s2 ≠ socket → r2.players.get? s2 = r.players.get? s2) ∧
      r2.turnOrder = r.turnOrder ∧ r2.currentTurnIdx = r.currentTurnIdx ∧
      r2.state = r.state ∧ r2.lastPrompt = r.lastPrompt ∧
      r2.confirmations = r.confirmations ∧ r2.prompts = r.prompts ∧ r2.mode = r.mode := by
  have herase : socket ∉ (r.players.erase socket).keys := fun m =>
    ((JsObj.mem_keys_erase _ _ _).mp m).1 rfl
  have hget : ∀ s2, s2 ≠ socket → (r.players.erase socket).get? s2 = r.players.get? s2 := by
    intro s2 hne
    rw [JsObj.get?_erase, if_neg hne]
  unfold disconnectRoom at h
  by_cases hh : r.players.has socket = true
  · rw [if_pos hh] at h
    by_cases hs : r.hostId = socket
    · rw [if_pos hs] at h
      cases hk : (r.players.erase socket).keys with
      | nil => rw [hk] at h; simp at h
      | cons id0 rest =>
        rw [hk] at h
        simp only [Option.some.injEq] at h
        subst h
        exact ⟨herase, JsObj.keys_erase _ _, hget, rfl, rfl, rfl, rfl, rfl, rfl, rfl⟩
    · rw [if_neg hs] at h
      simp only [Option.some.injEq] at h
      subst h
      exact ⟨herase, JsObj.keys_erase _ _, hget, rfl, rfl, rfl, rfl, rfl, rfl, rfl⟩
  · rw [if_neg hh] at h
    simp only [Option.some.injEq] at h
    subst h
    have hm : socket ∉ r.players.keys := fun m => hh ((JsObj.has_iff _ _).mpr m)
    refine ⟨hm, ?_, fun _ _ => rfl, rfl, rfl, rfl, rfl, rfl, rfl, rfl⟩
    symm
    rw [List.filter_eq_self]
    intro a ha
    simp only [decide_eq_true_eq]
    exact fun e => hm (e ▸ ha)

/-- C13: after `disconnect` of a session `s`, which never throws: `s` is a
key of `players` in no room left in the table; every room in which `s` was
not a player is unchanged; in every surviving room the players other than `s`
(records and order), `turnOrder`, `currentTurnIdx`, `state`, `lastPrompt` and
`confirmations` are unchanged; no room appears; and, in a table the server can
reach, every room in which `s` was the only player has been deleted. -/
theorem C13_disconnect_sweeps_all_rooms (s : SessionId) (rooms : Registry) :
    (disconnect s rooms).threw = false ∧
    (∀ k r2, (disconnect s rooms).rooms.get? k = some r2 → s ∉ r2.players.keys) ∧
    (∀ k r, rooms.get? k = some r → s ∉ r.players.keys →
      (disconnect s rooms).rooms.get? k = some r) ∧
    (∀ k r2, (disconnect s rooms).rooms.get? k = some r2 →
      ∃ r, rooms.get? k = some r ∧
        r2.players.keys = r.players.keys.filter (fun a => decide (a ≠ s)) ∧
        (∀ s2, s2 ≠ s → r2.players.get? s2 = r.players.get? s2) ∧
        r2.turnOrder = r.turnOrder ∧ r2.currentTurnIdx = r.currentTurnIdx ∧
        r2.state = r.state ∧ r2.lastPrompt = r.lastPrompt ∧
        r2.confirmations = r.confirmations) ∧
    (Reachable rooms → ∀ k r, rooms.get? k = some r → r.players.keys = [s] →
      (disconnect s rooms).rooms.get? k = none) := by
  refine ⟨disconnect_threw s rooms, ?_, ?_, ?_, ?_⟩
  · intro k r2 h
    rw [disconnect_get?] at h
    cases hq : rooms.get? k with
    | none => rw [hq] at h; simp at h
    | some r =>
      rw [hq] at h
      exact (disconnectRoom_some s r r2 h).1
  · intro k r hr hm
    rw [disconnect_get?, hr]
    exact disconnectRoom_of_not_mem s r hm
  · intro k r2 h
    rw [disconnect_get?] at h
    cases hq : rooms.get? k with
    | none => rw [hq] at h; simp at h
    | some r =>
      rw [hq] at h
      obtain ⟨_, h2, h3, h4, h5, h6, h7, h8, _, _⟩ := disconnectRoom_some s r r2 h
      exact ⟨r, rfl, h2, h3, h4, h5, h6, h7, h8⟩
  · intro hreach k r hr hk
    have hhost : r.hostId = s := by
      have := (hreach.ok.1 k r hr).1
      rw [hk] at this
      simpa using this
    have hm : s ∈ r.players.keys := by rw [hk]; exact List.mem_cons_self _ _
    have hke : (r.players.erase s).keys = [] := by
      rw [JsObj.keys_erase, hk]
      simp
    rw [disconnect_get?, hr]
    show disconnectRoom s r = none
    unfold disconnectRoom
    rw [if_pos ((JsObj.has_iff _ _).mpr hm), if_pos hhost]
    simp only [hke]

/-- C13 at the table with the room of Ann and Bob: after Ann disconnects Bob is
alone in it, and after Ann disconnects from the room she created alone the room
is gone. -/
theorem C13_disconnect_sweeps_all_rooms_witness :
    (run [annCreates, bobJoins]).get? "AAAAAA" = some roomOfTwo ∧
      (disconnect ann (run [annCreates, bobJoins])).rooms.get? "AAAAAA" = some roomOfBob ∧
      ann ∉ roomOfBob.players.keys ∧
      (run [annCreates]).get? "AAAAAA" = some roomOfAnn ∧ roomOfAnn.players.keys = [ann] ∧
      (disconnect ann (run [annCreates])).rooms.get? "AAAAAA" = none :=
  ⟨rfl, rfl,
    (C13_disconnect_sweeps_all_rooms ann (run [annCreates, bobJoins])).2.1 "AAAAAA" roomOfBob
      rfl, rfl, rfl,
    (C13_disconnect_sweeps_all_rooms ann (run [annCreates])).2.2.2.2 ⟨[annCreates], rfl⟩
      "AAAAAA" roomOfAnn rfl rfl⟩

/-! ### Characters of a generated id -/

theorem charAt_chars_data (i : Nat) (hi : i < 31) : ∀ c ∈ (charAt chars i).data, c ∈ chars := by
  unfold charAt
  have h : i < chars.length := by rw [chars_length]; exact hi
  rw [List.getElem?_eq_getElem h]
  intro c hc
  have hc2 : c = chars[i] := by simpa [String.singleton] using hc
  rw [hc2]
  exact List.getElem_mem h

theorem randIdLoop_data (random : Nat → Draw) (n k : Nat) (s : String)
    (hs : ∀ c ∈ s.data, c ∈ chars) : ∀ c ∈ (randIdLoop random n k s).data, c ∈ chars := by
  induction n generalizing k s with
  | zero => exact hs
  | succ n ih =>
    rw [randIdLoop]
    apply ih
    intro c hc
    rw [String.data_append, List.mem_append] at hc
    rcases hc with hc | hc
    · exact hs c hc
    · have hlt := Draw.floorMul_lt (random k) chars.length (by rw [chars_length]; decide)
      rw [chars_length] at hlt
      exact charAt_chars_data _ hlt c hc

theorem randId_data (random : Nat → Draw) (k len : Nat) :
    ∀ c ∈ (randId random k len).data, c ∈ chars := by
  unfold randId
  apply randIdLoop_data
  intro c hc
  simp at hc

/-- C14: for every existing room, session `s` and name, `join_room` runs to
its end and acknowledges `ok: true`; afterwards `players[s]` is a record with id
`s` and with the given name, or, when the name is absent or empty, with
`Player_` followed by three characters of the id alphabet; every other player
entry and `hostId`, `hostName`, `state`, `turnOrder`, `currentTurnIdx`,
`lastPrompt` and `confirmations` are unchanged; if `s` was a player already the
keys of `players`, and so their number, are unchanged. -/
theorem C14_join_room (env : Env) (s : SessionId) (roomId : String) (name : Option String)
    (cb : Bool) (rooms : Registry) (r : Room) (hr : rooms.get? roomId = some r) :
    (join_room env s roomId name cb rooms).threw = false ∧
    (join_room env s roomId name cb rooms).acks = callCb cb { ok := true } ∧
    ∃ r2 p, (join_room env s roomId name cb rooms).rooms.get? roomId = some r2 ∧
      r2.players.get? s = some p ∧ p.id = s ∧
      (∀ n, name = some n → n ≠ "" → p.name = n) ∧
      (name = none ∨ name = some "" →
        ∃ tag : String, p.name = "Player_" ++ tag ∧ tag.length = 3 ∧
          ∀ c ∈ tag.data, c ∈ chars) ∧
      (∀ s2, s2 ≠ s → r2.players.get? s2 = r.players.get? s2) ∧
      r2.hostId = r.hostId ∧ r2.hostName = r.hostName ∧ r2.state = r.state ∧
      r2.turnOrder = r.turnOrder ∧ r2.currentTurnIdx = r.currentTurnIdx ∧
      r2.lastPrompt = r.lastPrompt ∧ r2.confirmations = r.confirmations ∧
      (s ∈ r.players.keys → r2.players.keys = r.players.keys ∧
        r2.players.keys.length = r.players.keys.length) := by
  unfold join_room
  rw [lookup_of_get? hr]
  refine ⟨rfl, rfl, _, _, JsObj.get?_set_self _ _ _, JsObj.get?_set_self _ _ _, rfl, ?_, ?_, ?_,
    rfl, rfl, rfl, rfl, rfl, rfl, rfl, ?_⟩
  · intro n hn hne
    simp only [hn, jsOr, hne, if_false]
  · intro hn
    refine ⟨randId env.random 0 3, ?_, randId_length _ _ _, randId_data _ _ _⟩
    rcases hn with hn | hn <;> simp [hn, jsOr]
  · intro s2 hne
    simp only
    rw [JsObj.get?_set, if_neg hne]
  · intro hm
    simp only
    rw [JsObj.keys_set, if_pos hm]
    exact ⟨rfl, rfl⟩

/-- C14 at the room Ann created: Bob joins without a name and is listed as
`Player_AAA`. -/
theorem C14_join_room_witness :
    (run [annCreates]).get? "AAAAAA" = some roomOfAnn ∧
      (join_room env0 bob "AAAAAA" none true (run [annCreates])).rooms.get? "AAAAAA"
        = some { roomOfAnn with
            players := roomOfAnn.players.set bob ⟨bob, "Player_AAA", 0⟩ } ∧
      (join_room env0 bob "AAAAAA" none true (run [annCreates])).acks = callCb true { ok := true } :=
  ⟨rfl, rfl, (C14_join_room env0 bob "AAAAAA" none true (run [annCreates]) roomOfAnn rfl).2.1⟩

/-- C15: in every table the server can reach, `leave_room` and `disconnect`
by a session that is not a player of a room leave that room in the table exactly
as it was: `players`, `hostId`, `hostName`, `state`, `turnOrder`,
`currentTurnIdx`, `lastPrompt`, `confirmations` and every other field. -/
theorem C15_non_member_removal_is_noop (trace : List Incoming) (s : SessionId)
    (roomId : String) (cb : Bool) (r : Room) (hr : (run trace).get? roomId = some r)
    (hm : s ∉ r.players.keys) :
    (leave_room s roomId cb (run trace)).rooms.get? roomId = some r ∧
    (leave_room s roomId cb (run trace)).threw = false ∧
    (disconnect s (run trace)).rooms.get? roomId = some r ∧
    (disconnect s (run trace)).threw = false := by
  have hhost : ¬ r.hostId = s := fun e => hm (e ▸ ((run_ok trace).1 roomId r hr).1)
  have he : r.players.erase s = r.players := JsObj.erase_of_not_mem _ _ hm
  refine ⟨?_, ?_, ?_, disconnect_threw _ _⟩
  · unfold leave_room
    rw [lookup_of_get? hr]
    simp only [hhost, if_false, he]
    exact JsObj.get?_set_self _ _ _
  · unfold leave_room
    rw [lookup_of_get? hr]
    simp only [hhost, if_false]
  · rw [disconnect_get?, hr]
    exact disconnectRoom_of_not_mem s r hm

/-- C15 at the room of Ann and Bob, which Eve never joined. -/
theorem C15_non_member_removal_is_noop_witness :
    (run [annCreates, bobJoins]).get? "AAAAAA" = some roomOfTwo ∧
      eve ∉ roomOfTwo.players.keys ∧
      (leave_room eve "AAAAAA" true (run [annCreates, bobJoins])).rooms.get? "AAAAAA"
        = some roomOfTwo ∧
      (leave_room eve "AAAAAA" true (run [annCreates, bobJoins])).threw = false ∧
      (disconnect eve (run [annCreates, bobJoins])).rooms.get? "AAAAAA" = some roomOfTwo ∧
      (disconnect eve (run [annCreates, bobJoins])).threw = false :=
  ⟨rfl, by decide,
    C15_non_member_removal_is_noop [annCreates, bobJoins] eve "AAAAAA" true roomOfTwo rfl
      (by decide)⟩

/-- C16: for every host session, name and mode, and whatever the table held
before, `create_room` runs to its end, acknowledges `ok: true` with the new
`roomId` and stores under it a room in state `lobby` whose `hostId` is the
creating session, whose `players` has the host as its only entry, with empty
`turnOrder`, `currentTurnIdx` 0, null `lastPrompt`, empty `confirmations`, and
with `mode` the given mode, or `funny` when the mode is absent or empty; a
following `get_room` on `roomId` acknowledges `ok: true` with that room and
changes nothing. -/
theorem C16_create_room (env : Env) (socket : SessionId) (name mode : Option String)
    (cb : Bool) (rooms : Registry) :
    (create_room env socket name mode cb rooms).threw = false ∧
    (create_room env socket name mode cb rooms).acks
      = callCb cb { ok := true, roomId := some (randId env.random 0 6) } ∧
    ∃ r p, (create_room env socket name mode cb rooms).rooms.get? (randId env.random 0 6)
        = some r ∧
      r.id = randId env.random 0 6 ∧
      r.state = RoomState.lobby ∧ r.hostId = socket ∧
      r.players.keys = [socket] ∧ r.players.get? socket = some p ∧ p.id = socket ∧
      r.turnOrder = [] ∧ r.currentTurnIdx = 0 ∧ r.lastPrompt = none ∧
      r.confirmations.keys = [] ∧
      (∀ m, mode = some m → m ≠ "" → r.mode = m) ∧
      (mode = none ∨ mode = some "" → r.mode = "funny") ∧
      r.prompts = generatePrompts r.mode ∧
      ∀ cb2, get_room (randId env.random 0 6) cb2
          (create_room env socket name mode cb rooms).rooms
        = ⟨(create_room env socket name mode cb rooms).rooms, [],
            callCb cb2 { ok := true, room := some (Found.own r) }, false⟩ := by
  unfold create_room
  refine ⟨rfl, rfl, _, _, JsObj.get?_set_self _ _ _, rfl, rfl, rfl, rfl,
    JsObj.get?_set_self _ _ _, rfl, rfl, rfl, rfl, rfl, ?_, ?_, rfl, ?_⟩
  · intro m hm hne
    simp only [hm, jsOr, hne, if_false]
  · intro hm
    rcases hm with hm | hm <;> simp [hm, jsOr]
  · intro cb2
    unfold get_room
    rw [lookup_of_get? (JsObj.get?_set_self _ _ _)]

/-! ### What the handlers leave alone -/

theorem FrameAt.same (full : Bool) (rooms : Registry) (k : String) :
    FrameAt full rooms rooms k := by
  cases hq : rooms.get? k with
  | none => exact Or.inl hq
  | some r => exact Or.inr ⟨r, r, hq, hq, rfl, rfl, fun _ => ⟨rfl, rfl⟩⟩

theorem FrameAt.of_set (full : Bool) {rooms : Registry} {roomId : String} {r r2 : Room}
    (k : String) (hg : rooms.get? roomId = some r)
    (h : r2.prompts = r.prompts ∧ r2.mode = r.mode ∧
      (full = true → r2.turnOrder = r.turnOrder ∧ r2.state = r.state)) :
    FrameAt full rooms (rooms.set roomId r2) k := by
  by_cases hk : k = roomId
  · subst hk
    exact Or.inr ⟨r, r2, hg, JsObj.get?_set_self _ _ _, h⟩
  · cases hq : rooms.get? k with
    | none =>
      left
      rw [JsObj.get?_set, if_neg hk, hq]
    | some r3 =>
      right
      refine ⟨r3, r3, hq, ?_, rfl, rfl, fun _ => ⟨rfl, rfl⟩⟩
      rw [JsObj.get?_set, if_neg hk, hq]

theorem FrameAt.of_erase (full : Bool) (rooms : Registry) (roomId k : String) :
    FrameAt full rooms (rooms.erase roomId) k := by
  by_cases hk : k = roomId
  · left
    rw [JsObj.get?_erase, if_pos hk]
  · cases hq : rooms.get? k with
    | none =>
      left
      rw [JsObj.get?_erase, if_neg hk, hq]
    | some r3 =>
      right
      refine ⟨r3, r3, hq, ?_, rfl, rfl, fun _ => ⟨rfl, rfl⟩⟩
      rw [JsObj.get?_erase, if_neg hk, hq]

theorem FrameAt.chain {full : Bool} {a b c : Registry} {k : String}
    (h1 : FrameAt full a b k) (h2 : FrameAt full b c k) : FrameAt full a c k := by
  rcases h2 with h2 | ⟨rb, rc, hb, hc, hp, hm, hf⟩
  · exact Or.inl h2
  · rcases h1 with h1 | ⟨ra, rb2, ha, hb2, hp2, hm2, hf2⟩
    · rw [h1] at hb
      simp at hb
    · rw [hb] at hb2
      simp only [Option.some.injEq] at hb2
      subst hb2
      refine Or.inr ⟨ra, rc, ha, hc, hp.trans hp2, hm.trans hm2, fun hfull => ?_⟩
      exact ⟨(hf hfull).1.trans (hf2 hfull).1, (hf hfull).2.trans (hf2 hfull).2⟩

theorem create_room_frame (full : Bool) (env : Env) (socket : SessionId)
    (name mode : Option String) (cb : Bool) (rooms : Registry) (k : String)
    (hk : randId env.random 0 6 ≠ k) :
    FrameAt full rooms (create_room env socket name mode cb rooms).rooms k := by
  have hg : (create_room env socket name mode cb rooms).rooms.get? k = rooms.get? k := by
    unfold create_room
    simp only
    rw [JsObj.get?_set, if_neg (fun e => hk e.symm)]
  cases hq : rooms.get? k with
  | none => exact Or.inl (hg.trans hq)
  | some r => exact Or.inr ⟨r, r, hq, hg.trans hq, rfl, rfl, fun _ => ⟨rfl, rfl⟩⟩

theorem join_room_frame (full : Bool) (env : Env) (socket : SessionId) (roomId : String)
    (name : Option String) (cb : Bool) (rooms : Registry) (k : String) :
    FrameAt full rooms (join_room env socket roomId name cb rooms).rooms k := by
  unfold join_room
  split
  · exact FrameAt.same _ _ _
  · exact FrameAt.same _ _ _
  · rename_i r hl
    exact FrameAt.of_set full k (get?_of_lookup hl) ⟨rfl, rfl, fun _ => ⟨rfl, rfl⟩⟩

theorem leave_room_frame (full : Bool) (socket : SessionId) (roomId : String) (cb : Bool)
    (rooms : Registry) (k : String) :
    FrameAt full rooms (leave_room socket roomId cb rooms).rooms k := by
  unfold leave_room
  split
  · exact FrameAt.same _ _ _
  · exact FrameAt.same _ _ _
  · rename_i r hl
    have hg := get?_of_lookup hl
    simp only
    split
    · split
      · split
        · exact FrameAt.of_set full k hg ⟨rfl, rfl, fun _ => ⟨rfl, rfl⟩⟩
        · exact FrameAt.of_set full k hg ⟨rfl, rfl, fun _ => ⟨rfl, rfl⟩⟩
      · exact FrameAt.of_erase _ _ _ _
    · exact FrameAt.of_set full k hg ⟨rfl, rfl, fun _ => ⟨rfl, rfl⟩⟩

theorem start_game_frame (env : Env) (roomId : String) (cb : Bool) (rooms : Registry)
    (k : String) : FrameAt false rooms (start_game env roomId cb rooms).rooms k := by
  unfold start_game
  split
  · exact FrameAt.same _ _ _
  · exact FrameAt.same _ _ _
  · rename_i r hl
    exact FrameAt.of_set false k (get?_of_lookup hl) ⟨rfl, rfl, fun h => by simp at h⟩

theorem pick_prompt_frame (full : Bool) (env : Env) (socket : SessionId) (roomId : String)
    (choice : Option String) (cb : Bool) (rooms : Registry) (k : String) :
    FrameAt full rooms (pick_prompt env socket roomId choice cb rooms).rooms k := by
  unfold pick_prompt
  split
  · exact FrameAt.same _ _ _
  · exact FrameAt.same _ _ _
  · rename_i r hl
    have hg := get?_of_lookup hl
    simp only
    split
    · exact FrameAt.of_set full k hg ⟨rfl, rfl, fun _ => ⟨rfl, rfl⟩⟩
    · exact FrameAt.of_set full k hg ⟨rfl, rfl, fun _ => ⟨rfl, rfl⟩⟩

theorem confirm_did_it_frame (full : Bool) (env : Env) (socket : SessionId) (roomId : String)
    (cb : Bool) (rooms : Registry) (k : String) :
    FrameAt full rooms (confirm_did_it env socket roomId cb rooms).rooms k := by
  unfold confirm_did_it
  split
  · exact FrameAt.same _ _ _
  · exact FrameAt.same _ _ _
  · rename_i r hl
    have hg := get?_of_lookup hl
    simp only
    split
    · exact FrameAt.of_set full k hg ⟨rfl, rfl, fun _ => ⟨rfl, rfl⟩⟩
    · split
      · exact FrameAt.of_set full k hg ⟨rfl, rfl, fun _ => ⟨rfl, rfl⟩⟩
      · exact FrameAt.of_set full k hg ⟨rfl, rfl, fun _ => ⟨rfl, rfl⟩⟩

theorem force_next_frame (full : Bool) (socket : SessionId) (roomId : String) (cb : Bool)
    (rooms : Registry) (k : String) :
    FrameAt full rooms (force_next socket roomId cb rooms).rooms k := by
  unfold force_next
  split
  · exact FrameAt.same _ _ _
  · exact FrameAt.same _ _ _
  · rename_i r hl
    exact FrameAt.of_set full k (get?_of_lookup hl) ⟨rfl, rfl, fun _ => ⟨rfl, rfl⟩⟩

theorem disconnect_frame (full : Bool) (socket : SessionId) (rooms : Registry) (k : String) :
    FrameAt full rooms (disconnect socket rooms).rooms k := by
  cases hq : (disconnect socket rooms).rooms.get? k with
  | none => exact Or.inl hq
  | some r2 =>
    have h := hq
    rw [disconnect_get?] at h
    cases hr : rooms.get? k with
    | none => rw [hr] at h; simp at h
    | some r =>
      rw [hr] at h
      obtain ⟨_, _, _, h4, _, h6, _, _, h9, h10⟩ := disconnectRoom_some socket r r2 h
      exact Or.inr ⟨r, r2, hr, hq, h9, h10, fun _ => ⟨h4, h6⟩⟩

theorem handle_frame (full : Bool) (e : Incoming) (rooms : Registry) (k : String)
    (hc : e.request.isCreate = true → randId e.env.random 0 6 ≠ k)
    (hs : full = true → e.request.isStart = false) :
    FrameAt full rooms (handle e rooms).rooms k := by
  unfold handle
  cases hq : e.request with
  | create_room name mode =>
    exact create_room_frame full _ _ _ _ _ _ k (hc (by rw [hq]; rfl))
  | join_room roomId name => exact join_room_frame full _ _ _ _ _ _ k
  | leave_room roomId => exact leave_room_frame full _ _ _ _ k
  | start_game roomId =>
    cases full with
    | false => exact start_game_frame _ _ _ _ k
    | true =>
      have := hs rfl
      rw [hq] at this
      simp [Request.isStart] at this
  | pick_prompt roomId choice => exact pick_prompt_frame full _ _ _ _ _ _ k
  | confirm_did_it roomId => exact confirm_did_it_frame full _ _ _ _ _ k
  | force_next roomId => exact force_next_frame full _ _ _ _ k
  | get_room roomId =>
    simp only
    rw [get_room_rooms]
    exact FrameAt.same _ _ _
  | disconnect => exact disconnect_frame full _ _ k

theorem runFrom_frame (full : Bool) (trace : List Incoming) (rooms : Registry) (k : String)
    (hc : ∀ e ∈ trace, e.request.isCreate = true → randId e.env.random 0 6 ≠ k)
    (hs : full = true → ∀ e ∈ trace, e.request.isStart = false) :
    FrameAt full rooms (runFrom rooms trace) k := by
  induction trace generalizing rooms with
  | nil => exact FrameAt.same _ _ _
  | cons e trace ih =>
    have h1 := handle_frame full e rooms k (hc e (List.mem_cons_self _ _))
      (fun hf => hs hf e (List.mem_cons_self _ _))
    have h2 := ih (handle e rooms).rooms (fun e2 h2 => hc e2 (List.mem_cons_of_mem _ h2))
      (fun hf e2 h2 => hs hf e2 (List.mem_cons_of_mem _ h2))
    exact h1.chain h2

/-- C17: let the events of `trace` be handled from a table that holds a
room `r` under `k`, none of them a `create_room` that allocates the id `k`
again.  If a room is under `k` afterwards, its prompt pools and its mode are
those of `r`; and if no event of `trace` is a `start_game`, that is, the events
are `join_room`, `leave_room`, `pick_prompt`, `confirm_did_it`, `force_next`,
`get_room`, `disconnect` and `create_room` for other ids, its `turnOrder` and
`state` are those of `r` too. -/
theorem C17_turn_order_fixed (rooms : Registry) (trace : List Incoming) (k : String)
    (r r2 : Room)
    (hc : ∀ e ∈ trace, e.request.isCreate = true → randId e.env.random 0 6 ≠ k)
    (hr : rooms.get? k = some r) (h2 : (runFrom rooms trace).get? k = some r2) :
    r2.prompts = r.prompts ∧ r2.mode = r.mode ∧
    ((∀ e ∈ trace, e.request.isStart = false) →
      r2.turnOrder = r.turnOrder ∧ r2.state = r.state) := by
  have key : ∀ full : Bool, (full = true → ∀ e ∈ trace, e.request.isStart = false) →
      r2.prompts = r.prompts ∧ r2.mode = r.mode ∧
        (full = true → r2.turnOrder = r.turnOrder ∧ r2.state = r.state) := by
    intro full hs
    rcases runFrom_frame full trace rooms k hc hs with h | ⟨ra, rb, ha, hb, hp, hm, hf⟩
    · rw [h] at h2
      simp at h2
    · rw [hr] at ha
      rw [h2] at hb
      simp only [Option.some.injEq] at ha hb
      subst ha
      subst hb
      exact ⟨hp, hm, hf⟩
  refine ⟨(key false (fun h => by simp at h)).1, (key false (fun h => by simp at h)).2.1, ?_⟩
  intro hs
  exact (key true (fun _ => hs)).2.2 rfl

/-- C17 at the started game of Ann and Bob: Ann picks, Bob confirms, the turn
index moves and the turn order, state, pools and mode stay. -/
theorem C17_turn_order_fixed_witness :
    (run [annCreates, bobJoins, annStarts]).get? "AAAAAA" = some roomStarted ∧
      (runFrom (run [annCreates, bobJoins, annStarts]) [annPicks, bobConfirms]).get? "AAAAAA"
        = some roomAfterTurn ∧
      roomAfterTurn.prompts = roomStarted.prompts ∧ roomAfterTurn.mode = roomStarted.mode ∧
      ((∀ e ∈ [annPicks, bobConfirms], e.request.isStart = false) →
        roomAfterTurn.turnOrder = roomStarted.turnOrder ∧
          roomAfterTurn.state = roomStarted.state) :=
  ⟨rfl, rfl,
    C17_turn_order_fixed (run [annCreates, bobJoins, annStarts]) [annPicks, bobConfirms]
      "AAAAAA" roomStarted roomAfterTurn
      (by
        intro e he h
        simp only [List.mem_cons, List.mem_singleton, List.not_mem_nil, or_false] at he
        rcases he with rfl | rfl <;> simp [annPicks, bobConfirms, Request.isCreate] at h)
      rfl rfl⟩

/-- C18: for every mode, `generatePrompts(mode)` returns 350 truths and 350
dares, hence at least 300 of each, and for every mode other than `risky` the
result is that of `generatePrompts('funny')`. -/
theorem C18_generatePrompts_shape (mode : String) :
    (generatePrompts mode).truths.length = 350 ∧
    (generatePrompts mode).dares.length = 350 ∧
    300 ≤ (generatePrompts mode).truths.length ∧
    300 ≤ (generatePrompts mode).dares.length ∧
    (mode ≠ "risky" → generatePrompts mode = generatePrompts "funny") := by
  have ht := generatePrompts_truths_length mode
  have hd := generatePrompts_dares_length mode
  refine ⟨ht, hd, by omega, by omega, ?_⟩
  intro h
  have hf : ¬ ("funny" = "risky") := by decide
  unfold generatePrompts
  simp only [h, hf, if_false]

/-- C18 at the unrecognised mode `spicy`. -/
theorem C18_generatePrompts_shape_witness :
    "spicy" ≠ "risky" ∧ (generatePrompts "spicy").truths.length = 350 ∧
      (generatePrompts "spicy").dares.length = 350 ∧
      generatePrompts "spicy" = generatePrompts "funny" :=
  ⟨by decide, (C18_generatePrompts_shape "spicy").1, (C18_generatePrompts_shape "spicy").2.1,
    (C18_generatePrompts_shape "spicy").2.2.2.2 (by decide)⟩

/-- C19, the code at the failing input: the first dare of the `risky` pool.
Its base template is `Do your best pirate impression for 30 seconds.`; the call
`replace('or', 'or (risky)')` hits the `or` of the word `for` inside that
template, so the generated dare does not start with the unmodified template and
the mode tag stands inside it; the `funny` pool differs from the `risky` one at
the same place.  The first truth does start with its template. -/
theorem C19_dare_tag_inside_template :
    pick dareTemplates 0 = "Do your best pirate impression for 30 seconds." ∧
    (generatePrompts "risky").dares[0]? = some
      ("Do your best pirate impression for (risky) 30 seconds. — or kiss a random "
        ++ "object in front of the group (round 1)") ∧
    (generatePrompts "funny").dares[0]? = some
      ("Do your best pirate impression for (funny) 30 seconds. — or kiss a random "
        ++ "object in front of the group (round 1)") ∧
    (pick dareTemplates 0).data.isPrefixOf
      ("Do your best pirate impression for (risky) 30 seconds. — or kiss a random "
        ++ "object in front of the group (round 1)").data = false ∧
    (generatePrompts "risky").truths[0]? = some
      "What's the wildest crush you've had since you were a teen? (awkward risky edition #1)" := by
  refine ⟨by decide, ?_, ?_, by decide, ?_⟩
  · rw [generatePrompts_dares_getElem? "risky" 0 (by decide)]
    decide
  · rw [generatePrompts_dares_getElem? "funny" 0 (by decide)]
    decide
  · rw [generatePrompts_truths_getElem? "risky" 0 (by decide)]
    decide

/-- C20: for every sequence of draws, `randId(6)` is a string of exactly 6
characters and `randId(len)` one of exactly `len` characters, each a member of
the alphabet `ABCDEFGHJKMNPQRSTUVWXYZ23456789`; the alphabet has exactly 31
symbols, pairwise distinct, each an upper-case letter or a digit, and none of
them is `I`, `L`, `O`, `0` or `1`. -/
theorem C20_randId_format (random : Nat → Draw) (k len : Nat) :
    (randId random k 6).length = 6 ∧
    (∀ c ∈ (randId random k 6).data, c ∈ chars) ∧
    (randId random k len).length = len ∧
    (∀ c ∈ (randId random k len).data, c ∈ chars) ∧
    chars = "ABCDEFGHJKMNPQRSTUVWXYZ23456789".data ∧
    chars.length = 31 ∧ chars.Nodup ∧
    (∀ c ∈ chars, c.isUpper = true ∨ c.isDigit = true) ∧
    'I' ∉ chars ∧ 'L' ∉ chars ∧ 'O' ∉ chars ∧ '0' ∉ chars ∧ '1' ∉ chars :=
  ⟨randId_length random k 6, randId_data random k 6, randId_length random k len,
    randId_data random k len, rfl, chars_length, by decide, by decide, by decide, by decide,
    by decide, by decide, by decide⟩

/-! ### The truths are decorated after their template -/

theorem isPrefixOf_append_right (l x b : List Char) (h : l.length ≤ x.length) :
    l.isPrefixOf (x ++ b) = l.isPrefixOf x := by
  induction l generalizing x with
  | nil => simp
  | cons c cs ih =>
    cases x with
    | nil => simp at h
    | cons y ys =>
      show (c == y && cs.isPrefixOf (ys ++ b)) = (c == y && cs.isPrefixOf ys)
      rw [ih ys (by simpa using h)]

theorem replaceChars_first (pat rep : List Char) (hp : pat ≠ []) (a b : List Char)
    (h : startsFree pat a = true) :
    replaceChars pat rep (a ++ pat ++ b) = a ++ rep ++ b := by
  induction a with
  | nil =>
    cases pat with
    | nil => exact absurd rfl hp
    | cons c cs =>
      have hpre : (c :: cs).isPrefixOf (c :: (cs ++ b)) = true := by
        have := isPrefixOf_append_right (c :: cs) (c :: cs) b (Nat.le_refl _)
        rw [show c :: (cs ++ b) = c :: cs ++ b from rfl, this]
        simp
      show replaceChars (c :: cs) rep (c :: (cs ++ b)) = rep ++ b
      rw [replaceChars, if_pos hpre]
      simp
  | cons x xs ih =>
    simp only [startsFree, Bool.and_eq_true, Bool.not_eq_true'] at h
    have hno : pat.isPrefixOf (x :: (xs ++ pat ++ b)) = false := by
      have := isPrefixOf_append_right pat (x :: xs ++ pat) b (by simp; omega)
      rw [show x :: (xs ++ pat ++ b) = x :: xs ++ pat ++ b from rfl, this]
      exact h.1
    show replaceChars pat rep (x :: (xs ++ pat ++ b)) = x :: (xs ++ rep ++ b)
    rw [replaceChars, if_neg (by rw [hno]; exact Bool.false_ne_true), ih h.2]

theorem pick_mem (arr : List String) (i : Nat) (h : arr ≠ []) : pick arr i ∈ arr := by
  unfold pick
  have hlt : i % arr.length < arr.length := Nat.mod_lt _ (List.length_pos.mpr h)
  rw [List.getElem?_eq_getElem hlt]
  exact List.getElem_mem hlt

theorem truth_heads_free :
    ∀ t ∈ truthTemplates, ∀ a ∈ adjectives,
      startsFree "edition".data (t ++ " (" ++ a ++ " ").data = true := by
  decide

/-- For every mode and every index below 350, the generated truth is its
template, then ` (`, the adjective, the mode tag, ` edition #`, the round
number and `)`: the decoration follows the unmodified template. -/
theorem generatePrompts_truths_decorated (mode : String) (i : Nat) (hi : i < 350) :
    (generatePrompts mode).truths[i]? = some
      (pick truthTemplates i ++ (" (" ++ pick adjectives i ++ " "
        ++ (if mode = "risky" then "risky edition" else "funny edition")
        ++ " #" ++ toString (i + 1) ++ ")")) := by
  rw [generatePrompts_truths_getElem? mode i hi]
  have hfree := truth_heads_free _ (pick_mem truthTemplates i (by decide)) _
    (pick_mem adjectives i (by decide))
  have hsplit : (truthAt i).data =
      (pick truthTemplates i ++ " (" ++ pick adjectives i ++ " ").data ++ "edition".data
        ++ (" #" ++ toString (i + 1) ++ ")").data := by
    simp [truthAt, String.data_append]
  have hrep := replaceChars_first "edition".data
    (if mode = "risky" then "risky edition" else "funny edition").data (by decide) _
    (" #" ++ toString (i + 1) ++ ")").data hfree
  congr 1
  apply String.ext
  unfold replace
  rw [hsplit, hrep]
  simp [String.data_append]

/-! ### Repeated `force_next` -/

theorem force_next_get? (socket : SessionId) (roomId : String) (cb : Bool) (rooms : Registry)
    (r : Room) (hr : rooms.get? roomId = some r) :
    (force_next socket roomId cb rooms).rooms.get? roomId =
      some { r with currentTurnIdx := nextTurnIdx r, confirmations := JsObj.empty,
                    lastPrompt := none } := by
  unfold force_next
  rw [lookup_of_get? hr]
  exact JsObj.get?_set_self _ _ _

theorem forceRun_get? (roomId : String) (calls : List (SessionId × Bool)) (rooms : Registry)
    (r : Room) (hr : rooms.get? roomId = some r)
    (hidx : r.currentTurnIdx < max 1 r.turnOrder.length) :
    ∃ r2, (forceRun roomId calls rooms).get? roomId = some r2 ∧
      r2.turnOrder = r.turnOrder ∧
      r2.currentTurnIdx = (r.currentTurnIdx + calls.length) % max 1 r.turnOrder.length := by
  induction calls generalizing rooms r with
  | nil =>
    refine ⟨r, hr, rfl, ?_⟩
    rw [List.length_nil, Nat.add_zero, Nat.mod_eq_of_lt hidx]
  | cons c calls ih =>
    have h1 := force_next_get? c.1 roomId c.2 rooms r hr
    obtain ⟨r2, hg, ht, hi⟩ := ih (force_next c.1 roomId c.2 rooms).rooms _ h1
      (nextTurnIdx_lt r)
    refine ⟨r2, hg, ht, ?_⟩
    rw [hi]
    show (nextTurnIdx r + calls.length) % max 1 r.turnOrder.length = _
    unfold nextTurnIdx
    rw [Nat.mod_add_mod, List.length_cons]
    congr 1
    omega

theorem shifted_index_injective (n a i j : Nat) (hi : i < n) (hj : j < n)
    (h : (a + i) % n = (a + j) % n) : i = j := by
  have h2 : i ≡ j [MOD n] := Nat.ModEq.add_left_cancel' a h
  have h3 : i % n = j % n := h2
  rwa [Nat.mod_eq_of_lt hi, Nat.mod_eq_of_lt hj] at h3

theorem shifted_index_onto (n a p : Nat) (ha : a < n) (hp : p < n) :
    (p + n - a) % n < n ∧ (a + (p + n - a) % n) % n = p := by
  have hn : 0 < n := Nat.lt_of_le_of_lt (Nat.zero_le _) ha
  refine ⟨Nat.mod_lt _ hn, ?_⟩
  rw [Nat.add_mod_mod, show a + (p + n - a) = p + n by omega, Nat.add_mod_right,
    Nat.mod_eq_of_lt hp]

/-- C21: let a room have a non-empty `turnOrder` of length `n` and
`0 <= currentTurnIdx < n`, and let `n` `force_next` requests, from any
sessions, be handled in a row.  After the `n` requests `currentTurnIdx` is back
at its original value; after the first `j` of them, `j <= n`, it is
`(currentTurnIdx + j) mod n`; the values it has after `0, 1, ..., n - 1`
requests are pairwise distinct, and every position below `n` is among them, so
each position of `turnOrder` is visited exactly once per cycle. -/
theorem C21_force_next_cycle (roomId : String) (rooms : Registry) (r : Room)
    (calls : List (SessionId × Bool)) (hr : rooms.get? roomId = some r)
    (hne : r.turnOrder ≠ []) (hidx : r.currentTurnIdx < r.turnOrder.length)
    (hlen : calls.length = r.turnOrder.length) :
    (∃ r2, (forceRun roomId calls rooms).get? roomId = some r2 ∧
      r2.currentTurnIdx = r.currentTurnIdx ∧ r2.turnOrder = r.turnOrder) ∧
    (∀ j, j ≤ r.turnOrder.length →
      ∃ rj, (forceRun roomId (calls.take j) rooms).get? roomId = some rj ∧
        rj.currentTurnIdx = (r.currentTurnIdx + j) % r.turnOrder.length) ∧
    (∀ i j ri rj, i < r.turnOrder.length → j < r.turnOrder.length →
      (forceRun roomId (calls.take i) rooms).get? roomId = some ri →
      (forceRun roomId (calls.take j) rooms).get? roomId = some rj →
      ri.currentTurnIdx = rj.currentTurnIdx → i = j) ∧
    (∀ p, p < r.turnOrder.length →
      ∃ j rj, j < r.turnOrder.length ∧
        (forceRun roomId (calls.take j) rooms).get? roomId = some rj ∧
        rj.currentTurnIdx = p) := by
  have hpos : 0 < r.turnOrder.length := List.length_pos.mpr hne
  have hmax : max 1 r.turnOrder.length = r.turnOrder.length := by omega
  have hidx2 : r.currentTurnIdx < max 1 r.turnOrder.length := by rw [hmax]; exact hidx
  have step : ∀ j, j ≤ r.turnOrder.length →
      ∃ rj, (forceRun roomId (calls.take j) rooms).get? roomId = some rj ∧
        rj.currentTurnIdx = (r.currentTurnIdx + j) % r.turnOrder.length := by
    intro j hj
    obtain ⟨rj, hg, _, hi⟩ := forceRun_get? roomId (calls.take j) rooms r hr hidx2
    refine ⟨rj, hg, ?_⟩
    rw [hi, hmax, List.length_take, hlen, Nat.min_eq_left hj]
  refine ⟨?_, step, ?_, ?_⟩
  · obtain ⟨r2, hg, ht, hi⟩ := forceRun_get? roomId calls rooms r hr hidx2
    refine ⟨r2, hg, ?_, ht⟩
    rw [hi, hmax, hlen, Nat.add_mod_right, Nat.mod_eq_of_lt hidx]
  · intro i j ri rj hi hj hgi hgj heq
    obtain ⟨ri2, hgi2, hii⟩ := step i (Nat.le_of_lt hi)
    obtain ⟨rj2, hgj2, hjj⟩ := step j (Nat.le_of_lt hj)
    rw [hgi] at hgi2
    rw [hgj] at hgj2
    simp only [Option.some.injEq] at hgi2 hgj2
    subst hgi2
    subst hgj2
    rw [hii, hjj] at heq
    exact shifted_index_injective _ _ i j hi hj heq
  · intro p hp
    obtain ⟨hlt, hval⟩ := shifted_index_onto r.turnOrder.length r.currentTurnIdx p hidx hp
    obtain ⟨rj, hg, hi⟩ := step _ (Nat.le_of_lt hlt)
    exact ⟨_, rj, hlt, hg, hi.trans hval⟩

/-- C21 at the started game of Ann and Bob, two players at index 0: after one
`force_next` the index is 1, after two it is 0 again. -/
theorem C21_force_next_cycle_witness :
    (run [annCreates, bobJoins, annStarts]).get? "AAAAAA" = some roomStarted ∧
      roomStarted.turnOrder ≠ [] ∧
      roomStarted.currentTurnIdx < roomStarted.turnOrder.length ∧
      [(eve, true), (ann, false)].length = roomStarted.turnOrder.length ∧
      (forceRun "AAAAAA" [(eve, true)] (run [annCreates, bobJoins, annStarts])).get? "AAAAAA"
        = some { roomStarted with currentTurnIdx := 1 } ∧
      (forceRun "AAAAAA" [(eve, true), (ann, false)]
          (run [annCreates, bobJoins, annStarts])).get? "AAAAAA" = some roomStarted ∧
      ∃ r2, (forceRun "AAAAAA" [(eve, true), (ann, false)]
          (run [annCreates, bobJoins, annStarts])).get? "AAAAAA" = some r2 ∧
        r2.currentTurnIdx = roomStarted.currentTurnIdx ∧
        r2.turnOrder = roomStarted.turnOrder :=
  ⟨rfl, by decide, by decide, rfl, rfl, rfl,
    (C21_force_next_cycle "AAAAAA" (run [annCreates, bobJoins, annStarts]) roomStarted
      [(eve, true), (ann, false)] rfl (by decide) (by decide) rfl).1⟩

end TruthOrDare
